import Mathlib

/-!
K-means clustering (`kmeans.go`): embedding and verified properties.

The Go program is embedded function by function.  A `float64` value is NaN, +Inf, -Inf
or a finite number, a rational; the IEEE rules for the special values hold (`0/0 = NaN`,
NaN compares unequal to everything and is never smaller than anything).  The arithmetic on
finite values is embedded twice.

* Exact arithmetic (the definitions directly in `KMeansGo`): an operation on finite values
  returns the exact result, and the value of `math.Sqrt` is kept as the root of its
  radicand (`Root`).  Rounding and overflow are outside this embedding.  It carries the
  properties in which the finite arithmetic plays no part (termination, the shuffle, the
  positions of the points, the front ends, the colours, empty clusters), the cost of a
  clustering, which is a statement over exact arithmetic, and the centroids of points of
  the square.
* Rounded arithmetic (`KMeansGo.Rounded`): every operation stores the rounded result,
  which may overflow to an infinity or underflow to zero.  The rounding is a parameter
  (`Rounding`); `ieee`, IEEE 754 binary64 with rounding to nearest, ties to even, is the
  arithmetic of Go.  What is proved for every rounding holds for `ieee`, and the runs of
  the program are evaluated with `ieee`.  It carries every property that depends on the
  values the program computes: distances, labels, means and drawn positions.

The pseudo-random source is a stream `rs : Nat → Nat`; the `t`-th call
`rand.Intn(n)` returns `rs t % n`.  A slice `[]*Circle` is the list of the circles it
points to: its pointers are non-nil and pairwise distinct, and its capacity is its length.
Points enter `KMeans` as `CreateCircles` and `CreateNormCircles` build them, with the
field `cluster` at its zero value.
-/

namespace KMeansGo

/-! ## float64, exact arithmetic -/

/-- A `float64` value: NaN, the two infinities, or an exact finite number. -/
inductive F64 where
  | nan : F64
  | pinf : F64
  | ninf : F64
  | fin (q : ℚ) : F64
  deriving DecidableEq

namespace F64

/-- Negation. -/
def neg : F64 → F64
  | nan => nan
  | pinf => ninf
  | ninf => pinf
  | fin q => fin (-q)

/-- Addition `a + b`, exact on finite values. -/
def add : F64 → F64 → F64
  | nan, _ => nan
  | _, nan => nan
  | pinf, ninf => nan
  | ninf, pinf => nan
  | pinf, _ => pinf
  | ninf, _ => ninf
  | fin _, pinf => pinf
  | fin _, ninf => ninf
  | fin a, fin b => fin (a + b)

/-- Subtraction `a - b`, exact on finite values. -/
def sub (a b : F64) : F64 := add a (neg b)

/-- An infinity with the sign of `s` times the sign of the infinity `pos`. -/
def infOfSign (pos : Bool) (s : ℚ) : F64 :=
  if s = 0 then nan else if (0 < s) = pos then pinf else ninf

/-- Multiplication `a * b`, exact on finite values. -/
def mul : F64 → F64 → F64
  | nan, _ => nan
  | _, nan => nan
  | pinf, pinf => pinf
  | pinf, ninf => ninf
  | ninf, pinf => ninf
  | ninf, ninf => pinf
  | pinf, fin b => infOfSign true b
  | ninf, fin b => infOfSign false b
  | fin a, pinf => infOfSign true a
  | fin a, ninf => infOfSign false a
  | fin a, fin b => fin (a * b)

/-- Division `a / b`, exact on finite values (a zero divisor is the positive zero). -/
def div : F64 → F64 → F64
  | nan, _ => nan
  | _, nan => nan
  | pinf, pinf => nan
  | pinf, ninf => nan
  | ninf, pinf => nan
  | ninf, ninf => nan
  | pinf, fin b => if 0 ≤ b then pinf else ninf
  | ninf, fin b => if 0 ≤ b then ninf else pinf
  | fin _, pinf => fin 0
  | fin _, ninf => fin 0
  | fin a, fin b => if b = 0 then infOfSign true a else fin (a / b)

/-- The comparison `a != b`: true whenever one side is NaN. -/
def ne : F64 → F64 → Bool
  | nan, _ => true
  | _, nan => true
  | a, b => decide (a ≠ b)

/-- The conversion `float64(n)` of an integer. -/
def ofInt (n : Int) : F64 := fin n

instance : Add F64 := ⟨add⟩
instance : Sub F64 := ⟨sub⟩
instance : Mul F64 := ⟨mul⟩
instance : Div F64 := ⟨div⟩

end F64

/-- A value returned by `math.Sqrt` (or the constant `math.MaxFloat64`): NaN, +Inf, or
the exact non-negative root of the rational `radicand`. -/
inductive Root where
  | nan : Root
  | pinf : Root
  | root (radicand : ℚ) : Root
  deriving DecidableEq

/-- The function `math.Sqrt`, exact: the root is kept as its radicand. -/
def F64.sqrt : F64 → Root
  | F64.nan => Root.nan
  | F64.pinf => Root.pinf
  | F64.ninf => Root.nan
  | F64.fin q => if q < 0 then Root.nan else Root.root q

/-- The largest finite `float64`, `2^1024 - 2^971`. -/
def maxFloat64 : ℚ := 2 ^ 1024 - 2 ^ 971

/-- The constant `math.MaxFloat64`, as the root of its square. -/
def MaxFloat64 : Root := Root.root (maxFloat64 * maxFloat64)

namespace Root

/-- The comparison `a < b` (roots of non-negative radicands compare as the radicands). -/
def lt : Root → Root → Bool
  | root a, root b => decide (a < b)
  | root _, pinf => true
  | _, _ => false

/-- The comparison `a <= b`; false when one side is NaN. -/
def le : Root → Root → Bool
  | root a, root b => decide (a ≤ b)
  | root _, pinf => true
  | pinf, pinf => true
  | _, _ => false

/-- The test for NaN. -/
def isNaN : Root → Bool
  | nan => true
  | _ => false

end Root

/-! ## Data -/

/-- The struct `Circle`: a point or a centroid. -/
structure Circle where
  x : F64
  y : F64
  cluster : Int
  deriving DecidableEq

/-- The function `_euclidianDistance(x1, x2, y1, y2)`, over exact arithmetic. -/
def _euclidianDistance (x1 x2 y1 y2 : F64) : Root :=
  let p1 := x1 - x2
  let p2 := y1 - y2
  F64.sqrt ((p1 * p1) + (p2 * p2))

/-- The distance `CalculateClusters` computes between point `p` and centroid `c`. -/
def dist (p c : Circle) : Root := _euclidianDistance p.x c.x p.y c.y

/-! ## CalculateClusters -/

/-- The inner loop of `CalculateClusters` for one point `p`, from centroid index `j` on:
`cs` are the centroids not yet visited, `min` and `cluster` the current values of
`min` and `points[i].cluster`.  Returns the final `points[i].cluster`. -/
def scanCentroids (p : Circle) : List Circle → Nat → Root → Int → Int
  | [], _, _, cluster => cluster
  | c :: cs, j, min, cluster =>
    let d := dist p c
    if Root.lt d min then scanCentroids p cs (j + 1) d (j : Int)
    else scanCentroids p cs (j + 1) min cluster

/-- One pass of the outer loop of `CalculateClusters`: the point after its scan. -/
def assignPoint (centroids : List Circle) (p : Circle) : Circle :=
  { p with cluster := scanCentroids p centroids 0 MaxFloat64 p.cluster }

/-- The function `CalculateClusters`: the points after the call (centroids are not
written). -/
def CalculateClusters (points centroids : List Circle) : List Circle :=
  points.map (assignPoint centroids)

/-! ## _shuffleElements -/

/-- The three-assignment swap of `array[i]` and `array[j]` (for a slice of any element
type). -/
def swapAt {α : Type} (array : List α) (i j : Nat) : List α :=
  match array[i]?, array[j]? with
  | some ai, some aj => (array.set i aj).set j ai
  | _, _ => array

/-- The loop of `_shuffleElements` from index `i` down to 1; `t` counts the calls of
`rand.Intn` made so far. -/
def shuffleLoop {α : Type} (rs : Nat → Nat) : Nat → Nat → List α → List α
  | 0, _, array => array
  | i + 1, t, array =>
    let j := rs t % (i + 1 + 1)
    shuffleLoop rs i (t + 1) (swapAt array (i + 1) j)

/-- What stops a run early: a Go run-time panic. -/
inductive Fault where
  | intnArgument : Fault
  | sliceBounds : Fault
  | indexRange : Fault
  deriving DecidableEq

deriving instance DecidableEq for Except

/-- The function `_shuffleElements`.  On an empty slice `i` starts at `-1` and the first
call is `rand.Intn(0)`, which panics. -/
def _shuffleElements (rs : Nat → Nat) (array : List Circle) : Except Fault (List Circle) :=
  if array.length = 0 then Except.error Fault.intnArgument
  else Except.ok (shuffleLoop rs (array.length - 1) 0 array)

/-! ## KMeans -/

/-- The initial centroids built from the slice `shuffeled`, numbered from `i`. -/
def initCentroids : List Circle → Nat → List Circle
  | [], _ => []
  | s :: rest, i => { x := s.x, y := s.y, cluster := (i : Int) } :: initCentroids rest (i + 1)

/-- The sums `sumX`, `sumY` and the count `n` of the points labelled `i`. -/
def clusterSums (points : List Circle) (i : Int) : F64 × F64 × Int :=
  points.foldl
    (fun acc p => if p.cluster = i then (acc.1 + p.x, acc.2.1 + p.y, acc.2.2 + 1) else acc)
    (F64.fin 0, F64.fin 0, 0)

/-- One pass of the centroid loop: centroid `i` after its update, and whether `change`
was set by it. -/
def updateCentroid (points : List Circle) (i : Nat) (c : Circle) : Circle × Bool :=
  let s := clusterSums points (i : Int)
  let newX := s.1 / F64.ofInt s.2.2
  let newY := s.2.1 / F64.ofInt s.2.2
  let cx := if F64.ne newX c.x then { c with x := newX } else c
  let cy := if F64.ne newY c.y then { cx with y := newY } else cx
  (cy, F64.ne newX c.x || F64.ne newY c.y)

/-- The centroid loop from index `i` on: the updated centroids and the value of `change`
(which starts from `change`). -/
def updateCentroids (points : List Circle) : List Circle → Nat → Bool → List Circle × Bool
  | [], _, change => ([], change)
  | c :: cs, i, change =>
    let r := updateCentroid points i c
    let rest := updateCentroids points cs (i + 1) (change || r.2)
    (r.1 :: rest.1, rest.2)

/-- The state of the main loop. -/
structure Run where
  points : List Circle
  centroids : List Circle
  change : Bool
  iterations : Nat
  deriving DecidableEq

/-- The body of the main loop: one iteration. -/
def iterate (s : Run) : Run :=
  let u := updateCentroids s.points s.centroids 0 false
  let points := if u.2 then CalculateClusters s.points u.1 else s.points
  { points := points, centroids := u.1, change := u.2, iterations := s.iterations + 1 }

/-- The main loop `for (change && iterations < limit)`. -/
def mainLoop (limit : Int) (s : Run) : Run :=
  if s.change ∧ (s.iterations : Int) < limit then mainLoop limit (iterate s) else s
termination_by (limit - s.iterations).toNat
decreasing_by
  simp only [iterate]
  omega

/-- The main loop run for at most `rem` further iterations. -/
def runFor : Nat → Run → Run
  | 0, s => s
  | rem + 1, s => if s.change then runFor rem (iterate s) else s

/-- The clustering state `KMeans` ends with (the returned text prints `iterations` and
draws `points` and `centroids`). -/
structure Result where
  points : List Circle
  centroids : List Circle
  iterations : Nat
  deriving DecidableEq

/-- The state before the main loop, for the shuffled points `array`: the first `k`
become the centroids and every point is labelled. -/
def initRun (array : List Circle) (k : Nat) : Run :=
  let centroids := initCentroids (array.take k) 0
  { points := CalculateClusters array centroids, centroids := centroids,
    change := true, iterations := 0 }

/-- The function `KMeans`, up to the end of its main loop, over exact arithmetic. -/
def KMeans (rs : Nat → Nat) (points : List Circle) (k limit : Int) : Except Fault Result :=
  let limit := if limit = 0 then 10000 else limit
  match _shuffleElements rs points with
  | Except.error e => Except.error e
  | Except.ok array =>
    if k < 0 ∨ (array.length : Int) < k then Except.error Fault.sliceBounds
    else
      let s := mainLoop limit (initRun array k.toNat)
      Except.ok { points := s.points, centroids := s.centroids, iterations := s.iterations }

/-- A point with finite coordinates and label 0, as the generators build them. -/
def pt (a b : ℚ) : Circle := { x := F64.fin a, y := F64.fin b, cluster := 0 }

/-- A centroid with finite coordinates and cluster id `i`. -/
def ct (a b : ℚ) (i : Int) : Circle := { x := F64.fin a, y := F64.fin b, cluster := i }

/-- The iteration cap: `limit`, or 10000 when `limit` is 0. -/
def cap (limit : Int) : Int := if limit = 0 then 10000 else limit

/-- Centroid `cm`, at index `m` of `cs`, is the lowest-indexed centroid at minimum distance
from `p`, among the centroids whose distance from `p` is not NaN. -/
def LowestNearest (p : Circle) (cs : List Circle) (m : Nat) (cm : Circle) : Prop :=
  cs[m]? = some cm ∧
  (∀ (i : Nat) (ci : Circle), cs[i]? = some ci → (dist p ci).isNaN = false →
    Root.le (dist p cm) (dist p ci) = true) ∧
  (∀ (i : Nat) (ci : Circle), i < m → cs[i]? = some ci → (dist p ci).isNaN = false →
    Root.lt (dist p cm) (dist p ci) = true)

/-- The circle has finite coordinates, both within `[lo, hi]`. -/
def InBox (lo hi : ℚ) (c : Circle) : Prop :=
  ∃ a b : ℚ, c.x = F64.fin a ∧ c.y = F64.fin b ∧ lo ≤ a ∧ a ≤ hi ∧ lo ≤ b ∧ b ≤ hi

/-- Both coordinates of the circle are NaN. -/
def IsNaN (c : Circle) : Prop := c.x = F64.nan ∧ c.y = F64.nan

/-- The label is a centroid index: `0 <= cluster < k`. -/
def ValidLabel (k : Nat) (p : Circle) : Prop := 0 ≤ p.cluster ∧ p.cluster < (k : Int)

/-- The circle has finite coordinates. -/
def Finite (c : Circle) : Prop := ∃ a b : ℚ, c.x = F64.fin a ∧ c.y = F64.fin b

/-- The number a finite value stands for (0 for NaN and the infinities). -/
def F64.toRat : F64 → ℚ
  | F64.fin q => q
  | _ => 0

/-- The points labelled `i`, in order. -/
def members (points : List Circle) (i : Int) : List Circle :=
  points.filter (fun p => decide (p.cluster = i))

/-- The sum of the x coordinates of the points. -/
def sumX (points : List Circle) : ℚ := (points.map (fun p => p.x.toRat)).sum

/-- The sum of the y coordinates of the points. -/
def sumY (points : List Circle) : ℚ := (points.map (fun p => p.y.toRat)).sum

/-- The label invariant of the main loop: every label is a centroid index, there are `k`
centroids, and the labels are those `CalculateClusters` computes against the current
centroids. -/
def LabelInv (k : Nat) (s : Run) : Prop :=
  (∀ p ∈ s.points, ValidLabel k p) ∧ s.centroids.length = k ∧
  CalculateClusters s.points s.centroids = s.points

/-- The position invariant of the main loop, for points of the box `[lo, hi]²`: there is a
point, every centroid lies in the box or is NaN, and some centroid lies in the box. -/
def BoxInv (lo hi : ℚ) (s : Run) : Prop :=
  s.points ≠ [] ∧ (∀ p ∈ s.points, InBox lo hi p) ∧
  (∀ c ∈ s.centroids, InBox lo hi c ∨ IsNaN c) ∧ (∃ c ∈ s.centroids, InBox lo hi c)

/-- The four corners of the square scenario: (0,0), (10,0), (0,10), (10,10). -/
def squarePoints : List Circle := [pt 0 0, pt 10 0, pt 0 10, pt 10 10]

/-- Draws that bring (0,0) and (10,10) to the front of the shuffled corners. -/
def squareDraws (t : Nat) : Nat := [1, 2, 1].getD t 0

/-! ## The front ends -/

/-- What a front end does with a request, after parsing it. -/
inductive Response where
  /-- It returns without generating points or clustering. -/
  | nothing : Response
  /-- It writes "K needs to be <= number of points" and returns. -/
  | message : Response
  /-- It generates `points` circles (normally distributed if `normal`, else uniform) and
  calls `KMeans` on them with `k` and `limit`. -/
  | run (normal : Bool) (points k limit : Int) : Response
  /-- It starts the HTTP service. -/
  | serve : Response
  deriving DecidableEq

/-- The test `devx != 0 && meanx != 0 && devy != 0 && meany != 0` of both front ends. -/
def allSet (devx meanx devy meany : F64) : Bool :=
  F64.ne devx (F64.fin 0) && F64.ne meanx (F64.fin 0) && F64.ne devy (F64.fin 0) &&
    F64.ne meany (F64.fin 0)

/-- The function `kMeansHandler`, from the parsed form values on (a value that does not
parse is 0). -/
def kMeansHandler (k points limit : Int) (devx meanx devy meany : F64) : Response :=
  if k = 0 ∨ points = 0 then Response.nothing
  else if k > points then Response.message
  else Response.run (allSet devx meanx devy meany) points k limit

/-- The function `main`, from the parsed flags on. -/
def main (httpservice : Bool) (points k lim : Int) (devx devy meanx meany : F64) : Response :=
  if httpservice then Response.serve
  else if k = 0 ∨ points = 0 then Response.nothing
  else Response.run (allSet devy devx meanx meany) points k lim

/-! ## OutputToSVG -/

/-- The constants `WIDTH` and `HEIGHT`. -/
def WIDTH : Int := 70

/-- The constant `HEIGHT`. -/
def HEIGHT : Int := 70

/-- The conversion `int(v)` of a `float64`: truncation toward zero.  For NaN, the
infinities and values outside the 64-bit range Go leaves the result to the implementation;
the value of amd64, `-2^63`, is taken. -/
def F64.toInt : F64 → Int
  | F64.fin q =>
    if -(2 : Int) ^ 63 ≤ Int.tdiv q.num q.den ∧ Int.tdiv q.num q.den < (2 : Int) ^ 63
    then Int.tdiv q.num q.den else -(2 : Int) ^ 63
  | _ => -(2 : Int) ^ 63

/-- The text `fmt.Sprintf("%x", n)`: lower-case hexadecimal digits, no padding. -/
def hex (n : Nat) : String := String.mk (Nat.toDigits 16 n)

/-- The function `_randomHex`, on the `t`-th draw. -/
def _randomHex (rs : Nat → Nat) (t : Nat) : String := hex (rs t % 16777215)

/-- The eight colours `_randomColors` starts from. -/
def fixedColors : List String :=
  ["#ef4444", "#faa31b", "#009f75", "#fff000", "#82c341", "#88c6ed", "#394ba0", "#d54799"]

/-- The loop of `_randomColors`: `n` further entries, the next draw being the `t`-th. -/
def randomColorsLoop (rs : Nat → Nat) : Nat → Nat → List String
  | 0, _ => []
  | n + 1, t => ("#" ++ _randomHex rs t) :: randomColorsLoop rs n (t + 1)

/-- The function `_randomColors`; `t` counts the calls of `rand.Intn` made before it. -/
def _randomColors (rs : Nat → Nat) (t : Nat) (k : Int) : Except Fault (List String) :=
  if k ≤ 8 then
    if k < 0 then Except.error Fault.sliceBounds
    else Except.ok (fixedColors.take k.toNat)
  else Except.ok (randomColorsLoop rs k.toNat t)

/-- A circle of the drawing: `canvas.Circle(x, y, r, style)`. -/
structure SvgCircle where
  x : Int
  y : Int
  r : Int
  style : String
  deriving DecidableEq

/-- The drawing: the canvas size given to `canvas.Start` and the circles, in order. -/
structure Svg where
  width : Int
  height : Int
  circles : List SvgCircle
  deriving DecidableEq

/-- The lookup `colors[cluster]`. -/
def colorAt (colors : List String) (cluster : Int) : Except Fault String :=
  if cluster < 0 then Except.error Fault.indexRange
  else
    match colors[cluster.toNat]? with
    | some color => Except.ok color
    | none => Except.error Fault.indexRange

/-- What the text returned by `KMeans` is made of: the iteration count it prints and the
drawing (the elapsed time is not modelled). -/
structure Output where
  iterations : Nat
  svg : Svg
  deriving DecidableEq

/-- The squared Euclidean distance between two circles with finite coordinates. -/
def sqDist (p c : Circle) : ℚ :=
  (p.x.toRat - c.x.toRat) * (p.x.toRat - c.x.toRat) +
    (p.y.toRat - c.y.toRat) * (p.y.toRat - c.y.toRat)

/-- The squared distance from a point to the centroid of its label (0 if the label names
no centroid). -/
def pointCost (centroids : List Circle) (p : Circle) : ℚ :=
  match centroids[p.cluster.toNat]? with
  | some c => sqDist p c
  | none => 0

/-- The total squared distance from each point to the centroid of its label. -/
def cost (points centroids : List Circle) : ℚ := (points.map (pointCost centroids)).sum

/-! ## Rounded arithmetic

The second embedding of `float64`.  Values are as before, but every operation on finite
values stores the result the machine stores: the exact result rounded to a `float64`,
which may be +Inf or -Inf (overflow) or zero (underflow).  The two zeros are one value:
the program never divides by a negative zero and compares them equal.  Each operation is
rounded on its own (no fused multiply-add), as the gc compiler does on amd64. -/

namespace F64

/-- The comparison `a < b`; false when one side is NaN. -/
def lt : F64 → F64 → Bool
  | fin a, fin b => decide (a < b)
  | fin _, pinf => true
  | ninf, fin _ => true
  | ninf, pinf => true
  | _, _ => false

/-- The comparison `a <= b`; false when one side is NaN. -/
def le : F64 → F64 → Bool
  | fin a, fin b => decide (a ≤ b)
  | fin _, pinf => true
  | ninf, fin _ => true
  | ninf, pinf => true
  | pinf, pinf => true
  | ninf, ninf => true
  | _, _ => false

/-- The test for NaN. -/
def isNaN : F64 → Bool
  | nan => true
  | _ => false

/-- The value is +Inf or a finite non-negative number (in particular it is not NaN). -/
def NonNeg (a : F64) : Prop := a = pinf ∨ ∃ r : ℚ, 0 ≤ r ∧ a = fin r

end F64

/-- The finite arithmetic of `float64`: `rnd q` is the value stored for the exact result
`q` of an addition, subtraction, multiplication or division of finite values, and `root q`
the value `math.Sqrt` returns for the finite argument `q >= 0`.  The laws are those every
rounding to nearest has: zero is stored exactly, rounding commutes with negation, and the
rounded value of a non-negative number is non-negative or +Inf. -/
structure Rounding where
  rnd : ℚ → F64
  root : ℚ → F64
  rnd_zero : rnd 0 = F64.fin 0
  rnd_neg : ∀ q : ℚ, rnd (-q) = F64.neg (rnd q)
  rnd_nonneg : ∀ q : ℚ, 0 ≤ q → rnd q = F64.pinf ∨ ∃ r : ℚ, 0 ≤ r ∧ rnd q = F64.fin r
  root_zero : root 0 = F64.fin 0
  root_nonneg : ∀ q : ℚ, 0 ≤ q → root q = F64.pinf ∨ ∃ r : ℚ, 0 ≤ r ∧ root q = F64.fin r

namespace Rounding

/-- Addition `a + b`, rounded. -/
def add (R : Rounding) : F64 → F64 → F64
  | F64.nan, _ => F64.nan
  | _, F64.nan => F64.nan
  | F64.pinf, F64.ninf => F64.nan
  | F64.ninf, F64.pinf => F64.nan
  | F64.pinf, _ => F64.pinf
  | F64.ninf, _ => F64.ninf
  | F64.fin _, F64.pinf => F64.pinf
  | F64.fin _, F64.ninf => F64.ninf
  | F64.fin a, F64.fin b => R.rnd (a + b)

/-- Subtraction `a - b`, rounded. -/
def sub (R : Rounding) (a b : F64) : F64 := R.add a (F64.neg b)

/-- Multiplication `a * b`, rounded. -/
def mul (R : Rounding) : F64 → F64 → F64
  | F64.nan, _ => F64.nan
  | _, F64.nan => F64.nan
  | F64.pinf, F64.pinf => F64.pinf
  | F64.pinf, F64.ninf => F64.ninf
  | F64.ninf, F64.pinf => F64.ninf
  | F64.ninf, F64.ninf => F64.pinf
  | F64.pinf, F64.fin b => F64.infOfSign true b
  | F64.ninf, F64.fin b => F64.infOfSign false b
  | F64.fin a, F64.pinf => F64.infOfSign true a
  | F64.fin a, F64.ninf => F64.infOfSign false a
  | F64.fin a, F64.fin b => R.rnd (a * b)

/-- Division `a / b`, rounded (a zero divisor is the positive zero). -/
def div (R : Rounding) : F64 → F64 → F64
  | F64.nan, _ => F64.nan
  | _, F64.nan => F64.nan
  | F64.pinf, F64.pinf => F64.nan
  | F64.pinf, F64.ninf => F64.nan
  | F64.ninf, F64.pinf => F64.nan
  | F64.ninf, F64.ninf => F64.nan
  | F64.pinf, F64.fin b => if 0 ≤ b then F64.pinf else F64.ninf
  | F64.ninf, F64.fin b => if 0 ≤ b then F64.ninf else F64.pinf
  | F64.fin _, F64.pinf => F64.fin 0
  | F64.fin _, F64.ninf => F64.fin 0
  | F64.fin a, F64.fin b => if b = 0 then F64.infOfSign true a else R.rnd (a / b)

/-- The function `math.Sqrt`. -/
def sqrt (R : Rounding) : F64 → F64
  | F64.nan => F64.nan
  | F64.pinf => F64.pinf
  | F64.ninf => F64.nan
  | F64.fin q => if q < 0 then F64.nan else R.root q

end Rounding

/-! ## IEEE 754 binary64 -/

/-- The power `2^d` of an integer exponent. -/
def pow2 (d : Int) : ℚ :=
  if 0 ≤ d then ((2 ^ d.toNat : Nat) : ℚ) else 1 / ((2 ^ (-d).toNat : Nat) : ℚ)

/-- Bisection, in `fuel` steps, for the largest `d` in `[lo, hi)` with `ok d` (or `lo` if
there is none), for a test `ok` that holds up to some exponent and fails above it. -/
def searchExp (ok : Int → Bool) : Nat → Int → Int → Int
  | 0, lo, _ => lo
  | fuel + 1, lo, hi =>
    let mid := (lo + hi) / 2
    if ok mid then searchExp ok fuel mid hi else searchExp ok fuel lo mid

/-- The integer nearest to `m >= 0`, a tie going to the even one. -/
def roundHalfEven (m : ℚ) : Nat :=
  let f := (Rat.floor m).toNat
  let r := m - (f : ℚ)
  if r < 1 / 2 then f
  else if 1 / 2 < r then f + 1
  else if f % 2 = 0 then f else f + 1

/-- The binary64 value nearest to `q > 0` (ties to even): with `e` the exponent of `q`,
not below -1022, the value is the multiple of `2^(e - 52)` nearest to `q`, and +Inf when
that is `2^1024`. -/
def rndPos (q : ℚ) : F64 :=
  let e := searchExp (fun d => decide (pow2 d ≤ q)) 12 (-1022) 1025
  let ulp := pow2 (e - 52)
  let v := (roundHalfEven (q / ulp) : ℚ) * ulp
  if pow2 1024 ≤ v then F64.pinf else F64.fin v

/-- Rounding to nearest, ties to even, with gradual underflow and overflow to the
infinities: the value binary64 arithmetic stores for the exact result `q`. -/
def rnd64 (q : ℚ) : F64 :=
  if q = 0 then F64.fin 0
  else if 0 < q then rndPos q
  else F64.neg (rndPos (-q))

/-- The integer square root by bits: the largest `r` below `2^b`, added to the given
`r`, whose square is at most `n`. -/
def isqrtAux (n : Nat) : Nat → Nat → Nat
  | 0, r => r
  | b + 1, r =>
    if (r + 2 ^ b) * (r + 2 ^ b) ≤ n then isqrtAux n b (r + 2 ^ b) else isqrtAux n b r

/-- The binary64 value nearest to the square root of `q >= 0` (ties to even), as the
hardware square root returns it: with `e` the exponent of the root, the multiple `n` of
`2^(e - 52)` nearest to the root is found by comparing `q` with the square of the midpoint. -/
def sqrt64 (q : ℚ) : F64 :=
  if q ≤ 0 then F64.fin 0
  else if pow2 2048 ≤ q then F64.pinf
  else
    let e := searchExp (fun d => decide (pow2 (2 * d) ≤ q)) 12 (-1022) 1025
    let ulp := pow2 (e - 52)
    let t := q / (ulp * ulp)
    let f := isqrtAux (Rat.floor t).toNat 53 0
    let h : ℚ := (f : ℚ) + 1 / 2
    let n := if t < h * h then f else if h * h < t then f + 1 else if f % 2 = 0 then f else f + 1
    F64.fin ((n : ℚ) * ulp)

/-- The arithmetic of Go's `float64`: IEEE 754 binary64, round to nearest, ties to even. -/
def ieee : Rounding where
  rnd := rnd64
  root := sqrt64
  rnd_zero := by simp [rnd64]
  rnd_neg := by
    intro q
    have hnn : ∀ a : F64, F64.neg (F64.neg a) = a := by
      intro a
      cases a <;> simp [F64.neg]
    by_cases h0 : q = 0
    · simp [rnd64, h0, F64.neg]
    · rcases lt_or_gt_of_ne h0 with h | h
      · have h1 : ¬ (0 < q) := by linarith
        have h2 : ¬ (-q = 0) := by simpa using h0
        have h3 : 0 < -q := by linarith
        simp only [rnd64, h0, h1, h2, h3, if_false, if_true, hnn]
      · have h1 : ¬ (-q = 0) := by simpa using h0
        have h2 : ¬ (0 < -q) := by linarith
        simp only [rnd64, h0, h, h1, h2, if_false, if_true, neg_neg]
  rnd_nonneg := by
    intro q hq
    have hp : ∀ d : Int, 0 ≤ pow2 d := by
      intro d
      unfold pow2
      split <;> positivity
    by_cases h0 : q = 0
    · exact Or.inr ⟨0, le_refl 0, by simp [rnd64, h0]⟩
    · have hpos : 0 < q := lt_of_le_of_ne hq (Ne.symm h0)
      simp only [rnd64, h0, hpos, if_false, if_true, rndPos]
      split
      · exact Or.inl rfl
      · exact Or.inr ⟨_, mul_nonneg (Nat.cast_nonneg _) (hp _), rfl⟩
  root_zero := by simp [sqrt64]
  root_nonneg := by
    intro q _
    have hp : ∀ d : Int, 0 ≤ pow2 d := by
      intro d
      unfold pow2
      split <;> positivity
    unfold sqrt64
    split
    · exact Or.inr ⟨0, le_refl 0, rfl⟩
    · split
      · exact Or.inl rfl
      · exact Or.inr ⟨_, mul_nonneg (Nat.cast_nonneg _) (hp _), rfl⟩

namespace Rounded

/-- The constant `math.MaxFloat64`. -/
def MaxFloat64 : F64 := F64.fin maxFloat64

/-- The function `_euclidianDistance(x1, x2, y1, y2)`. -/
def _euclidianDistance (R : Rounding) (x1 x2 y1 y2 : F64) : F64 :=
  let p1 := R.sub x1 x2
  let p2 := R.sub y1 y2
  R.sqrt (R.add (R.mul p1 p1) (R.mul p2 p2))

/-- The distance `CalculateClusters` computes between point `p` and centroid `c`. -/
def dist (R : Rounding) (p c : Circle) : F64 := _euclidianDistance R p.x c.x p.y c.y

/-- The inner loop of `CalculateClusters` for one point `p`, from centroid index `j` on:
`cs` are the centroids not yet visited, `min` and `cluster` the current values of
`min` and `points[i].cluster`.  Returns the final `points[i].cluster`. -/
def scanCentroids (R : Rounding) (p : Circle) : List Circle → Nat → F64 → Int → Int
  | [], _, _, cluster => cluster
  | c :: cs, j, min, cluster =>
    let d := dist R p c
    if F64.lt d min then scanCentroids R p cs (j + 1) d (j : Int)
    else scanCentroids R p cs (j + 1) min cluster

/-- One pass of the outer loop of `CalculateClusters`: the point after its scan. -/
def assignPoint (R : Rounding) (centroids : List Circle) (p : Circle) : Circle :=
  { p with cluster := scanCentroids R p centroids 0 MaxFloat64 p.cluster }

/-- The function `CalculateClusters`: the points after the call (centroids are not
written). -/
def CalculateClusters (R : Rounding) (points centroids : List Circle) : List Circle :=
  points.map (assignPoint R centroids)

/-- The sums `sumX`, `sumY` and the count `n` of the points labelled `i`. -/
def clusterSums (R : Rounding) (points : List Circle) (i : Int) : F64 × F64 × Int :=
  points.foldl
    (fun acc p =>
      if p.cluster = i then (R.add acc.1 p.x, R.add acc.2.1 p.y, acc.2.2 + 1) else acc)
    (F64.fin 0, F64.fin 0, 0)

/-- One pass of the centroid loop: centroid `i` after its update, and whether `change`
was set by it.  The conversion `float64(n)` of a count is exact. -/
def updateCentroid (R : Rounding) (points : List Circle) (i : Nat) (c : Circle) :
    Circle × Bool :=
  let s := clusterSums R points (i : Int)
  let newX := R.div s.1 (F64.ofInt s.2.2)
  let newY := R.div s.2.1 (F64.ofInt s.2.2)
  let cx := if F64.ne newX c.x then { c with x := newX } else c
  let cy := if F64.ne newY c.y then { cx with y := newY } else cx
  (cy, F64.ne newX c.x || F64.ne newY c.y)

/-- The centroid loop from index `i` on: the updated centroids and the value of `change`
(which starts from `change`). -/
def updateCentroids (R : Rounding) (points : List Circle) :
    List Circle → Nat → Bool → List Circle × Bool
  | [], _, change => ([], change)
  | c :: cs, i, change =>
    let r := updateCentroid R points i c
    let rest := updateCentroids R points cs (i + 1) (change || r.2)
    (r.1 :: rest.1, rest.2)

/-- The body of the main loop: one iteration. -/
def iterate (R : Rounding) (s : Run) : Run :=
  let u := updateCentroids R s.points s.centroids 0 false
  let points := if u.2 then CalculateClusters R s.points u.1 else s.points
  { points := points, centroids := u.1, change := u.2, iterations := s.iterations + 1 }

/-- The main loop `for (change && iterations < limit)`. -/
def mainLoop (R : Rounding) (limit : Int) (s : Run) : Run :=
  if s.change ∧ (s.iterations : Int) < limit then mainLoop R limit (iterate R s) else s
termination_by (limit - s.iterations).toNat
decreasing_by
  simp only [iterate]
  omega

/-- The main loop run for at most `rem` further iterations. -/
def runFor (R : Rounding) : Nat → Run → Run
  | 0, s => s
  | rem + 1, s => if s.change then runFor R rem (iterate R s) else s

/-- The state before the main loop, for the shuffled points `array`: the first `k`
become the centroids and every point is labelled. -/
def initRun (R : Rounding) (array : List Circle) (k : Nat) : Run :=
  let centroids := initCentroids (array.take k) 0
  { points := CalculateClusters R array centroids, centroids := centroids,
    change := true, iterations := 0 }

/-- The function `KMeans`, up to the end of its main loop. -/
def KMeans (R : Rounding) (rs : Nat → Nat) (points : List Circle) (k limit : Int) :
    Except Fault Result :=
  let limit := if limit = 0 then 10000 else limit
  match _shuffleElements rs points with
  | Except.error e => Except.error e
  | Except.ok array =>
    if k < 0 ∨ (array.length : Int) < k then Except.error Fault.sliceBounds
    else
      let s := mainLoop R limit (initRun R array k.toNat)
      Except.ok { points := s.points, centroids := s.centroids, iterations := s.iterations }

/-- One drawing loop of `OutputToSVG` over `circles`, with radius `r` and the style text
before the colour. -/
def drawCircles (R : Rounding) (colors : List String) (scale : F64) (r : Int) (style : String) :
    List Circle → Except Fault (List SvgCircle)
  | [] => Except.ok []
  | c :: rest =>
    match colorAt colors c.cluster with
    | Except.error e => Except.error e
    | Except.ok color =>
      match drawCircles R colors scale r style rest with
      | Except.error e => Except.error e
      | Except.ok drawn =>
        Except.ok ({ x := F64.toInt (R.mul c.x scale), y := F64.toInt (R.mul c.y scale),
                     r := r, style := style ++ color } :: drawn)

/-- The function `OutputToSVG`; `t` counts the calls of `rand.Intn` made before it. -/
def OutputToSVG (R : Rounding) (rs : Nat → Nat) (t : Nat) (points centroids : List Circle)
    (k : Int) : Except Fault Svg :=
  let scale := F64.fin 10
  match _randomColors rs t k with
  | Except.error e => Except.error e
  | Except.ok colors =>
    match drawCircles R colors scale 3 "fill:" points with
    | Except.error e => Except.error e
    | Except.ok small =>
      match drawCircles R colors scale 6 "stroke:black;fill:" centroids with
      | Except.error e => Except.error e
      | Except.ok large =>
        Except.ok { width := WIDTH * F64.toInt scale, height := HEIGHT * F64.toInt scale,
                    circles := small ++ large }

/-- The whole function `KMeans`: the clustering followed by `OutputToSVG`.  The shuffle
has made `len(points) - 1` calls of `rand.Intn`. -/
def KMeansOutput (R : Rounding) (rs : Nat → Nat) (points : List Circle) (k limit : Int) :
    Except Fault Output :=
  match KMeans R rs points k limit with
  | Except.error e => Except.error e
  | Except.ok r =>
    match OutputToSVG R rs (points.length - 1) r.points r.centroids k with
    | Except.error e => Except.error e
    | Except.ok svg => Except.ok { iterations := r.iterations, svg := svg }

/-- Centroid `cm`, at index `m` of `cs`, is the lowest-indexed centroid at minimum computed
distance from `p`, among the centroids whose computed distance from `p` is not NaN. -/
def LowestNearest (R : Rounding) (p : Circle) (cs : List Circle) (m : Nat) (cm : Circle) : Prop :=
  cs[m]? = some cm ∧
  (∀ (i : Nat) (ci : Circle), cs[i]? = some ci → (dist R p ci).isNaN = false →
    F64.le (dist R p cm) (dist R p ci) = true) ∧
  (∀ (i : Nat) (ci : Circle), i < m → cs[i]? = some ci → (dist R p ci).isNaN = false →
    F64.lt (dist R p cm) (dist R p ci) = true)

/-- The label invariant of the main loop: every label is a centroid index, there are `k`
centroids, and the labels are those `CalculateClusters` computes against the current
centroids. -/
def LabelInv (R : Rounding) (k : Nat) (s : Run) : Prop :=
  (∀ p ∈ s.points, ValidLabel k p) ∧ s.centroids.length = k ∧
  CalculateClusters R s.points s.centroids = s.points

/-- The convergence invariant of the main loop: when `change` is false, the centroid loop
run on the current points reproduces the current centroids and sets no `change`. -/
def ConvInv (R : Rounding) (s : Run) : Prop :=
  s.change = false → updateCentroids R s.points s.centroids 0 false = (s.centroids, false)

/-- The sum of `float64` values as the centroid loop accumulates it: from 0.0, left to
right, each addition rounded. -/
def sumOf (R : Rounding) (xs : List F64) : F64 := xs.foldl R.add (F64.fin 0)

/-- The mean of `float64` values as the centroid loop computes it: the accumulated sum
divided by the count. -/
def meanOf (R : Rounding) (xs : List F64) : F64 := R.div (sumOf R xs) (F64.ofInt xs.length)

/-- The circle has finite coordinates that are `float64` values: rounding stores them as
they are. -/
def Representable (R : Rounding) (c : Circle) : Prop :=
  ∃ a b : ℚ, c.x = F64.fin a ∧ c.y = F64.fin b ∧ R.rnd a = F64.fin a ∧ R.rnd b = F64.fin b

end Rounded

/-! ## The main loop -/

theorem iterate_iterations (s : Run) : (iterate s).iterations = s.iterations + 1 := rfl

/-- The main loop is the bounded loop run for the `limit - iterations` iterations left. -/
theorem mainLoop_eq_runFor (limit : Int) (s : Run) :
    mainLoop limit s = runFor (limit - s.iterations).toNat s := by
  generalize hn : (limit - s.iterations).toNat = n
  induction n generalizing s with
  | zero =>
    rw [mainLoop]
    have : ¬ ((s.iterations : Int) < limit) := by omega
    simp [this, runFor]
  | succ n ih =>
    rw [mainLoop]
    have h1 : (s.iterations : Int) < limit := by omega
    by_cases hc : s.change = true
    · have h2 : (limit - ((iterate s).iterations : Int)).toNat = n := by
        rw [iterate_iterations]; push_cast; omega
      simp [hc, h1, runFor, ih (iterate s) h2]
    · simp [hc, runFor]

theorem KMeans_eq (rs : Nat → Nat) (points : List Circle) (k limit : Int) :
    KMeans rs points k limit =
      match _shuffleElements rs points with
      | Except.error e => Except.error e
      | Except.ok array =>
        if k < 0 ∨ (array.length : Int) < k then Except.error Fault.sliceBounds
        else
          let s := runFor (cap limit).toNat (initRun array k.toNat)
          Except.ok { points := s.points, centroids := s.centroids, iterations := s.iterations } := by
  unfold KMeans
  cases _shuffleElements rs points with
  | error e => rfl
  | ok array =>
    simp only [mainLoop_eq_runFor, cap, initRun, Int.sub_zero, Nat.cast_zero, CharP.cast_eq_zero]

/-! ## Lengths -/

theorem swapAt_length {α : Type} (array : List α) (i j : Nat) :
    (swapAt array i j).length = array.length := by
  unfold swapAt
  split <;> simp

theorem shuffleLoop_length {α : Type} (rs : Nat → Nat) (i t : Nat) (array : List α) :
    (shuffleLoop rs i t array).length = array.length := by
  induction i generalizing t array with
  | zero => rfl
  | succ i ih => simp [shuffleLoop, ih, swapAt_length]

theorem shuffleElements_ok (rs : Nat → Nat) (array : List Circle) (h : array ≠ []) :
    _shuffleElements rs array = Except.ok (shuffleLoop rs (array.length - 1) 0 array) := by
  have : array.length ≠ 0 := by simpa using h
  simp [_shuffleElements, this]

theorem runFor_iterations_le (n : Nat) (s : Run) :
    (runFor n s).iterations ≤ s.iterations + n := by
  induction n generalizing s with
  | zero => simp [runFor]
  | succ n ih =>
    unfold runFor
    split
    · have := ih (iterate s)
      rw [iterate_iterations] at this
      omega
    · omega

/-- The shape of a successful call: the result is the bounded loop run from the initial
state built on the shuffled points. -/
theorem KMeans_ok (rs : Nat → Nat) (points : List Circle) (k limit : Int)
    (hk : 1 ≤ k) (hkn : k ≤ points.length) :
    KMeans rs points k limit =
      Except.ok
        { points := (runFor (cap limit).toNat
            (initRun (shuffleLoop rs (points.length - 1) 0 points) k.toNat)).points,
          centroids := (runFor (cap limit).toNat
            (initRun (shuffleLoop rs (points.length - 1) 0 points) k.toNat)).centroids,
          iterations := (runFor (cap limit).toNat
            (initRun (shuffleLoop rs (points.length - 1) 0 points) k.toNat)).iterations } := by
  have hne : points ≠ [] := by
    intro h
    rw [h] at hkn
    simp at hkn
    omega
  rw [KMeans_eq, shuffleElements_ok rs points hne]
  have : ¬ (k < 0 ∨ ((shuffleLoop rs (points.length - 1) 0 points).length : Int) < k) := by
    rw [shuffleLoop_length]; omega
  simp only [this, if_false]

/-! ## The shuffle -/

theorem cons_set_perm {α : Type} (a y : α) (l : List α) (j : Nat) (h : l[j]? = some y) :
    (y :: l.set j a).Perm (a :: l) := by
  induction l generalizing j with
  | nil => simp at h
  | cons b l ih =>
    cases j with
    | zero =>
      simp at h
      subst h
      simpa using List.Perm.swap a b l
    | succ j =>
      simp at h
      simp only [List.set_cons_succ]
      exact ((List.Perm.swap b y _).trans ((ih j h).cons b)).trans (List.Perm.swap a b l)

theorem swapAt_perm {α : Type} (l : List α) (i j : Nat) : (swapAt l i j).Perm l := by
  unfold swapAt
  split
  · rename_i x y hx hy
    induction l generalizing i j with
    | nil => simp at hx
    | cons b l ih =>
      cases i with
      | zero =>
        cases j with
        | zero => simp at hx hy; subst hx; subst hy; simp
        | succ j =>
          simp at hx hy
          subst hx
          simpa using cons_set_perm _ y l j hy
      | succ i =>
        cases j with
        | zero =>
          simp at hx hy
          subst hy
          simpa using cons_set_perm _ x l i hx
        | succ j =>
          simp at hx hy
          simpa using ih i j hx hy
  · exact List.Perm.refl l

/-! ## C1 -/

/-- C1: for every point list of n points, every k with 1 <= k <= n and every limit >= 0,
`KMeans` returns a result (its main loop terminates), and the iteration count it reports
is at most `limit` when `limit > 0` and at most 10000 when `limit = 0`. -/
theorem KMeans_terminates_within_limit (rs : Nat → Nat) (points : List Circle) (k limit : Int)
    (hk : 1 ≤ k) (hkn : k ≤ points.length) :
    ∃ r, KMeans rs points k limit = Except.ok r ∧
      (0 < limit → (r.iterations : Int) ≤ limit) ∧
      (limit = 0 → r.iterations ≤ 10000) := by
  refine ⟨_, KMeans_ok rs points k limit hk hkn, ?_, ?_⟩
  · intro hpos
    have h := runFor_iterations_le (cap limit).toNat
      (initRun (shuffleLoop rs (points.length - 1) 0 points) k.toNat)
    have hc : cap limit = limit := by simp [cap]; omega
    simp only [hc, initRun] at h ⊢
    omega
  · intro h0
    have h := runFor_iterations_le (cap limit).toNat
      (initRun (shuffleLoop rs (points.length - 1) 0 points) k.toNat)
    have hc : cap limit = 10000 := by simp [cap, h0]
    simp only [hc, initRun] at h ⊢
    simpa using h

/-- C1 at a concrete run: two points, k = 1, limit = 5. -/
theorem KMeans_terminates_within_limit_witness :
    ∃ r, KMeans (fun _ => 0) [pt 0 0, pt 4 2] 1 5 = Except.ok r ∧
      (0 < (5 : Int) → (r.iterations : Int) ≤ 5) ∧
      ((5 : Int) = 0 → r.iterations ≤ 10000) :=
  KMeans_terminates_within_limit (fun _ => 0) [pt 0 0, pt 4 2] 1 5
    (by decide) (by decide)

theorem shuffleLoop_perm {α : Type} (rs : Nat → Nat) (i t : Nat) (l : List α) :
    (shuffleLoop rs i t l).Perm l := by
  induction i generalizing t l with
  | zero => exact List.Perm.refl l
  | succ i ih => exact (ih _ _).trans (swapAt_perm l _ _)

theorem swapAt_map {α β : Type} (f : α → β) (l : List α) (i j : Nat) :
    swapAt (l.map f) i j = (swapAt l i j).map f := by
  unfold swapAt
  cases hi : l[i]? <;> cases hj : l[j]? <;> simp [hi, hj, List.map_set]

theorem shuffleLoop_map {α β : Type} (f : α → β) (rs : Nat → Nat) (i t : Nat) (l : List α) :
    shuffleLoop rs i t (l.map f) = (shuffleLoop rs i t l).map f := by
  induction i generalizing t l with
  | zero => rfl
  | succ i ih => simp only [shuffleLoop, swapAt_map, ih]

theorem map_getElem?_range {α : Type} (l : List α) :
    (List.range l.length).map (fun i => l[i]?) = l.map some := by
  apply List.ext_getElem?
  intro i
  by_cases h : i < l.length
  · simp [h, List.getElem?_range]
  · have h2 : l.length ≤ i := by omega
    simp [h2, List.getElem?_eq_none]

/-- The shuffled slice lists the input at the shuffled positions. -/
theorem shuffleLoop_positions (rs : Nat → Nat) (i t : Nat) (points : List Circle) :
    (shuffleLoop rs i t points).map some =
      (shuffleLoop rs i t (List.range points.length)).map (fun i => points[i]?) := by
  rw [← shuffleLoop_map, ← shuffleLoop_map, map_getElem?_range]

theorem initCentroids_length (l : List Circle) (i : Nat) :
    (initCentroids l i).length = l.length := by
  induction l generalizing i with
  | nil => rfl
  | cons a l ih => simp [initCentroids, ih]

theorem initCentroids_getElem? (l : List Circle) (i j : Nat) :
    (initCentroids l i)[j]? =
      (l[j]?).map (fun a => { x := a.x, y := a.y, cluster := ((i + j : Nat) : Int) }) := by
  induction l generalizing i j with
  | nil => simp [initCentroids]
  | cons a l ih =>
    cases j with
    | zero => simp [initCentroids]
    | succ j =>
      simp only [initCentroids, List.getElem?_cons_succ, ih]
      have : i + 1 + j = i + (j + 1) := by omega
      rw [this]

/-! ## C4 -/

/-- C4: for every non-empty point list and every sequence of random draws,
`_shuffleElements` returns a permutation `array` of the input, which lists the input at
positions `pos`, a permutation of `0, ..., n-1` (so without repetition); and for every k
with 1 <= k <= n the initial centroid list of `KMeans` has exactly k entries, entry i
copying the (x, y) of `array[i]` and carrying cluster id i. -/
theorem shuffle_perm_and_initial_centroids (rs : Nat → Nat) (points : List Circle)
    (hne : points ≠ []) :
    ∃ (array : List Circle) (pos : List Nat), _shuffleElements rs points = Except.ok array ∧
      array.Perm points ∧
      pos.Perm (List.range points.length) ∧ pos.Nodup ∧
      array.map some = pos.map (fun i => points[i]?) ∧
      ∀ k : Nat, 1 ≤ k → k ≤ points.length →
        (initRun array k).centroids.length = k ∧
        ∀ i, i < k → ∃ a, array[i]? = some a ∧
          (initRun array k).centroids[i]? = some { x := a.x, y := a.y, cluster := (i : Int) } := by
  refine ⟨shuffleLoop rs (points.length - 1) 0 points,
    shuffleLoop rs (points.length - 1) 0 (List.range points.length),
    shuffleElements_ok rs points hne, shuffleLoop_perm _ _ _ _, shuffleLoop_perm _ _ _ _,
    (shuffleLoop_perm _ _ _ _).nodup_iff.mpr (List.nodup_range _),
    shuffleLoop_positions _ _ _ _, ?_⟩
  intro k _ hkn
  have hlen : (shuffleLoop rs (points.length - 1) 0 points).length = points.length :=
    shuffleLoop_length _ _ _ _
  constructor
  · simp only [initRun, initCentroids_length, List.length_take, hlen]
    omega
  · intro i hi
    have hi2 : i < (shuffleLoop rs (points.length - 1) 0 points).length := by omega
    refine ⟨(shuffleLoop rs (points.length - 1) 0 points)[i], List.getElem?_eq_getElem hi2, ?_⟩
    simp only [initRun, initCentroids_getElem?, List.getElem?_take, hi, if_true,
      List.getElem?_eq_getElem hi2, Option.map_some', Nat.zero_add]

/-- C4 at a concrete input: three points and the draws 0, 1. -/
theorem shuffle_perm_and_initial_centroids_witness :
    ∃ (array : List Circle) (pos : List Nat), _shuffleElements (fun t => [0, 1].getD t 0) [pt 1 2, pt 3 4, pt 5 6]
        = Except.ok array ∧
      array.Perm [pt 1 2, pt 3 4, pt 5 6] ∧
      pos.Perm (List.range [pt 1 2, pt 3 4, pt 5 6].length) ∧ pos.Nodup ∧
      array.map some = pos.map (fun i => [pt 1 2, pt 3 4, pt 5 6][i]?) ∧
      ∀ k : Nat, 1 ≤ k → k ≤ [pt 1 2, pt 3 4, pt 5 6].length →
        (initRun array k).centroids.length = k ∧
        ∀ i, i < k → ∃ a, array[i]? = some a ∧
          (initRun array k).centroids[i]? = some { x := a.x, y := a.y, cluster := (i : Int) } :=
  shuffle_perm_and_initial_centroids (fun t => [0, 1].getD t 0) [pt 1 2, pt 3 4, pt 5 6]
    (by decide)

/-! ## Order of distances -/

theorem Root.lt_notNaN_left {a b : Root} (h : Root.lt a b = true) : a.isNaN = false := by
  cases a <;> cases b <;> simp_all [Root.lt, Root.isNaN]

theorem Root.le_of_lt {a b : Root} (h : Root.lt a b = true) : Root.le a b = true := by
  cases a <;> cases b <;> simp_all [Root.lt, Root.le]
  exact LT.lt.le h

theorem Root.le_of_not_lt {a b : Root} (ha : a.isNaN = false) (hb : b.isNaN = false)
    (h : ¬ Root.lt a b = true) : Root.le b a = true := by
  cases a <;> cases b <;> simp_all [Root.lt, Root.le, Root.isNaN]

theorem Root.lt_trans {a b c : Root} (h1 : Root.lt a b = true) (h2 : Root.lt b c = true) :
    Root.lt a c = true := by
  cases a <;> cases b <;> cases c <;> simp_all [Root.lt]
  exact LT.lt.trans h1 h2

theorem Root.lt_of_lt_of_le {a b c : Root} (h1 : Root.lt a b = true) (h2 : Root.le b c = true) :
    Root.lt a c = true := by
  cases a <;> cases b <;> cases c <;> simp_all [Root.lt, Root.le]
  exact LT.lt.trans_le h1 h2

theorem Root.le_self_of_lt {a b : Root} (h : Root.lt a b = true) : Root.le a a = true := by
  cases a <;> cases b <;> simp_all [Root.lt, Root.le]

/-! ## The nearest-centroid scan -/

/-- The scan either finds no distance below `min` and keeps the label, or returns the
index of the lowest-indexed centroid at minimum distance, which is below `min`. -/
theorem scanCentroids_spec (p : Circle) (cs : List Circle) (j : Nat) (min : Root) (cl : Int)
    (hmin : min.isNaN = false) :
    ((∀ c ∈ cs, ¬ Root.lt (dist p c) min = true) ∧ scanCentroids p cs j min cl = cl) ∨
    (∃ m cm, scanCentroids p cs j min cl = ((j + m : Nat) : Int) ∧
      Root.lt (dist p cm) min = true ∧ LowestNearest p cs m cm) := by
  induction cs generalizing j min cl with
  | nil => left; simp [scanCentroids]
  | cons c cs ih =>
    by_cases hlt : Root.lt (dist p c) min = true
    · have hd : (dist p c).isNaN = false := Root.lt_notNaN_left hlt
      have hstep : scanCentroids p (c :: cs) j min cl
          = scanCentroids p cs (j + 1) (dist p c) (j : Int) := by
        simp [scanCentroids, hlt]
      right
      rcases ih (j + 1) (dist p c) (j : Int) hd with ⟨hnone, hr⟩ | ⟨m, cm, hr, hm, hbest⟩
      · refine ⟨0, c, by rw [hstep, hr, Nat.add_zero], hlt, by simp, ?_, ?_⟩
        · intro i ci hi hnan
          cases i with
          | zero =>
            simp at hi
            subst hi
            exact Root.le_self_of_lt hlt
          | succ i =>
            simp at hi
            exact Root.le_of_not_lt hnan hd (hnone ci (List.getElem?_mem hi))
        · intro i ci hi
          omega
      · obtain ⟨hget, hle, hstrict⟩ := hbest
        refine ⟨m + 1, cm, ?_, Root.lt_trans hm hlt, by simpa using hget, ?_, ?_⟩
        · rw [hstep, hr]
          congr 1
          omega
        · intro i ci hi hnan
          cases i with
          | zero =>
            simp at hi
            subst hi
            exact Root.le_of_lt hm
          | succ i =>
            simp at hi
            exact hle i ci hi hnan
        · intro i ci hlt2 hi hnan
          cases i with
          | zero =>
            simp at hi
            subst hi
            exact hm
          | succ i =>
            simp at hi
            exact hstrict i ci (by omega) hi hnan
    · have hstep : scanCentroids p (c :: cs) j min cl = scanCentroids p cs (j + 1) min cl := by
        simp [scanCentroids, hlt]
      rcases ih (j + 1) min cl hmin with ⟨hnone, hr⟩ | ⟨m, cm, hr, hm, hbest⟩
      · left
        refine ⟨?_, by rw [hstep, hr]⟩
        intro c2 hc2
        rcases List.mem_cons.mp hc2 with h | h
        · rw [h]; exact hlt
        · exact hnone c2 h
      · right
        obtain ⟨hget, hle, hstrict⟩ := hbest
        have h0 : (dist p c).isNaN = false → Root.lt (dist p cm) (dist p c) = true :=
          fun hnan => Root.lt_of_lt_of_le hm (Root.le_of_not_lt hnan hmin hlt)
        refine ⟨m + 1, cm, ?_, hm, by simpa using hget, ?_, ?_⟩
        · rw [hstep, hr]
          congr 1
          omega
        · intro i ci hi hnan
          cases i with
          | zero =>
            simp at hi
            subst hi
            exact Root.le_of_lt (h0 hnan)
          | succ i =>
            simp at hi
            exact hle i ci hi hnan
        · intro i ci hlt2 hi hnan
          cases i with
          | zero =>
            simp at hi
            subst hi
            exact h0 hnan
          | succ i =>
            simp at hi
            exact hstrict i ci (by omega) hi hnan

theorem MaxFloat64_notNaN : MaxFloat64.isNaN = false := rfl

/-- With some centroid at a distance below `MaxFloat64`, the point is labelled with the
lowest-indexed nearest centroid. -/
theorem assignPoint_lowestNearest (p : Circle) (cs : List Circle)
    (hex : ∃ c ∈ cs, Root.lt (dist p c) MaxFloat64 = true) :
    ∃ (m : Nat) (cm : Circle), (assignPoint cs p).cluster = (m : Int) ∧
      Root.lt (dist p cm) MaxFloat64 = true ∧ LowestNearest p cs m cm := by
  rcases scanCentroids_spec p cs 0 MaxFloat64 p.cluster MaxFloat64_notNaN with
    ⟨hnone, _⟩ | ⟨m, cm, hr, hm, hbest⟩
  · obtain ⟨c, hc, hlt⟩ := hex
    exact absurd hlt (hnone c hc)
  · exact ⟨m, cm, by simpa [assignPoint] using hr, hm, hbest⟩

/-! ## Arithmetic on finite values -/

theorem F64.fin_add (a b : ℚ) : F64.fin a + F64.fin b = F64.fin (a + b) := rfl

theorem F64.fin_sub (a b : ℚ) : F64.fin a - F64.fin b = F64.fin (a - b) := by
  show F64.add (F64.fin a) (F64.neg (F64.fin b)) = F64.fin (a - b)
  simp [F64.add, F64.neg, sub_eq_add_neg]

theorem F64.fin_mul (a b : ℚ) : F64.fin a * F64.fin b = F64.fin (a * b) := rfl

theorem F64.fin_div_pos (a : ℚ) (n : Int) (hn : 0 < n) :
    F64.fin a / F64.ofInt n = F64.fin (a / n) := by
  show F64.div (F64.fin a) (F64.fin n) = F64.fin (a / n)
  have : (n : ℚ) ≠ 0 := by
    have : (0 : ℚ) < n := by exact_mod_cast hn
    exact ne_of_gt this
  simp [F64.div, this]

theorem F64.zero_div_zero : F64.fin 0 / F64.ofInt 0 = F64.nan := by
  show F64.div (F64.fin 0) (F64.fin ((0 : Int) : ℚ)) = F64.nan
  simp [F64.div, F64.infOfSign]

theorem F64.ne_nan_left (a : F64) : F64.ne F64.nan a = true := by
  cases a <;> rfl

theorem F64.eq_of_ne_false {a b : F64} (h : F64.ne a b = false) : a = b := by
  cases a <;> cases b <;> simp_all [F64.ne]

/-! ## Distances between finite points -/

theorem dist_fin (p c : Circle) (a b a2 b2 : ℚ) (hpx : p.x = F64.fin a) (hpy : p.y = F64.fin b)
    (hcx : c.x = F64.fin a2) (hcy : c.y = F64.fin b2) :
    dist p c = Root.root ((a - a2) * (a - a2) + (b - b2) * (b - b2)) := by
  have h : ¬ ((a - a2) * (a - a2) + (b - b2) * (b - b2) < 0) := by
    have h1 := mul_self_nonneg (a - a2)
    have h2 := mul_self_nonneg (b - b2)
    linarith
  simp [dist, _euclidianDistance, hpx, hpy, hcx, hcy, F64.fin_sub, F64.fin_mul, F64.fin_add,
    F64.sqrt, h]

theorem maxFloat64_sq_gt : (2 : ℚ) ^ 2047 < maxFloat64 * maxFloat64 := by
  unfold maxFloat64
  norm_num

theorem mul_self_le_of_box {lo hi a a2 : ℚ} (h1 : lo ≤ a) (h2 : a ≤ hi) (h3 : lo ≤ a2)
    (h4 : a2 ≤ hi) (hw : hi - lo ≤ 2 ^ 1023) : (a - a2) * (a - a2) ≤ 2 ^ 2046 := by
  have hab : |a - a2| ≤ 2 ^ 1023 := by
    rw [abs_le]
    constructor <;> linarith
  have h := mul_self_le_mul_self (abs_nonneg (a - a2)) hab
  rw [abs_mul_abs_self] at h
  calc (a - a2) * (a - a2) ≤ 2 ^ 1023 * 2 ^ 1023 := h
    _ = 2 ^ 2046 := by norm_num

/-- Two circles of a box at most `2^1023` wide are at a distance below `MaxFloat64`. -/
theorem dist_lt_max_of_box {lo hi : ℚ} (hw : hi - lo ≤ 2 ^ 1023) {p c : Circle}
    (hp : InBox lo hi p) (hc : InBox lo hi c) : Root.lt (dist p c) MaxFloat64 = true := by
  obtain ⟨a, b, hpx, hpy, h1, h2, h3, h4⟩ := hp
  obtain ⟨a2, b2, hcx, hcy, h5, h6, h7, h8⟩ := hc
  rw [dist_fin p c a b a2 b2 hpx hpy hcx hcy]
  have hx := mul_self_le_of_box h1 h2 h5 h6 hw
  have hy := mul_self_le_of_box h3 h4 h7 h8 hw
  have hm := maxFloat64_sq_gt
  have : (a - a2) * (a - a2) + (b - b2) * (b - b2) < maxFloat64 * maxFloat64 := by
    have : (2 : ℚ) ^ 2047 = 2 ^ 2046 + 2 ^ 2046 := by norm_num
    linarith
  simp [MaxFloat64, Root.lt, this]

/-! ## The centroid update -/

theorem InBox.finite {lo hi : ℚ} {c : Circle} (h : InBox lo hi c) : Finite c := by
  obtain ⟨a, b, hx, hy, _⟩ := h
  exact ⟨a, b, hx, hy⟩

theorem clusterSums_foldl (points : List Circle) (i : Int) (a b : ℚ) (m : Int)
    (hfin : ∀ p ∈ points, Finite p) :
    points.foldl
      (fun acc p => if p.cluster = i then (acc.1 + p.x, acc.2.1 + p.y, acc.2.2 + 1) else acc)
      (F64.fin a, F64.fin b, m)
    = (F64.fin (a + sumX (members points i)), F64.fin (b + sumY (members points i)),
        m + ((members points i).length : Int)) := by
  induction points generalizing a b m with
  | nil => simp [members, sumX, sumY]
  | cons p ps ih =>
    have hps : ∀ q ∈ ps, Finite q := fun q hq => hfin q (List.mem_cons_of_mem p hq)
    obtain ⟨pa, pb, hx, hy⟩ := hfin p (List.mem_cons_self p ps)
    by_cases hc : p.cluster = i
    · simp only [List.foldl_cons, hc, if_true, hx, hy, F64.fin_add]
      rw [ih _ _ _ hps]
      simp only [members, sumX, sumY, List.filter_cons, hc, decide_True, if_true, List.map_cons,
        List.sum_cons, List.length_cons, hx, hy, F64.toRat]
      simp only [add_assoc, Nat.cast_add, Nat.cast_one]
      congr 3
      omega
    · simp only [List.foldl_cons, hc, if_false]
      rw [ih _ _ _ hps]
      simp [members, sumX, sumY, List.filter_cons, hc]

/-- The sums over finite points are the exact sums over the members of the cluster. -/
theorem clusterSums_eq (points : List Circle) (i : Int) (hfin : ∀ p ∈ points, Finite p) :
    clusterSums points i
      = (F64.fin (sumX (members points i)), F64.fin (sumY (members points i)),
          ((members points i).length : Int)) := by
  have h := clusterSums_foldl points i 0 0 0 hfin
  simpa [clusterSums] using h

/-- After its update a centroid holds the new coordinates, assigned or found equal. -/
theorem updateCentroid_eq (points : List Circle) (i : Nat) (c : Circle) :
    updateCentroid points i c
      = ({ x := (clusterSums points i).1 / F64.ofInt (clusterSums points i).2.2,
           y := (clusterSums points i).2.1 / F64.ofInt (clusterSums points i).2.2,
           cluster := c.cluster },
         F64.ne ((clusterSums points i).1 / F64.ofInt (clusterSums points i).2.2) c.x ||
         F64.ne ((clusterSums points i).2.1 / F64.ofInt (clusterSums points i).2.2) c.y) := by
  unfold updateCentroid
  cases hx : F64.ne ((clusterSums points i).1 / F64.ofInt (clusterSums points i).2.2) c.x <;>
  cases hy : F64.ne ((clusterSums points i).2.1 / F64.ofInt (clusterSums points i).2.2) c.y <;>
  simp [hx, hy]
  · rw [F64.eq_of_ne_false hx, F64.eq_of_ne_false hy]
  · rw [F64.eq_of_ne_false hx]
  · rw [F64.eq_of_ne_false hy]

theorem updateCentroid_unchanged (points : List Circle) (i : Nat) (c : Circle)
    (h : (updateCentroid points i c).2 = false) : (updateCentroid points i c).1 = c := by
  rw [updateCentroid_eq] at h ⊢
  simp only [Bool.or_eq_false_iff] at h
  rw [F64.eq_of_ne_false h.1, F64.eq_of_ne_false h.2]

theorem updateCentroids_length (points cs : List Circle) (i : Nat) (ch : Bool) :
    (updateCentroids points cs i ch).1.length = cs.length := by
  induction cs generalizing i ch with
  | nil => rfl
  | cons c cs ih => simp [updateCentroids, ih]

theorem updateCentroids_getElem? (points cs : List Circle) (i : Nat) (ch : Bool) (j : Nat) :
    (updateCentroids points cs i ch).1[j]?
      = (cs[j]?).map (fun c => (updateCentroid points (i + j) c).1) := by
  induction cs generalizing i ch j with
  | nil => simp [updateCentroids]
  | cons c cs ih =>
    cases j with
    | zero => simp [updateCentroids]
    | succ j =>
      simp only [updateCentroids, List.getElem?_cons_succ, ih]
      have : i + 1 + j = i + (j + 1) := by omega
      rw [this]

theorem updateCentroids_change_of_change (points cs : List Circle) (i : Nat) :
    (updateCentroids points cs i true).2 = true := by
  induction cs generalizing i with
  | nil => rfl
  | cons c cs ih => simp [updateCentroids, ih]

/-- `change` stays false only if no centroid was updated; then the centroids are as before. -/
theorem updateCentroids_unchanged (points cs : List Circle) (i : Nat)
    (h : (updateCentroids points cs i false).2 = false) :
    (updateCentroids points cs i false).1 = cs := by
  induction cs generalizing i with
  | nil => rfl
  | cons c cs ih =>
    simp only [updateCentroids, Bool.false_or] at h ⊢
    cases hc : (updateCentroid points i c).2 with
    | true =>
      rw [hc, updateCentroids_change_of_change] at h
      exact absurd h (by simp)
    | false =>
      rw [hc] at h
      rw [ih (i + 1) h, updateCentroid_unchanged points i c hc]

/-- `change` is set as soon as one centroid is updated. -/
theorem updateCentroids_change_of_mem (points cs : List Circle) (i : Nat) (ch : Bool) (j : Nat)
    (c : Circle) (hj : cs[j]? = some c) (hc : (updateCentroid points (i + j) c).2 = true) :
    (updateCentroids points cs i ch).2 = true := by
  induction cs generalizing i ch j with
  | nil => simp at hj
  | cons c0 cs ih =>
    cases j with
    | zero =>
      simp at hj
      subst hj
      simp only [Nat.add_zero] at hc
      simp only [updateCentroids, hc, Bool.or_true]
      exact updateCentroids_change_of_change points cs (i + 1)
    | succ j =>
      simp at hj
      simp only [updateCentroids]
      apply ih (i + 1) _ j hj
      have : i + 1 + j = i + (j + 1) := by omega
      rw [this]
      exact hc

/-! ## Labels -/

theorem scanCentroids_congr (p q : Circle) (hx : p.x = q.x) (hy : p.y = q.y) (cs : List Circle)
    (j : Nat) (min : Root) (cl : Int) :
    scanCentroids p cs j min cl = scanCentroids q cs j min cl := by
  induction cs generalizing j min cl with
  | nil => rfl
  | cons c cs ih =>
    have hd : dist p c = dist q c := by simp [dist, hx, hy]
    simp only [scanCentroids, hd, ih]

theorem scanCentroids_indep (p : Circle) (cs : List Circle) (j : Nat) (min : Root) (cl cl2 : Int)
    (hex : ∃ c ∈ cs, Root.lt (dist p c) min = true) :
    scanCentroids p cs j min cl = scanCentroids p cs j min cl2 := by
  induction cs generalizing j min cl cl2 with
  | nil => simp at hex
  | cons c cs ih =>
    by_cases hlt : Root.lt (dist p c) min = true
    · simp [scanCentroids, hlt]
    · simp only [scanCentroids, hlt, if_false]
      apply ih
      obtain ⟨c2, hc2, h2⟩ := hex
      rcases List.mem_cons.mp hc2 with h | h
      · rw [h] at h2
        exact absurd h2 hlt
      · exact ⟨c2, h, h2⟩

theorem assignPoint_x (cs : List Circle) (p : Circle) : (assignPoint cs p).x = p.x := rfl

theorem assignPoint_y (cs : List Circle) (p : Circle) : (assignPoint cs p).y = p.y := rfl

/-- Labelling a labelled point again changes nothing. -/
theorem assignPoint_idem (cs : List Circle) (p : Circle) :
    assignPoint cs (assignPoint cs p) = assignPoint cs p := by
  have h1 : scanCentroids (assignPoint cs p) cs 0 MaxFloat64 (assignPoint cs p).cluster
      = scanCentroids p cs 0 MaxFloat64 (assignPoint cs p).cluster :=
    scanCentroids_congr (assignPoint cs p) p rfl rfl cs 0 MaxFloat64 _
  have h2 : scanCentroids p cs 0 MaxFloat64 (assignPoint cs p).cluster
      = (assignPoint cs p).cluster := by
    by_cases hex : ∃ c ∈ cs, Root.lt (dist p c) MaxFloat64 = true
    · exact scanCentroids_indep p cs 0 MaxFloat64 _ _ hex
    · have hnone : ∀ c ∈ cs, ¬ Root.lt (dist p c) MaxFloat64 = true := by
        intro c hc hlt
        exact hex ⟨c, hc, hlt⟩
      rcases scanCentroids_spec p cs 0 MaxFloat64 (assignPoint cs p).cluster MaxFloat64_notNaN
        with ⟨_, hr⟩ | ⟨m, cm, _, hm, hbest⟩
      · exact hr
      · exact absurd hm (hnone cm (List.getElem?_mem hbest.1))
  show ({ assignPoint cs p with
      cluster := scanCentroids (assignPoint cs p) cs 0 MaxFloat64 (assignPoint cs p).cluster }
        : Circle) = assignPoint cs p
  rw [h1, h2]

theorem CalculateClusters_idem (points cs : List Circle) :
    CalculateClusters (CalculateClusters points cs) cs = CalculateClusters points cs := by
  simp [CalculateClusters, assignPoint_idem]

theorem CalculateClusters_length (points cs : List Circle) :
    (CalculateClusters points cs).length = points.length := by
  simp [CalculateClusters]

/-- A scan keeps the label or sets it to a centroid index. -/
theorem assignPoint_label (cs : List Circle) (p : Circle) :
    (assignPoint cs p).cluster = p.cluster ∨
      ∃ m : Nat, m < cs.length ∧ (assignPoint cs p).cluster = (m : Int) := by
  rcases scanCentroids_spec p cs 0 MaxFloat64 p.cluster MaxFloat64_notNaN with
    ⟨_, hr⟩ | ⟨m, cm, hr, _, hbest⟩
  · left; exact hr
  · right
    refine ⟨m, ?_, by simpa [assignPoint] using hr⟩
    by_contra hlen
    have := hbest.1
    rw [List.getElem?_eq_none (by omega)] at this
    simp at this

theorem assignPoint_valid_of_valid (k : Nat) (cs : List Circle) (hk : cs.length = k) (p : Circle)
    (hp : ValidLabel k p) : ValidLabel k (assignPoint cs p) := by
  rcases assignPoint_label cs p with h | ⟨m, hm, h⟩
  · unfold ValidLabel
    rw [h]
    exact hp
  · unfold ValidLabel
    rw [h]
    omega

theorem assignPoint_valid_of_reach (k : Nat) (cs : List Circle) (hk : cs.length = k) (p : Circle)
    (hex : ∃ c ∈ cs, Root.lt (dist p c) MaxFloat64 = true) :
    ValidLabel k (assignPoint cs p) := by
  obtain ⟨m, cm, hcl, _, hbest⟩ := assignPoint_lowestNearest p cs hex
  have hm : m < cs.length := by
    by_contra hlen
    have := hbest.1
    rw [List.getElem?_eq_none (by omega)] at this
    simp at this
  unfold ValidLabel
  rw [hcl]
  omega

theorem iterate_centroids_length (s : Run) :
    (iterate s).centroids.length = s.centroids.length := by
  simp [iterate, updateCentroids_length]

/-- Labels that are valid and current stay so through an iteration. -/
theorem LabelInv_iterate (k : Nat) (s : Run) (h : LabelInv k s) : LabelInv k (iterate s) := by
  obtain ⟨hv, hlen, hfix⟩ := h
  have hlen2 : (updateCentroids s.points s.centroids 0 false).1.length = k := by
    rw [updateCentroids_length, hlen]
  cases hch : (updateCentroids s.points s.centroids 0 false).2 with
  | true =>
    refine ⟨?_, ?_, ?_⟩
    · intro p hp
      simp only [iterate, hch, if_true, CalculateClusters, List.mem_map] at hp
      obtain ⟨q, hq, rfl⟩ := hp
      exact assignPoint_valid_of_valid k _ hlen2 q (hv q hq)
    · simpa [iterate] using hlen2
    · simp only [iterate, hch, if_true]
      exact CalculateClusters_idem _ _
  | false =>
    have hsame := updateCentroids_unchanged s.points s.centroids 0 hch
    refine ⟨?_, ?_, ?_⟩
    · intro p hp
      simp only [iterate, hch] at hp
      exact hv p (by simpa using hp)
    · simpa [iterate] using hlen2
    · simp only [iterate, hch, hsame]
      simpa using hfix

/-! ## Means -/

theorem members_subset (points : List Circle) (i : Int) (p : Circle)
    (h : p ∈ members points i) : p ∈ points ∧ p.cluster = i := by
  simpa [members] using h

theorem sumX_bounds (lo hi : ℚ) (l : List Circle) (h : ∀ p ∈ l, InBox lo hi p) :
    (l.length : ℚ) * lo ≤ sumX l ∧ sumX l ≤ (l.length : ℚ) * hi := by
  induction l with
  | nil => simp [sumX]
  | cons p l ih =>
    obtain ⟨a, b, hx, hy, h1, h2, _, _⟩ := h p (List.mem_cons_self p l)
    obtain ⟨i1, i2⟩ := ih (fun q hq => h q (List.mem_cons_of_mem p hq))
    simp only [sumX, List.map_cons, List.sum_cons, List.length_cons, hx, F64.toRat,
      Nat.cast_add, Nat.cast_one] at i1 i2 ⊢
    constructor <;> linarith

theorem sumY_bounds (lo hi : ℚ) (l : List Circle) (h : ∀ p ∈ l, InBox lo hi p) :
    (l.length : ℚ) * lo ≤ sumY l ∧ sumY l ≤ (l.length : ℚ) * hi := by
  induction l with
  | nil => simp [sumY]
  | cons p l ih =>
    obtain ⟨a, b, hx, hy, _, _, h1, h2⟩ := h p (List.mem_cons_self p l)
    obtain ⟨i1, i2⟩ := ih (fun q hq => h q (List.mem_cons_of_mem p hq))
    simp only [sumY, List.map_cons, List.sum_cons, List.length_cons, hy, F64.toRat,
      Nat.cast_add, Nat.cast_one] at i1 i2 ⊢
    constructor <;> linarith

theorem mean_bounds (lo hi s : ℚ) (n : Nat) (hn : 0 < n) (h1 : (n : ℚ) * lo ≤ s)
    (h2 : s ≤ (n : ℚ) * hi) : lo ≤ s / n ∧ s / n ≤ hi := by
  have hpos : (0 : ℚ) < n := by exact_mod_cast hn
  constructor
  · rw [le_div_iff₀ hpos]; linarith
  · rw [div_le_iff₀ hpos]; linarith

/-- The updated centroid of a cluster without members is NaN, and `change` is set. -/
theorem updateCentroid_empty (points : List Circle) (i : Nat) (c : Circle)
    (hfin : ∀ p ∈ points, Finite p) (hm : members points i = []) :
    (updateCentroid points i c).1 = { x := F64.nan, y := F64.nan, cluster := c.cluster } ∧
      (updateCentroid points i c).2 = true := by
  rw [updateCentroid_eq, clusterSums_eq points i hfin, hm]
  simp [sumX, sumY, F64.zero_div_zero, F64.ne_nan_left]

/-- The updated centroid of a cluster with members is the mean of its members. -/
theorem updateCentroid_mean (points : List Circle) (i : Nat) (c : Circle)
    (hfin : ∀ p ∈ points, Finite p) (hm : members points i ≠ []) :
    (updateCentroid points i c).1 =
      { x := F64.fin (sumX (members points i) / ((members points i).length : ℚ)),
        y := F64.fin (sumY (members points i) / ((members points i).length : ℚ)),
        cluster := c.cluster } := by
  have hpos : (0 : Int) < ((members points i).length : Int) := by
    have := List.length_pos.mpr hm
    omega
  rw [updateCentroid_eq, clusterSums_eq points i hfin]
  simp only [F64.fin_div_pos _ _ hpos, Int.cast_natCast]

/-- The updated centroid lies in the box of the points, or is NaN. -/
theorem updateCentroid_box (lo hi : ℚ) (points : List Circle) (i : Nat) (c : Circle)
    (hbox : ∀ p ∈ points, InBox lo hi p) :
    (members points i ≠ [] → InBox lo hi (updateCentroid points i c).1) ∧
    (members points i = [] → IsNaN (updateCentroid points i c).1) := by
  have hfin : ∀ p ∈ points, Finite p := fun p hp => (hbox p hp).finite
  constructor
  · intro hm
    rw [updateCentroid_mean points i c hfin hm]
    have hmem : ∀ p ∈ members points i, InBox lo hi p :=
      fun p hp => hbox p (members_subset points i p hp).1
    have hn := List.length_pos.mpr hm
    obtain ⟨x1, x2⟩ := sumX_bounds lo hi _ hmem
    obtain ⟨y1, y2⟩ := sumY_bounds lo hi _ hmem
    obtain ⟨mx1, mx2⟩ := mean_bounds lo hi _ _ hn x1 x2
    obtain ⟨my1, my2⟩ := mean_bounds lo hi _ _ hn y1 y2
    exact ⟨_, _, rfl, rfl, mx1, mx2, my1, my2⟩
  · intro hm
    rw [(updateCentroid_empty points i c hfin hm).1]
    exact ⟨rfl, rfl⟩

/-! ## The invariants of the main loop -/

theorem assignPoint_inBox (lo hi : ℚ) (cs : List Circle) (p : Circle) (h : InBox lo hi p) :
    InBox lo hi (assignPoint cs p) := h

theorem CalculateClusters_inBox (lo hi : ℚ) (points cs : List Circle)
    (h : ∀ p ∈ points, InBox lo hi p) : ∀ p ∈ CalculateClusters points cs, InBox lo hi p := by
  intro p hp
  simp only [CalculateClusters, List.mem_map] at hp
  obtain ⟨q, hq, rfl⟩ := hp
  exact assignPoint_inBox lo hi cs q (h q hq)

theorem BoxInv_iterate (lo hi : ℚ) (k : Nat) (s : Run) (hL : LabelInv k s)
    (hB : BoxInv lo hi s) : BoxInv lo hi (iterate s) := by
  obtain ⟨hv, hlen, _⟩ := hL
  obtain ⟨hne, hbox, _, _⟩ := hB
  have hcs : (iterate s).centroids = (updateCentroids s.points s.centroids 0 false).1 := rfl
  refine ⟨?_, ?_, ?_, ?_⟩
  · intro h
    have hl : (iterate s).points.length = s.points.length := by
      simp only [iterate]
      split
      · exact CalculateClusters_length _ _
      · rfl
    rw [h] at hl
    exact hne (List.length_eq_zero.mp hl.symm)
  · simp only [iterate]
    split
    · exact CalculateClusters_inBox lo hi _ _ hbox
    · exact hbox
  · intro c hc
    rw [hcs] at hc
    obtain ⟨j, hj⟩ := List.getElem?_of_mem hc
    rw [updateCentroids_getElem?] at hj
    cases hcj : s.centroids[j]? with
    | none => simp [hcj] at hj
    | some c0 =>
      simp only [hcj, Option.map_some', Option.some.injEq] at hj
      rw [← hj]
      by_cases hm : members s.points ((0 + j : Nat) : Int) = []
      · right; exact (updateCentroid_box lo hi s.points (0 + j) c0 hbox).2 hm
      · left; exact (updateCentroid_box lo hi s.points (0 + j) c0 hbox).1 hm
  · obtain ⟨p, hp⟩ := List.exists_mem_of_ne_nil _ hne
    obtain ⟨h0, hk⟩ := hv p hp
    obtain ⟨j, hj⟩ := Int.eq_ofNat_of_zero_le h0
    have hjk : j < s.centroids.length := by
      rw [hlen]; omega
    have hm : members s.points ((0 + j : Nat) : Int) ≠ [] := by
      intro h
      have : p ∈ members s.points ((0 + j : Nat) : Int) := by
        simp [members, hp, hj]
      rw [h] at this
      simp at this
    refine ⟨(updateCentroid s.points (0 + j) s.centroids[j]).1, ?_,
      (updateCentroid_box lo hi s.points (0 + j) _ hbox).1 hm⟩
    rw [hcs]
    apply List.getElem?_mem (n := j)
    rw [updateCentroids_getElem?, List.getElem?_eq_getElem hjk]
    rfl

theorem inv_runFor (lo hi : ℚ) (k n : Nat) (s : Run) (hL : LabelInv k s)
    (hB : BoxInv lo hi s) : LabelInv k (runFor n s) ∧ BoxInv lo hi (runFor n s) := by
  induction n generalizing s with
  | zero => exact ⟨hL, hB⟩
  | succ n ih =>
    unfold runFor
    split
    · exact ih _ (LabelInv_iterate k s hL) (BoxInv_iterate lo hi k s hL hB)
    · exact ⟨hL, hB⟩

theorem initCentroids_inBox (lo hi : ℚ) (l : List Circle) (i : Nat)
    (h : ∀ p ∈ l, InBox lo hi p) : ∀ c ∈ initCentroids l i, InBox lo hi c := by
  induction l generalizing i with
  | nil => simp [initCentroids]
  | cons a l ih =>
    intro c hc
    simp only [initCentroids, List.mem_cons] at hc
    rcases hc with rfl | hc
    · exact h a (List.mem_cons_self a l)
    · exact ih (i + 1) (fun q hq => h q (List.mem_cons_of_mem a hq)) c hc

theorem initRun_centroids_length (array : List Circle) (k : Nat) (hk : k ≤ array.length) :
    (initRun array k).centroids.length = k := by
  simp only [initRun, initCentroids_length, List.length_take]
  omega

/-- For points of a box at most `2^1023` wide, both invariants hold before the main loop. -/
theorem initRun_inv (lo hi : ℚ) (hw : hi - lo ≤ 2 ^ 1023) (array : List Circle) (k : Nat)
    (hk1 : 1 ≤ k) (hk : k ≤ array.length) (hbox : ∀ p ∈ array, InBox lo hi p) :
    LabelInv k (initRun array k) ∧ BoxInv lo hi (initRun array k) := by
  have hlen := initRun_centroids_length array k hk
  have hcbox : ∀ c ∈ (initRun array k).centroids, InBox lo hi c :=
    initCentroids_inBox lo hi _ 0 (fun p hp => hbox p (List.mem_of_mem_take hp))
  have hex : ∃ c ∈ (initRun array k).centroids, InBox lo hi c := by
    have : (initRun array k).centroids ≠ [] := by
      intro h
      rw [h] at hlen
      simp at hlen
      omega
    obtain ⟨c, hc⟩ := List.exists_mem_of_ne_nil _ this
    exact ⟨c, hc, hcbox c hc⟩
  refine ⟨⟨?_, hlen, CalculateClusters_idem _ _⟩, ?_, ?_, fun c hc => Or.inl (hcbox c hc), hex⟩
  · intro p hp
    simp only [initRun, CalculateClusters, List.mem_map] at hp
    obtain ⟨q, hq, rfl⟩ := hp
    obtain ⟨c, hc, hcb⟩ := hex
    exact assignPoint_valid_of_reach k _ hlen q ⟨c, hc, dist_lt_max_of_box hw (hbox q hq) hcb⟩
  · intro h
    have hl : (initRun array k).points.length = array.length := CalculateClusters_length _ _
    rw [h] at hl
    simp at hl
    omega
  · exact CalculateClusters_inBox lo hi _ _ hbox

theorem shuffleLoop_mem {α : Type} (rs : Nat → Nat) (i t : Nat) (l : List α) (a : α) :
    a ∈ shuffleLoop rs i t l ↔ a ∈ l :=
  (shuffleLoop_perm rs i t l).mem_iff

/-- For points of a box at most `2^1023` wide, both invariants hold when the loop ends. -/
theorem final_inv (lo hi : ℚ) (hw : hi - lo ≤ 2 ^ 1023) (rs : Nat → Nat) (points : List Circle)
    (k : Int) (n : Nat) (hk : 1 ≤ k) (hkn : k ≤ points.length)
    (hbox : ∀ p ∈ points, InBox lo hi p) :
    LabelInv k.toNat (runFor n (initRun (shuffleLoop rs (points.length - 1) 0 points) k.toNat)) ∧
    BoxInv lo hi (runFor n (initRun (shuffleLoop rs (points.length - 1) 0 points) k.toNat)) := by
  have hlen : (shuffleLoop rs (points.length - 1) 0 points).length = points.length :=
    shuffleLoop_length _ _ _ _
  have h := initRun_inv lo hi hw (shuffleLoop rs (points.length - 1) 0 points) k.toNat
    (by omega) (by omega) (fun p hp => hbox p ((shuffleLoop_mem _ _ _ _ _).mp hp))
  exact inv_runFor lo hi k.toNat n _ h.1 h.2

theorem map_fixed {α : Type} (f : α → α) (l : List α) (h : l.map f = l) :
    ∀ a ∈ l, f a = a := by
  induction l with
  | nil => simp
  | cons b l ih =>
    simp only [List.map_cons, List.cons.injEq] at h
    intro a ha
    rcases List.mem_cons.mp ha with rfl | ha
    · exact h.1
    · exact ih h.2 a ha

/-- In a state that satisfies both invariants every label names the lowest-indexed nearest
centroid. -/
theorem inv_lowestNearest (lo hi : ℚ) (hw : hi - lo ≤ 2 ^ 1023) (k : Nat) (s : Run)
    (hL : LabelInv k s) (hB : BoxInv lo hi s) (q : Circle) (hq : q ∈ s.points) :
    ∃ (j : Nat) (cj : Circle), q.cluster = (j : Int) ∧
      Root.lt (dist q cj) MaxFloat64 = true ∧ LowestNearest q s.centroids j cj := by
  obtain ⟨_, _, hfix⟩ := hL
  obtain ⟨_, hbox, _, c, hc, hcb⟩ := hB
  have hself : assignPoint s.centroids q = q := map_fixed _ _ hfix q hq
  have h := assignPoint_lowestNearest q s.centroids
    ⟨c, hc, dist_lt_max_of_box hw (hbox q hq) hcb⟩
  rw [hself] at h
  exact h

/-! ## Coordinates are kept -/

theorem CalculateClusters_xy (points cs : List Circle) :
    (CalculateClusters points cs).map (fun p => (p.x, p.y)) = points.map (fun p => (p.x, p.y)) := by
  simp [CalculateClusters, List.map_map, Function.comp_def, assignPoint_x, assignPoint_y]

theorem iterate_xy (s : Run) :
    (iterate s).points.map (fun p => (p.x, p.y)) = s.points.map (fun p => (p.x, p.y)) := by
  simp only [iterate]
  split
  · exact CalculateClusters_xy _ _
  · rfl

theorem runFor_xy (n : Nat) (s : Run) :
    (runFor n s).points.map (fun p => (p.x, p.y)) = s.points.map (fun p => (p.x, p.y)) := by
  induction n generalizing s with
  | zero => rfl
  | succ n ih =>
    unfold runFor
    split
    · rw [ih, iterate_xy]
    · rfl

theorem length_of_xy (l l2 : List Circle)
    (h : l.map (fun p => (p.x, p.y)) = l2.map (fun p => (p.x, p.y))) : l.length = l2.length := by
  have h2 := congrArg List.length h
  simpa using h2

theorem members_all (points : List Circle) (i : Int) (h : ∀ p ∈ points, p.cluster = i) :
    members points i = points := by
  unfold members
  rw [List.filter_eq_self]
  intro p hp
  simp [h p hp]

/-! ## C9 -/

/-- A state that an iteration reproduces, with `change` set, is kept until the cap. -/
theorem runFor_stuck (P C : List Circle)
    (h : ∀ it : Nat, iterate ⟨P, C, true, it⟩ = ⟨P, C, true, it + 1⟩) (n it : Nat) :
    runFor n ⟨P, C, true, it⟩ = ⟨P, C, true, it + n⟩ := by
  induction n generalizing it with
  | zero => rfl
  | succ n ih =>
    rw [runFor, if_pos rfl, h, ih]
    congr 1
    omega

theorem dist_nan_of_isNaN (q c : Circle) (h : IsNaN c) : dist q c = Root.nan := by
  obtain ⟨hx, hy⟩ := h
  have h1 : q.x - F64.nan = F64.nan := by
    show F64.add q.x (F64.neg F64.nan) = F64.nan
    cases q.x <;> rfl
  have h2 : q.y - F64.nan = F64.nan := by
    show F64.add q.y (F64.neg F64.nan) = F64.nan
    cases q.y <;> rfl
  simp only [dist, _euclidianDistance, hx, hy, h1, h2]
  rfl

/-- C9, as stated, fails: two equal points of the square with k = 2 and limit 0 leave
cluster 1 empty; the run goes on to the cap of 10000 iterations and ends with the
centroid (NaN, NaN), which is not in the square. -/
theorem KMeans_square_counterexample :
    KMeans (fun _ => 0) [pt 0 0, pt 0 0] 2 0
      = Except.ok ⟨[pt 0 0, pt 0 0], [ct 0 0 0, ⟨F64.nan, F64.nan, 1⟩], 10000⟩ ∧
    ¬ InBox 0 70 ⟨F64.nan, F64.nan, 1⟩ := by
  constructor
  · rw [KMeans_eq]
    have h1 : _shuffleElements (fun _ => 0) [pt 0 0, pt 0 0] = Except.ok [pt 0 0, pt 0 0] := by
      decide!
    have h2 : iterate (initRun [pt 0 0, pt 0 0] (2 : Int).toNat)
        = ⟨[pt 0 0, pt 0 0], [ct 0 0 0, ⟨F64.nan, F64.nan, 1⟩], true, 1⟩ := by
      decide!
    have h3 : ∀ it : Nat,
        iterate ⟨[pt 0 0, pt 0 0], [ct 0 0 0, ⟨F64.nan, F64.nan, 1⟩], true, it⟩
          = ⟨[pt 0 0, pt 0 0], [ct 0 0 0, ⟨F64.nan, F64.nan, 1⟩], true, it + 1⟩ := by
      intro it
      have hu : updateCentroids [pt 0 0, pt 0 0] [ct 0 0 0, ⟨F64.nan, F64.nan, 1⟩] 0 false
          = ([ct 0 0 0, ⟨F64.nan, F64.nan, 1⟩], true) := by decide!
      have hc : CalculateClusters [pt 0 0, pt 0 0] [ct 0 0 0, ⟨F64.nan, F64.nan, 1⟩]
          = [pt 0 0, pt 0 0] := by decide!
      simp only [iterate, hu, hc, if_true]
    have h4 : (cap 0).toNat = 9999 + 1 := by decide
    have h5 : (initRun [pt 0 0, pt 0 0] (2 : Int).toNat).change = true := rfl
    have h6 : ¬ ((2 : Int) < 0 ∨ (([pt 0 0, pt 0 0] : List Circle).length : Int) < 2) := by
      decide
    simp only [h1, h6, if_false, h4]
    rw [runFor, if_pos h5, h2, runFor_stuck _ _ h3]
  · rintro ⟨a, b, hx, _⟩
    cases hx

/-- C9, amended: for every point list whose coordinates all lie in [0,70]x[0,70] and every
k with 1 <= k <= n (limit = 0), `KMeans` completes with an iteration count <= 10000, and
every resulting centroid lies within [0,70]x[0,70] or has NaN coordinates, in which case
no point carries its label (its cluster is empty). -/
theorem KMeans_centroids_in_square (rs : Nat → Nat) (points : List Circle) (k : Int)
    (hk : 1 ≤ k) (hkn : k ≤ points.length) (hbox : ∀ p ∈ points, InBox 0 70 p) :
    ∃ r, KMeans rs points k 0 = Except.ok r ∧ r.iterations ≤ 10000 ∧
      ∀ (i : Nat) (c : Circle), r.centroids[i]? = some c →
        InBox 0 70 c ∨ (IsNaN c ∧ ∀ q ∈ r.points, q.cluster ≠ (i : Int)) := by
  have hw : (70 : ℚ) - 0 ≤ 2 ^ 1023 := by norm_num
  have hok := KMeans_ok rs points k 0 hk hkn
  obtain ⟨hL, hB⟩ := final_inv 0 70 hw rs points k (cap 0).toNat hk hkn hbox
  refine ⟨_, hok, ?_, ?_⟩
  · have h := runFor_iterations_le (cap 0).toNat
      (initRun (shuffleLoop rs (points.length - 1) 0 points) k.toNat)
    have hc : (cap 0).toNat = 10000 := by decide
    simp only [hc, initRun] at h ⊢
    simpa using h
  · intro i c hc
    rcases hB.2.2.1 c (List.getElem?_mem hc) with h | h
    · left; exact h
    · right
      refine ⟨h, ?_⟩
      intro q hq hlabel
      obtain ⟨j, cj, hj, hlt, hget, _, _⟩ := inv_lowestNearest 0 70 hw _ _ hL hB q hq
      have hji : j = i := by
        rw [hlabel] at hj
        exact_mod_cast hj.symm
      rw [hji] at hget
      simp only at hc
      rw [hc] at hget
      rw [← Option.some.inj hget, dist_nan_of_isNaN q c h] at hlt
      simp [Root.lt] at hlt

/-- C9, amended, at a concrete run: three points of the square, k = 2, limit 0. -/
theorem KMeans_centroids_in_square_witness :
    ∃ r, KMeans (fun _ => 0) [pt 0 0, pt 70 0, pt 35 70] 2 0 = Except.ok r ∧
      r.iterations ≤ 10000 ∧
      ∀ (i : Nat) (c : Circle), r.centroids[i]? = some c →
        InBox 0 70 c ∨ (IsNaN c ∧ ∀ q ∈ r.points, q.cluster ≠ (i : Int)) :=
  KMeans_centroids_in_square (fun _ => 0) [pt 0 0, pt 70 0, pt 35 70] 2 (by decide) (by decide)
    (by
      intro p hp
      simp only [List.mem_cons, List.mem_singleton, List.not_mem_nil, or_false] at hp
      rcases hp with rfl | rfl | rfl <;>
        exact ⟨_, _, rfl, rfl, by norm_num, by norm_num, by norm_num, by norm_num⟩)

/-! ## One centroid per point -/

theorem initCentroids_label_ge (l : List Circle) (s : Nat) :
    ∀ c ∈ initCentroids l s, (s : Int) ≤ c.cluster := by
  induction l generalizing s with
  | nil => simp [initCentroids]
  | cons a l ih =>
    intro c hc
    simp only [initCentroids, List.mem_cons] at hc
    rcases hc with rfl | hc
    · simp
    · have := ih (s + 1) c hc
      push_cast at this
      omega

/-- Among the initial centroids, the members of cluster `s + j` are the `j`-th alone. -/
theorem members_initCentroids (l : List Circle) (s j : Nat) (a : Circle) (ha : l[j]? = some a) :
    members (initCentroids l s) ((s + j : Nat) : Int)
      = [{ x := a.x, y := a.y, cluster := ((s + j : Nat) : Int) }] := by
  induction l generalizing s j with
  | nil => simp at ha
  | cons b l ih =>
    cases j with
    | zero =>
      simp at ha
      subst ha
      have hrest : members (initCentroids l (s + 1)) ((s : Nat) : Int) = [] := by
        unfold members
        rw [List.filter_eq_nil_iff]
        intro c hc
        have := initCentroids_label_ge l (s + 1) c hc
        push_cast at this
        simp only [decide_eq_true_eq]
        omega
      unfold members at hrest ⊢
      simp [initCentroids, List.filter_cons, hrest]
    | succ j =>
      simp at ha
      have h := ih (s + 1) j ha
      have e : s + 1 + j = s + (j + 1) := by omega
      rw [e] at h
      have hne : ¬ ((s : Int) = ((s + (j + 1) : Nat) : Int)) := by
        push_cast
        omega
      unfold members at h ⊢
      simp only [initCentroids, List.filter_cons, hne, decide_False]
      exact h

/-! ## The square scenario -/

/-- The shuffles of the four corners that start with (0,0), (10,10). -/
theorem squarePoints_shuffles (rs : Nat → Nat) (array : List Circle)
    (h : shuffleLoop rs 3 0 squarePoints = array)
    (hdraw : array.take 2 = [pt 0 0, pt 10 10]) :
    array = [pt 0 0, pt 10 10, pt 0 10, pt 10 0] ∨
    array = [pt 0 0, pt 10 10, pt 10 0, pt 0 10] := by
  have key : ∀ j0 < 4, ∀ j1 < 3, ∀ j2 < 2,
      (swapAt (swapAt (swapAt squarePoints 3 j0) 2 j1) 1 j2).take 2 = [pt 0 0, pt 10 10] →
      (swapAt (swapAt (swapAt squarePoints 3 j0) 2 j1) 1 j2
          = [pt 0 0, pt 10 10, pt 0 10, pt 10 0] ∨
        swapAt (swapAt (swapAt squarePoints 3 j0) 2 j1) 1 j2
          = [pt 0 0, pt 10 10, pt 10 0, pt 0 10]) := by
    decide!
  have hs : shuffleLoop rs 3 0 squarePoints
      = swapAt (swapAt (swapAt squarePoints 3 (rs 0 % 4)) 2 (rs 1 % 3)) 1 (rs 2 % 2) := rfl
  rw [← h, hs] at hdraw ⊢
  exact key _ (Nat.mod_lt _ (by decide)) _ (Nat.mod_lt _ (by decide)) _
    (Nat.mod_lt _ (by decide)) hdraw

/-! ## C10 -/

/-- The HTTP handler computes nothing when k or the point count is zero, and answers with
the message, without calling `KMeans`, when k exceeds the point count. -/
theorem kMeansHandler_guards (k points limit : Int) (devx meanx devy meany : F64) :
    ((k = 0 ∨ points = 0) → kMeansHandler k points limit devx meanx devy meany
      = Response.nothing) ∧
    (k ≠ 0 → points ≠ 0 → k > points →
      kMeansHandler k points limit devx meanx devy meany = Response.message) := by
  constructor
  · intro h
    simp [kMeansHandler, h]
  · intro h1 h2 h3
    simp [kMeansHandler, h1, h2, h3]

/-- The command-line path computes nothing when k or the point count is zero. -/
theorem main_zero_guard (points k lim : Int) (devx devy meanx meany : F64)
    (h : k = 0 ∨ points = 0) :
    main false points k lim devx devy meanx meany = Response.nothing := by
  simp [main, h]

/-- C10 fails on the command-line path: with `-k 5 -points 3` the HTTP handler answers
with the message, but `main` has no such test and calls `KMeans` with k = 5 on 3 generated
circles, where the slice `[:k]` is out of range. -/
theorem main_runs_KMeans_when_k_exceeds_points :
    kMeansHandler 5 3 0 (F64.fin 0) (F64.fin 0) (F64.fin 0) (F64.fin 0) = Response.message ∧
    main false 3 5 0 (F64.fin 0) (F64.fin 0) (F64.fin 0) (F64.fin 0)
      = Response.run false 3 5 0 ∧
    ∀ (rs : Nat → Nat) (a b c : Circle),
      KMeans rs [a, b, c] 5 0 = Except.error Fault.sliceBounds := by
  refine ⟨by decide, by decide, ?_⟩
  intro rs a b c
  rw [KMeans_eq, shuffleElements_ok rs [a, b, c] (by simp)]
  have : (5 : Int) < 0 ∨ ((shuffleLoop rs ([a, b, c].length - 1) 0 [a, b, c]).length : Int) < 5 := by
    right
    rw [shuffleLoop_length]
    simp
  simp only [this, if_true]

/-! ## The drawing -/

theorem randomColorsLoop_length (rs : Nat → Nat) (n t : Nat) :
    (randomColorsLoop rs n t).length = n := by
  induction n generalizing t with
  | zero => rfl
  | succ n ih => simp [randomColorsLoop, ih]

theorem randomColorsLoop_getElem? (rs : Nat → Nat) (n t i : Nat) (hi : i < n) :
    (randomColorsLoop rs n t)[i]? = some ("#" ++ _randomHex rs (t + i)) := by
  induction n generalizing t i with
  | zero => omega
  | succ n ih =>
    cases i with
    | zero => simp [randomColorsLoop]
    | succ i =>
      simp only [randomColorsLoop, List.getElem?_cons_succ]
      rw [ih (t + 1) i (by omega)]
      have : t + 1 + i = t + (i + 1) := by omega
      rw [this]

/-- For `k >= 0` the function `_randomColors` returns `k` colours. -/
theorem randomColors_ok (rs : Nat → Nat) (t : Nat) (k : Int) (hk : 0 ≤ k) :
    ∃ colors, _randomColors rs t k = Except.ok colors ∧ (colors.length : Int) = k := by
  unfold _randomColors
  by_cases h8 : k ≤ 8
  · have hneg : ¬ k < 0 := by omega
    refine ⟨fixedColors.take k.toNat, by simp [h8, hneg], ?_⟩
    have : fixedColors.length = 8 := rfl
    rw [List.length_take, this]
    omega
  · refine ⟨randomColorsLoop rs k.toNat t, by simp [h8], ?_⟩
    rw [randomColorsLoop_length]
    omega

theorem colorAt_ok (colors : List String) (cluster : Int) (h0 : 0 ≤ cluster)
    (h1 : cluster < colors.length) :
    colorAt colors cluster = Except.ok (colors.getD cluster.toNat "") := by
  have hlt : cluster.toNat < colors.length := by omega
  have hneg : ¬ cluster < 0 := by omega
  simp [colorAt, hneg, List.getElem?_eq_getElem hlt, List.getD_eq_getElem?_getD]

/-! ## C12 -/

theorem getElem?_of_xy (l l2 : List Circle)
    (h : l.map (fun p => (p.x, p.y)) = l2.map (fun p => (p.x, p.y))) (i : Nat) (p : Circle)
    (hp : l2[i]? = some p) : ∃ label : Int, l[i]? = some { p with cluster := label } := by
  have hi := congrArg (fun m : List (F64 × F64) => m[i]?) h
  simp only [List.getElem?_map, hp, Option.map_some'] at hi
  cases hq : l[i]? with
  | none => simp [hq] at hi
  | some q =>
    simp only [hq, Option.map_some', Option.some.injEq, Prod.mk.injEq] at hi
    refine ⟨q.cluster, ?_⟩
    rw [← hi.1, ← hi.2]

/-- C12: for every input with 1 <= k <= n the point sequence after `KMeans` is the
shuffled input, a permutation of the input, with the (x, y) of every point as it was and
only the cluster field rewritten; and `CalculateClusters` returns its points in order with
only the cluster fields rewritten (it writes neither coordinates nor centroids). -/
theorem KMeans_keeps_positions (rs : Nat → Nat) (points : List Circle) (k limit : Int)
    (hk : 1 ≤ k) (hkn : k ≤ points.length) :
    (∃ array r, _shuffleElements rs points = Except.ok array ∧ array.Perm points ∧
      KMeans rs points k limit = Except.ok r ∧ r.points.length = points.length ∧
      (r.points.map (fun p => (p.x, p.y))).Perm (points.map (fun p => (p.x, p.y))) ∧
      ∀ (i : Nat) (p : Circle), array[i]? = some p →
        ∃ label : Int, r.points[i]? = some { p with cluster := label }) ∧
    (∀ (ps cs : List Circle), (CalculateClusters ps cs).length = ps.length ∧
      ∀ (i : Nat) (p : Circle), ps[i]? = some p →
        ∃ label : Int, (CalculateClusters ps cs)[i]? = some { p with cluster := label }) := by
  constructor
  · have hne : points ≠ [] := by
      intro h
      rw [h] at hkn
      simp at hkn
      omega
    have hperm := shuffleLoop_perm rs (points.length - 1) 0 points
    have hxy : (runFor (cap limit).toNat
          (initRun (shuffleLoop rs (points.length - 1) 0 points) k.toNat)).points.map
            (fun p => (p.x, p.y))
        = (shuffleLoop rs (points.length - 1) 0 points).map (fun p => (p.x, p.y)) :=
      (runFor_xy _ _).trans (CalculateClusters_xy _ _)
    refine ⟨_, _, shuffleElements_ok rs points hne, hperm, KMeans_ok rs points k limit hk hkn,
      ?_, ?_, ?_⟩
    · rw [length_of_xy _ _ hxy]
      exact shuffleLoop_length _ _ _ _
    · simp only [hxy]
      exact hperm.map _
    · intro i p hp
      exact getElem?_of_xy _ _ hxy i p hp
  · intro ps cs
    exact ⟨CalculateClusters_length ps cs,
      fun i p hp => getElem?_of_xy _ _ (CalculateClusters_xy ps cs) i p hp⟩

/-- C12 at a concrete run: three points, k = 2. -/
theorem KMeans_keeps_positions_witness :
    (∃ array r, _shuffleElements (fun _ => 0) [pt 0 0, pt 3 4, pt 6 8] = Except.ok array ∧
      array.Perm [pt 0 0, pt 3 4, pt 6 8] ∧
      KMeans (fun _ => 0) [pt 0 0, pt 3 4, pt 6 8] 2 0 = Except.ok r ∧
      r.points.length = ([pt 0 0, pt 3 4, pt 6 8] : List Circle).length ∧
      (r.points.map (fun p => (p.x, p.y))).Perm
        (([pt 0 0, pt 3 4, pt 6 8] : List Circle).map (fun p => (p.x, p.y))) ∧
      ∀ (i : Nat) (p : Circle), array[i]? = some p →
        ∃ label : Int, r.points[i]? = some { p with cluster := label }) ∧
    (∀ (ps cs : List Circle), (CalculateClusters ps cs).length = ps.length ∧
      ∀ (i : Nat) (p : Circle), ps[i]? = some p →
        ∃ label : Int, (CalculateClusters ps cs)[i]? = some { p with cluster := label }) :=
  KMeans_keeps_positions (fun _ => 0) [pt 0 0, pt 3 4, pt 6 8] 2 0 (by decide) (by decide)

/-! ## C13 -/

/-- C13, as stated, fails: for k = 9 no entry is a fixed colour; with all draws 0 every
entry, also entry 0, is the pseudo-random text "#0", while the first fixed colour is
"#ef4444". -/
theorem randomColors_counterexample :
    _randomColors (fun _ => 0) 0 9 = Except.ok (List.replicate 9 "#0") ∧
    fixedColors[0]? = some "#ef4444" := by
  decide!

/-- C13, amended: for every k >= 0, `_randomColors(k)` returns exactly k colours; for
k <= 8 entry i is the i-th fixed colour; for k > 8 every entry, from index 0 on, is
pseudo-random: entry i is "#" followed by the hexadecimal text of the i-th draw
`rand.Intn(16777215)`, and no fixed colour is kept. -/
theorem randomColors_spec (rs : Nat → Nat) (t : Nat) (k : Int) (hk : 0 ≤ k) :
    ∃ colors, _randomColors rs t k = Except.ok colors ∧ (colors.length : Int) = k ∧
      (k ≤ 8 → ∀ i : Nat, (i : Int) < k → colors[i]? = fixedColors[i]?) ∧
      (8 < k → ∀ i : Nat, (i : Int) < k →
        colors[i]? = some ("#" ++ hex (rs (t + i) % 16777215))) := by
  obtain ⟨colors, hcol, hlen⟩ := randomColors_ok rs t k hk
  refine ⟨colors, hcol, hlen, ?_, ?_⟩
  · intro h8 i hi
    have hneg : ¬ k < 0 := by omega
    simp only [_randomColors, h8, hneg, if_true, if_false] at hcol
    rw [← Except.ok.inj hcol, List.getElem?_take]
    have : i < k.toNat := by omega
    simp [this]
  · intro h8 i hi
    have hn8 : ¬ k ≤ 8 := by omega
    simp only [_randomColors, hn8, if_false] at hcol
    rw [← Except.ok.inj hcol, randomColorsLoop_getElem? rs k.toNat t i (by omega)]
    rfl

/-- C13, amended, at k = 3. -/
theorem randomColors_spec_witness :
    ∃ colors, _randomColors (fun _ => 0) 0 3 = Except.ok colors ∧ (colors.length : Int) = 3 ∧
      ((3 : Int) ≤ 8 → ∀ i : Nat, (i : Int) < 3 → colors[i]? = fixedColors[i]?) ∧
      ((8 : Int) < 3 → ∀ i : Nat, (i : Int) < 3 →
        colors[i]? = some ("#" ++ hex ((fun _ => 0) (0 + i) % 16777215))) :=
  randomColors_spec (fun _ => 0) 0 3 (by decide)

/-! ## The fixed colours -/

theorem fixedColors_nodup : fixedColors.Nodup := by
  decide

/-! ## Empty clusters -/

theorem clusterSums_empty (points : List Circle) (i : Int) (h : ∀ p ∈ points, p.cluster ≠ i) :
    clusterSums points i = (F64.fin 0, F64.fin 0, 0) := by
  unfold clusterSums
  generalize (F64.fin 0, F64.fin 0, (0 : Int)) = acc
  induction points generalizing acc with
  | nil => rfl
  | cons p ps ih =>
    have hp : ¬ p.cluster = i := h p (List.mem_cons_self p ps)
    simp only [List.foldl_cons, hp, if_false]
    exact ih (fun q hq => h q (List.mem_cons_of_mem p hq)) acc

/-- The mean of a cluster without members is 0/0 = NaN, which counts as changed. -/
theorem updateCentroid_of_empty (points : List Circle) (i : Nat) (c : Circle)
    (h : ∀ p ∈ points, p.cluster ≠ (i : Int)) :
    updateCentroid points i c = ({ x := F64.nan, y := F64.nan, cluster := c.cluster }, true) := by
  rw [updateCentroid_eq, clusterSums_empty points i h]
  simp [F64.zero_div_zero, F64.ne_nan_left]

/-- A scan never labels a point with a NaN centroid. -/
theorem assignPoint_ne_nan (cs : List Circle) (p : Circle) (i : Nat) (c : Circle)
    (hc : cs[i]? = some c) (hnan : IsNaN c) (hp : p.cluster ≠ (i : Int)) :
    (assignPoint cs p).cluster ≠ (i : Int) := by
  rcases scanCentroids_spec p cs 0 MaxFloat64 p.cluster MaxFloat64_notNaN with
    ⟨_, hr⟩ | ⟨m, cm, hr, hm, hbest⟩
  · show scanCentroids p cs 0 MaxFloat64 p.cluster ≠ (i : Int)
    rw [hr]
    exact hp
  · show scanCentroids p cs 0 MaxFloat64 p.cluster ≠ (i : Int)
    rw [hr]
    intro h
    have hmi : m = i := by
      have : ((0 + m : Nat) : Int) = (i : Int) := h
      omega
    rw [hmi] at hbest
    have hget := hbest.1
    rw [hc] at hget
    have hcm : c = cm := Option.some.inj hget
    rw [← hcm, dist_nan_of_isNaN p c hnan] at hm
    simp [Root.lt] at hm

/-- An iteration that starts with cluster `i` empty makes centroid `i` NaN, sets `change`
and leaves the cluster empty. -/
theorem iterate_of_empty (s : Run) (i : Nat) (hi : i < s.centroids.length)
    (hempty : ∀ p ∈ s.points, p.cluster ≠ (i : Int)) :
    (∃ c, (iterate s).centroids[i]? = some c ∧ IsNaN c) ∧ (iterate s).change = true ∧
      (∀ p ∈ (iterate s).points, p.cluster ≠ (i : Int)) := by
  have hu := updateCentroid_of_empty s.points i s.centroids[i] hempty
  have hget : (updateCentroids s.points s.centroids 0 false).1[i]?
      = some { x := F64.nan, y := F64.nan, cluster := s.centroids[i].cluster } := by
    rw [updateCentroids_getElem?, List.getElem?_eq_getElem hi]
    simp only [Option.map_some', Nat.zero_add, hu]
  have hch : (updateCentroids s.points s.centroids 0 false).2 = true :=
    updateCentroids_change_of_mem s.points s.centroids 0 false i s.centroids[i]
      (List.getElem?_eq_getElem hi) (by simp only [Nat.zero_add, hu])
  refine ⟨⟨_, hget, rfl, rfl⟩, hch, ?_⟩
  intro p hp
  simp only [iterate, hch, if_true, CalculateClusters, List.mem_map] at hp
  obtain ⟨q, hq, rfl⟩ := hp
  exact assignPoint_ne_nan _ q i _ hget ⟨rfl, rfl⟩ (hempty q hq)

/-- From a state with `change` set and an empty cluster the loop never stops early. -/
theorem runFor_of_empty (n : Nat) (s : Run) (i : Nat) (hi : i < s.centroids.length)
    (hempty : ∀ p ∈ s.points, p.cluster ≠ (i : Int)) (hch : s.change = true) :
    (runFor n s).iterations = s.iterations + n := by
  induction n generalizing s with
  | zero => rfl
  | succ n ih =>
    obtain ⟨_, h2, h3⟩ := iterate_of_empty s i hi hempty
    rw [runFor, if_pos hch, ih (iterate s) (by rw [iterate_centroids_length]; exact hi) h3 h2,
      iterate_iterations]
    omega

/-- While every iteration sets `change`, the loop goes on. -/
theorem runFor_reach (m n : Nat) (s : Run) (hmn : m ≤ n)
    (h : ∀ j, j < m → (Nat.iterate iterate j s).change = true) :
    runFor n s = runFor (n - m) (Nat.iterate iterate m s) := by
  induction m generalizing s n with
  | zero => rfl
  | succ m ih =>
    cases n with
    | zero => omega
    | succ n =>
      have h0 : s.change = true := h 0 (by omega)
      rw [runFor, if_pos h0, ih n (iterate s) (by omega)
        (fun j hj => by simpa [Function.iterate_succ_apply] using h (j + 1) (by omega))]
      simp [Function.iterate_succ_apply]

theorem iterates_centroids_length (m : Nat) (s : Run) :
    (Nat.iterate iterate m s).centroids.length = s.centroids.length := by
  induction m generalizing s with
  | zero => rfl
  | succ m ih => rw [Function.iterate_succ_apply, ih, iterate_centroids_length]

theorem iterates_iterations (m : Nat) (s : Run) :
    (Nat.iterate iterate m s).iterations = s.iterations + m := by
  induction m generalizing s with
  | zero => rfl
  | succ m ih =>
    rw [Function.iterate_succ_apply, ih, iterate_iterations]
    omega

/-! ## C15 -/

/-- C15: if the run reaches the start of an iteration (after m earlier iterations, all with
`change` set, and m below the cap) in which some cluster index i < k has no member point,
then that iteration makes centroid i NaN (the mean 0/0, which differs from the stored
coordinate), sets `change` and leaves cluster i empty; hence `KMeans` never stops as
converged and reports exactly cap iterations (limit, or 10000 when limit = 0). -/
theorem empty_cluster_runs_to_cap (rs : Nat → Nat) (points : List Circle) (k limit : Int)
    (hk : 1 ≤ k) (hkn : k ≤ points.length) (m i : Nat)
    (hm : (m : Int) < cap limit) (hi : (i : Int) < k)
    (hreach : ∀ j, j ≤ m →
      (Nat.iterate iterate j
        (initRun (shuffleLoop rs (points.length - 1) 0 points) k.toNat)).change = true)
    (hempty : ∀ p ∈ (Nat.iterate iterate m
        (initRun (shuffleLoop rs (points.length - 1) 0 points) k.toNat)).points,
      p.cluster ≠ (i : Int)) :
    (∃ c, (Nat.iterate iterate (m + 1)
        (initRun (shuffleLoop rs (points.length - 1) 0 points) k.toNat)).centroids[i]? = some c ∧
      IsNaN c) ∧
    (Nat.iterate iterate (m + 1)
      (initRun (shuffleLoop rs (points.length - 1) 0 points) k.toNat)).change = true ∧
    (∀ p ∈ (Nat.iterate iterate (m + 1)
        (initRun (shuffleLoop rs (points.length - 1) 0 points) k.toNat)).points,
      p.cluster ≠ (i : Int)) ∧
    ∃ r, KMeans rs points k limit = Except.ok r ∧ (r.iterations : Int) = cap limit := by
  have hlen : (shuffleLoop rs (points.length - 1) 0 points).length = points.length :=
    shuffleLoop_length _ _ _ _
  generalize hs0 : initRun (shuffleLoop rs (points.length - 1) 0 points) k.toNat = s0
    at hreach hempty
  have hclen : s0.centroids.length = k.toNat := by
    rw [← hs0]
    exact initRun_centroids_length _ _ (by omega)
  have hit0 : s0.iterations = 0 := by rw [← hs0]; rfl
  have hi2 : i < (Nat.iterate iterate m s0).centroids.length := by
    rw [iterates_centroids_length, hclen]
    omega
  obtain ⟨h1, h2, h3⟩ := iterate_of_empty _ i hi2 hempty
  have hok := KMeans_ok rs points k limit hk hkn
  rw [hs0] at hok
  have hmc : m ≤ (cap limit).toNat := by omega
  have hrun := runFor_reach m (cap limit).toNat s0 hmc (fun j hj => hreach j (by omega))
  have hcount := runFor_of_empty ((cap limit).toNat - m) _ i hi2 hempty (hreach m (le_refl m))
  rw [← hrun, iterates_iterations, hit0] at hcount
  simp only [Function.iterate_succ_apply']
  refine ⟨h1, h2, h3, _, hok, ?_⟩
  simp only [hcount]
  omega

/-- C15 at a concrete run: two equal points, k = 2, limit 3; cluster 1 is empty from the
first iteration on. -/
theorem empty_cluster_runs_to_cap_witness :
    (∃ c, (Nat.iterate iterate (0 + 1)
        (initRun (shuffleLoop (fun _ => 0) (([pt 0 0, pt 0 0] : List Circle).length - 1) 0
          [pt 0 0, pt 0 0]) (2 : Int).toNat)).centroids[1]? = some c ∧
      IsNaN c) ∧
    (Nat.iterate iterate (0 + 1)
      (initRun (shuffleLoop (fun _ => 0) (([pt 0 0, pt 0 0] : List Circle).length - 1) 0
        [pt 0 0, pt 0 0]) (2 : Int).toNat)).change = true ∧
    (∀ p ∈ (Nat.iterate iterate (0 + 1)
        (initRun (shuffleLoop (fun _ => 0) (([pt 0 0, pt 0 0] : List Circle).length - 1) 0
          [pt 0 0, pt 0 0]) (2 : Int).toNat)).points,
      p.cluster ≠ ((1 : Nat) : Int)) ∧
    ∃ r, KMeans (fun _ => 0) [pt 0 0, pt 0 0] 2 3 = Except.ok r ∧
      (r.iterations : Int) = cap 3 :=
  empty_cluster_runs_to_cap (fun _ => 0) [pt 0 0, pt 0 0] 2 3 (by decide) (by decide) 0 1
    (by decide) (by decide)
    (by
      intro j hj
      have : j = 0 := by omega
      subst this
      rfl)
    (by decide!)

/-! ## The mean minimises the squared distances -/

theorem sum_sub_const (l : List ℚ) (a : ℚ) :
    (l.map (fun x => x - a)).sum = l.sum - (l.length : ℚ) * a := by
  induction l with
  | nil => simp
  | cons x l ih =>
    simp only [List.map_cons, List.sum_cons, List.length_cons, ih]
    push_cast
    ring

theorem sum_sq_shift (l : List ℚ) (a c : ℚ) :
    (l.map (fun x => (x - c) * (x - c))).sum
      = (l.map (fun x => (x - a) * (x - a))).sum + 2 * (a - c) * (l.map (fun x => x - a)).sum
        + (l.length : ℚ) * ((a - c) * (a - c)) := by
  induction l with
  | nil => simp
  | cons x l ih =>
    simp only [List.map_cons, List.sum_cons, List.length_cons, ih]
    push_cast
    ring

/-- The sum of squared differences from the mean is the least. -/
theorem mean_min (l : List ℚ) (hl : l ≠ []) (c : ℚ) :
    (l.map (fun x => (x - l.sum / (l.length : ℚ)) * (x - l.sum / (l.length : ℚ)))).sum
      ≤ (l.map (fun x => (x - c) * (x - c))).sum := by
  have hpos : (0 : ℚ) < (l.length : ℚ) := by
    have := List.length_pos.mpr hl
    exact_mod_cast this
  have h0 : (l.map (fun x => x - l.sum / (l.length : ℚ))).sum = 0 := by
    rw [sum_sub_const]
    field_simp
  rw [sum_sq_shift l (l.sum / (l.length : ℚ)) c, h0]
  have hsq := mul_self_nonneg (l.sum / (l.length : ℚ) - c)
  have := mul_nonneg hpos.le hsq
  linarith

theorem sum_sqDist (M : List Circle) (c : Circle) :
    (M.map (fun p => sqDist p c)).sum
      = ((M.map (fun p => p.x.toRat)).map
          (fun x => (x - c.x.toRat) * (x - c.x.toRat))).sum
        + ((M.map (fun p => p.y.toRat)).map
          (fun y => (y - c.y.toRat) * (y - c.y.toRat))).sum := by
  induction M with
  | nil => simp
  | cons p M ih =>
    simp only [List.map_cons, List.sum_cons]
    rw [ih]
    unfold sqDist
    ring

/-- Within a cluster, moving the centroid to the mean does not increase the sum of the
squared distances. -/
theorem cluster_cost_le (M : List Circle) (hM : M ≠ []) (c c2 : Circle)
    (hx : c2.x.toRat = sumX M / (M.length : ℚ)) (hy : c2.y.toRat = sumY M / (M.length : ℚ)) :
    (M.map (fun p => sqDist p c2)).sum ≤ (M.map (fun p => sqDist p c)).sum := by
  rw [sum_sqDist M c2, sum_sqDist M c, hx, hy]
  have hxne : M.map (fun p => p.x.toRat) ≠ [] := by simpa using hM
  have hyne : M.map (fun p => p.y.toRat) ≠ [] := by simpa using hM
  have h1 := mean_min (M.map (fun p => p.x.toRat)) hxne c.x.toRat
  have h2 := mean_min (M.map (fun p => p.y.toRat)) hyne c.y.toRat
  simp only [List.length_map] at h1 h2
  unfold sumX sumY
  linarith

/-! ## The cost of a clustering -/

/-- A sum over the points is the sum over the clusters of the sums over their members. -/
theorem sum_by_cluster (g : Circle → ℚ) (k : Nat) (points : List Circle)
    (hvalid : ∀ p ∈ points, 0 ≤ p.cluster ∧ p.cluster < (k : Int)) :
    (points.map g).sum
      = ∑ i in Finset.range k, ((members points (i : Int)).map g).sum := by
  induction points with
  | nil => simp [members]
  | cons p ps ih =>
    obtain ⟨h0, h1⟩ := hvalid p (List.mem_cons_self p ps)
    obtain ⟨j, hj⟩ := Int.eq_ofNat_of_zero_le h0
    have hjk : j < k := by omega
    have hmem : ∀ i : Nat, ((members (p :: ps) (i : Int)).map g).sum
        = ((members ps (i : Int)).map g).sum + (if j = i then g p else 0) := by
      intro i
      by_cases hji : j = i
      · have : p.cluster = (i : Int) := by rw [hj, hji]
        simp [members, List.filter_cons, this, hji, add_comm]
      · have : ¬ p.cluster = (i : Int) := by
          rw [hj]
          intro h
          exact hji (by exact_mod_cast h)
        simp [members, List.filter_cons, this, hji]
    rw [List.map_cons, List.sum_cons, ih (fun q hq => hvalid q (List.mem_cons_of_mem p hq))]
    simp only [hmem, Finset.sum_add_distrib, Finset.sum_ite_eq, Finset.mem_range, hjk, if_true]
    ring

theorem pointCost_of_label (centroids : List Circle) (p : Circle) (i : Nat) (c : Circle)
    (hp : p.cluster = (i : Int)) (hc : centroids[i]? = some c) :
    pointCost centroids p = sqDist p c := by
  simp [pointCost, hp, hc]

theorem members_cost (points centroids : List Circle) (i : Nat) (c : Circle)
    (hc : centroids[i]? = some c) :
    ((members points (i : Int)).map (pointCost centroids)).sum
      = ((members points (i : Int)).map (fun p => sqDist p c)).sum := by
  congr 1
  apply List.map_congr_left
  intro p hp
  exact pointCost_of_label centroids p i c (members_subset points i p hp).2 hc

/-- Recomputing every centroid as the mean of its members does not increase the cost. -/
theorem cost_update_le (k : Nat) (points centroids : List Circle)
    (hlen : centroids.length = k) (hfin : ∀ p ∈ points, Finite p)
    (hvalid : ∀ p ∈ points, 0 ≤ p.cluster ∧ p.cluster < (k : Int))
    (hne : ∀ i : Nat, i < k → members points (i : Int) ≠ []) :
    cost points (updateCentroids points centroids 0 false).1 ≤ cost points centroids := by
  unfold cost
  rw [sum_by_cluster _ k points hvalid, sum_by_cluster _ k points hvalid]
  apply Finset.sum_le_sum
  intro i hi
  have hik : i < k := Finset.mem_range.mp hi
  have hc : centroids[i]? = some centroids[i] := List.getElem?_eq_getElem (by omega)
  have hc2 : (updateCentroids points centroids 0 false).1[i]?
      = some (updateCentroid points (0 + i) centroids[i]).1 := by
    rw [updateCentroids_getElem?, hc]
    rfl
  rw [members_cost points _ i _ hc2, members_cost points _ i _ hc]
  have hmean := updateCentroid_mean points (0 + i) centroids[i] hfin
    (by simpa using hne i hik)
  simp only [Nat.zero_add] at hmean ⊢
  apply cluster_cost_le _ (hne i hik)
  · rw [hmean]
    rfl
  · rw [hmean]
    rfl

theorem dist_eq_sqDist (p c : Circle) (hp : Finite p) (hc : Finite c) :
    dist p c = Root.root (sqDist p c) := by
  obtain ⟨a, b, hpx, hpy⟩ := hp
  obtain ⟨a2, b2, hcx, hcy⟩ := hc
  rw [dist_fin p c a b a2 b2 hpx hpy hcx hcy]
  simp [sqDist, hpx, hpy, hcx, hcy, F64.toRat]

theorem sqDist_assignPoint (cs : List Circle) (p c : Circle) :
    sqDist (assignPoint cs p) c = sqDist p c := rfl

/-- Relabelling a point with `CalculateClusters` does not increase its squared distance to
the centroid of its label. -/
theorem pointCost_assign_le (k : Nat) (cs : List Circle) (hlen : cs.length = k)
    (hcfin : ∀ c ∈ cs, Finite c) (p : Circle) (hp : Finite p)
    (hvalid : 0 ≤ p.cluster ∧ p.cluster < (k : Int)) :
    pointCost cs (assignPoint cs p) ≤ pointCost cs p := by
  obtain ⟨j, hj⟩ := Int.eq_ofNat_of_zero_le hvalid.1
  have hjk : j < cs.length := by omega
  have hcj : cs[j]? = some cs[j] := List.getElem?_eq_getElem hjk
  rcases scanCentroids_spec p cs 0 MaxFloat64 p.cluster MaxFloat64_notNaN with
    ⟨_, hr⟩ | ⟨m, cm, hr, _, hget, hle, _⟩
  · have : assignPoint cs p = p := by
      show ({ p with cluster := scanCentroids p cs 0 MaxFloat64 p.cluster } : Circle) = p
      rw [hr]
    rw [this]
  · have hcl : (assignPoint cs p).cluster = (m : Int) := by
      show scanCentroids p cs 0 MaxFloat64 p.cluster = (m : Int)
      rw [hr]
      simp
    rw [pointCost_of_label cs _ m cm hcl hget, pointCost_of_label cs p j _ hj hcj,
      sqDist_assignPoint]
    have hcmf : Finite cm := hcfin cm (List.getElem?_mem hget)
    have hcjf : Finite cs[j] := hcfin _ (List.getElem_mem _)
    have h := hle j cs[j] hcj (by rw [dist_eq_sqDist p _ hp hcjf]; rfl)
    rw [dist_eq_sqDist p cm hp hcmf, dist_eq_sqDist p _ hp hcjf] at h
    simpa [Root.le] using h

theorem cost_assign_le (k : Nat) (points cs : List Circle) (hlen : cs.length = k)
    (hcfin : ∀ c ∈ cs, Finite c) (hfin : ∀ p ∈ points, Finite p)
    (hvalid : ∀ p ∈ points, 0 ≤ p.cluster ∧ p.cluster < (k : Int)) :
    cost (CalculateClusters points cs) cs ≤ cost points cs := by
  unfold cost CalculateClusters
  rw [List.map_map]
  apply List.sum_le_sum
  intro p hp
  exact pointCost_assign_le k cs hlen hcfin p (hfin p hp) (hvalid p hp)

/-! ## C17 -/

theorem updateCentroids_finite (k : Nat) (points centroids : List Circle)
    (hlen : centroids.length = k) (hfin : ∀ p ∈ points, Finite p)
    (hne : ∀ i : Nat, i < k → members points (i : Int) ≠ []) :
    ∀ c ∈ (updateCentroids points centroids 0 false).1, Finite c := by
  intro c hc
  obtain ⟨i, hi⟩ := List.getElem?_of_mem hc
  have hik : i < k := by
    have := (List.getElem?_eq_some.mp hi).1
    rw [updateCentroids_length, hlen] at this
    exact this
  rw [updateCentroids_getElem?, List.getElem?_eq_getElem (by omega)] at hi
  simp only [Option.map_some', Option.some.injEq] at hi
  have hmean := updateCentroid_mean points (0 + i) centroids[i] hfin (by simpa using hne i hik)
  rw [← hi, hmean]
  exact ⟨_, _, rfl, rfl⟩

/-- C17: over exact arithmetic, one iteration of the `KMeans` loop (every centroid
recomputed as the mean of its members, then the points relabelled by `CalculateClusters`
if a centroid changed) does not increase the total squared Euclidean distance from each
point to the centroid of its label, for every state with finite coordinates in which the
labels are valid and no cluster is empty. -/
theorem iterate_cost_le (k : Nat) (s : Run) (hlen : s.centroids.length = k)
    (hfin : ∀ p ∈ s.points, Finite p) (_hcfin : ∀ c ∈ s.centroids, Finite c)
    (hvalid : ∀ p ∈ s.points, 0 ≤ p.cluster ∧ p.cluster < (k : Int))
    (hnonempty : ∀ i : Nat, i < k → ∃ p ∈ s.points, p.cluster = (i : Int)) :
    cost (iterate s).points (iterate s).centroids ≤ cost s.points s.centroids := by
  have hne : ∀ i : Nat, i < k → members s.points (i : Int) ≠ [] := by
    intro i hi hm
    obtain ⟨p, hp, hpi⟩ := hnonempty i hi
    have : p ∈ members s.points (i : Int) := by simp [members, hp, hpi]
    rw [hm] at this
    simp at this
  have h1 := cost_update_le k s.points s.centroids hlen hfin hvalid hne
  have hcfin2 := updateCentroids_finite k s.points s.centroids hlen hfin hne
  have hlen2 : (updateCentroids s.points s.centroids 0 false).1.length = k := by
    rw [updateCentroids_length, hlen]
  cases hch : (updateCentroids s.points s.centroids 0 false).2 with
  | true =>
    have h2 := cost_assign_le k s.points _ hlen2 hcfin2 hfin hvalid
    simp only [iterate, hch, if_true]
    exact le_trans h2 h1
  | false =>
    simp only [iterate, hch]
    simpa using h1

/-- C17 at a concrete state: the points (0,0) and (4,0) with centroids (1,0) and (3,0). -/
theorem iterate_cost_le_witness :
    cost (iterate ⟨[ct 0 0 0, ct 4 0 1], [ct 1 0 0, ct 3 0 1], true, 0⟩).points
        (iterate ⟨[ct 0 0 0, ct 4 0 1], [ct 1 0 0, ct 3 0 1], true, 0⟩).centroids
      ≤ cost [ct 0 0 0, ct 4 0 1] [ct 1 0 0, ct 3 0 1] :=
  iterate_cost_le 2 ⟨[ct 0 0 0, ct 4 0 1], [ct 1 0 0, ct 3 0 1], true, 0⟩ rfl
    (by
      intro p hp
      simp only [List.mem_cons, List.mem_singleton, List.not_mem_nil, or_false] at hp
      rcases hp with rfl | rfl <;> exact ⟨_, _, rfl, rfl⟩)
    (by
      intro p hp
      simp only [List.mem_cons, List.mem_singleton, List.not_mem_nil, or_false] at hp
      rcases hp with rfl | rfl <;> exact ⟨_, _, rfl, rfl⟩)
    (by
      intro p hp
      simp only [List.mem_cons, List.mem_singleton, List.not_mem_nil, or_false] at hp
      rcases hp with rfl | rfl <;> exact ⟨by decide, by decide⟩)
    (by
      intro i hi
      have : i = 0 ∨ i = 1 := by omega
      rcases this with rfl | rfl
      · exact ⟨ct 0 0 0, by simp, rfl⟩
      · exact ⟨ct 4 0 1, by simp, rfl⟩)

/-! ## binary64 at work -/

/-- Values of the rounded arithmetic: `0.3 * 10` is 3, `10 / 3` is the `float64`
3.3333333333333335, `1 + 2^-60` is 1, the square of `2^600` overflows and that of
`2^-600` underflows, the root of 2 is the `float64` 1.4142135623730951, and the distance
from (3, 4) to (0, 0) is 5. -/
theorem ieee_values :
    ieee.mul (F64.fin (5404319552844595 / 2 ^ 54)) (F64.fin 10) = F64.fin 3 ∧
    ieee.div (F64.fin 10) (F64.fin 3) = F64.fin (7505999378950827 / 2 ^ 51) ∧
    ieee.add (F64.fin 1) (F64.fin (1 / 2 ^ 60)) = F64.fin 1 ∧
    ieee.mul (F64.fin (2 ^ 600)) (F64.fin (2 ^ 600)) = F64.pinf ∧
    ieee.mul (F64.fin (1 / 2 ^ 600)) (F64.fin (1 / 2 ^ 600)) = F64.fin 0 ∧
    ieee.sqrt (F64.fin 2) = F64.fin (6369051672525773 / 2 ^ 52) ∧
    ieee.rnd (3 / 10) = F64.fin (5404319552844595 / 2 ^ 54) ∧
    Rounded._euclidianDistance ieee (F64.fin 3) (F64.fin 0) (F64.fin 4) (F64.fin 0)
      = F64.fin 5 := by
  decide!

/-! ## Order of float64 values -/

theorem F64_lt_notNaN_left {a b : F64} (h : F64.lt a b = true) : a.isNaN = false := by
  cases a <;> cases b <;> simp_all [F64.lt, F64.isNaN]

theorem F64_le_of_lt {a b : F64} (h : F64.lt a b = true) : F64.le a b = true := by
  cases a <;> cases b <;> simp_all [F64.lt, F64.le]
  exact LT.lt.le h

theorem F64_le_of_not_lt {a b : F64} (ha : a.isNaN = false) (hb : b.isNaN = false)
    (h : ¬ F64.lt a b = true) : F64.le b a = true := by
  cases a <;> cases b <;> simp_all [F64.lt, F64.le, F64.isNaN]

theorem F64_lt_trans {a b c : F64} (h1 : F64.lt a b = true) (h2 : F64.lt b c = true) :
    F64.lt a c = true := by
  cases a <;> cases b <;> cases c <;> simp_all [F64.lt]
  exact LT.lt.trans h1 h2

theorem F64_lt_of_lt_of_le {a b c : F64} (h1 : F64.lt a b = true) (h2 : F64.le b c = true) :
    F64.lt a c = true := by
  cases a <;> cases b <;> cases c <;> simp_all [F64.lt, F64.le]
  exact LT.lt.trans_le h1 h2

theorem F64_le_self_of_lt {a b : F64} (h : F64.lt a b = true) : F64.le a a = true := by
  cases a <;> cases b <;> simp_all [F64.lt, F64.le]

theorem F64_lt_false_of_le {a b : F64} (h : F64.le a b = true) : F64.lt b a = false := by
  cases a <;> cases b <;> simp_all [F64.lt, F64.le]

theorem F64_lt_false_of_nan {a b : F64} (h : a.isNaN = true) : F64.lt a b = false := by
  cases a <;> cases b <;> simp_all [F64.lt, F64.isNaN]

namespace Rounded

/-! ## The main loop, rounded -/

theorem fl_iterate_iterations (R : Rounding) (s : Run) :
    (iterate R s).iterations = s.iterations + 1 := rfl

/-- The main loop is the bounded loop run for the `limit - iterations` iterations left. -/
theorem fl_mainLoop_eq_runFor (R : Rounding) (limit : Int) (s : Run) :
    mainLoop R limit s = runFor R (limit - s.iterations).toNat s := by
  generalize hn : (limit - s.iterations).toNat = n
  induction n generalizing s with
  | zero =>
    rw [mainLoop]
    have : ¬ ((s.iterations : Int) < limit) := by omega
    simp [this, runFor]
  | succ n ih =>
    rw [mainLoop]
    have h1 : (s.iterations : Int) < limit := by omega
    by_cases hc : s.change = true
    · have h2 : (limit - ((iterate R s).iterations : Int)).toNat = n := by
        rw [fl_iterate_iterations]; push_cast; omega
      simp [hc, h1, runFor, ih (iterate R s) h2]
    · simp [hc, runFor]

theorem fl_KMeans_eq (R : Rounding) (rs : Nat → Nat) (points : List Circle) (k limit : Int) :
    KMeans R rs points k limit =
      match _shuffleElements rs points with
      | Except.error e => Except.error e
      | Except.ok array =>
        if k < 0 ∨ (array.length : Int) < k then Except.error Fault.sliceBounds
        else
          let s := runFor R (cap limit).toNat (initRun R array k.toNat)
          Except.ok { points := s.points, centroids := s.centroids, iterations := s.iterations } := by
  unfold KMeans
  cases _shuffleElements rs points with
  | error e => rfl
  | ok array =>
    simp only [fl_mainLoop_eq_runFor, cap, initRun, Int.sub_zero, Nat.cast_zero,
      CharP.cast_eq_zero]

/-- The shape of a successful call: the result is the bounded loop run from the initial
state built on the shuffled points. -/
theorem fl_KMeans_ok (R : Rounding) (rs : Nat → Nat) (points : List Circle) (k limit : Int)
    (hk : 1 ≤ k) (hkn : k ≤ points.length) :
    KMeans R rs points k limit =
      Except.ok
        { points := (runFor R (cap limit).toNat
            (initRun R (shuffleLoop rs (points.length - 1) 0 points) k.toNat)).points,
          centroids := (runFor R (cap limit).toNat
            (initRun R (shuffleLoop rs (points.length - 1) 0 points) k.toNat)).centroids,
          iterations := (runFor R (cap limit).toNat
            (initRun R (shuffleLoop rs (points.length - 1) 0 points) k.toNat)).iterations } := by
  have hne : points ≠ [] := by
    intro h
    rw [h] at hkn
    simp at hkn
    omega
  rw [fl_KMeans_eq, shuffleElements_ok rs points hne]
  have : ¬ (k < 0 ∨ ((shuffleLoop rs (points.length - 1) 0 points).length : Int) < k) := by
    rw [shuffleLoop_length]; omega
  simp only [this, if_false]

/-! ## The nearest-centroid scan, rounded -/

/-- The scan either finds no distance below `min` and keeps the label, or returns the
index of the lowest-indexed centroid at minimum computed distance, which is below `min`. -/
theorem fl_scanCentroids_spec (R : Rounding) (p : Circle) (cs : List Circle) (j : Nat)
    (min : F64) (cl : Int) (hmin : min.isNaN = false) :
    ((∀ c ∈ cs, ¬ F64.lt (dist R p c) min = true) ∧ scanCentroids R p cs j min cl = cl) ∨
    (∃ m cm, scanCentroids R p cs j min cl = ((j + m : Nat) : Int) ∧
      F64.lt (dist R p cm) min = true ∧ LowestNearest R p cs m cm) := by
  induction cs generalizing j min cl with
  | nil => left; simp [scanCentroids]
  | cons c cs ih =>
    by_cases hlt : F64.lt (dist R p c) min = true
    · have hd : (dist R p c).isNaN = false := F64_lt_notNaN_left hlt
      have hstep : scanCentroids R p (c :: cs) j min cl
          = scanCentroids R p cs (j + 1) (dist R p c) (j : Int) := by
        simp [scanCentroids, hlt]
      right
      rcases ih (j + 1) (dist R p c) (j : Int) hd with ⟨hnone, hr⟩ | ⟨m, cm, hr, hm, hbest⟩
      · refine ⟨0, c, by rw [hstep, hr, Nat.add_zero], hlt, by simp, ?_, ?_⟩
        · intro i ci hi hnan
          cases i with
          | zero =>
            simp at hi
            subst hi
            exact F64_le_self_of_lt hlt
          | succ i =>
            simp at hi
            exact F64_le_of_not_lt hnan hd (hnone ci (List.getElem?_mem hi))
        · intro i ci hi
          omega
      · obtain ⟨hget, hle, hstrict⟩ := hbest
        refine ⟨m + 1, cm, ?_, F64_lt_trans hm hlt, by simpa using hget, ?_, ?_⟩
        · rw [hstep, hr]
          congr 1
          omega
        · intro i ci hi hnan
          cases i with
          | zero =>
            simp at hi
            subst hi
            exact F64_le_of_lt hm
          | succ i =>
            simp at hi
            exact hle i ci hi hnan
        · intro i ci hlt2 hi hnan
          cases i with
          | zero =>
            simp at hi
            subst hi
            exact hm
          | succ i =>
            simp at hi
            exact hstrict i ci (by omega) hi hnan
    · have hstep : scanCentroids R p (c :: cs) j min cl
          = scanCentroids R p cs (j + 1) min cl := by
        simp [scanCentroids, hlt]
      rcases ih (j + 1) min cl hmin with ⟨hnone, hr⟩ | ⟨m, cm, hr, hm, hbest⟩
      · left
        refine ⟨?_, by rw [hstep, hr]⟩
        intro c2 hc2
        rcases List.mem_cons.mp hc2 with h | h
        · rw [h]; exact hlt
        · exact hnone c2 h
      · right
        obtain ⟨hget, hle, hstrict⟩ := hbest
        have h0 : (dist R p c).isNaN = false → F64.lt (dist R p cm) (dist R p c) = true :=
          fun hnan => F64_lt_of_lt_of_le hm (F64_le_of_not_lt hnan hmin hlt)
        refine ⟨m + 1, cm, ?_, hm, by simpa using hget, ?_, ?_⟩
        · rw [hstep, hr]
          congr 1
          omega
        · intro i ci hi hnan
          cases i with
          | zero =>
            simp at hi
            subst hi
            exact F64_le_of_lt (h0 hnan)
          | succ i =>
            simp at hi
            exact hle i ci hi hnan
        · intro i ci hlt2 hi hnan
          cases i with
          | zero =>
            simp at hi
            subst hi
            exact h0 hnan
          | succ i =>
            simp at hi
            exact hstrict i ci (by omega) hi hnan

theorem fl_MaxFloat64_notNaN : MaxFloat64.isNaN = false := rfl

/-- With some centroid at a computed distance below `MaxFloat64`, the point is labelled
with the lowest-indexed nearest centroid. -/
theorem fl_assignPoint_lowestNearest (R : Rounding) (p : Circle) (cs : List Circle)
    (hex : ∃ c ∈ cs, F64.lt (dist R p c) MaxFloat64 = true) :
    ∃ (m : Nat) (cm : Circle), (assignPoint R cs p).cluster = (m : Int) ∧
      F64.lt (dist R p cm) MaxFloat64 = true ∧ LowestNearest R p cs m cm := by
  rcases fl_scanCentroids_spec R p cs 0 MaxFloat64 p.cluster fl_MaxFloat64_notNaN with
    ⟨hnone, _⟩ | ⟨m, cm, hr, hm, hbest⟩
  · obtain ⟨c, hc, hlt⟩ := hex
    exact absurd hlt (hnone c hc)
  · exact ⟨m, cm, by simpa [assignPoint] using hr, hm, hbest⟩

/-- With no centroid at a computed distance below `MaxFloat64`, the label is left as it
was. -/
theorem fl_assignPoint_unchanged (R : Rounding) (p : Circle) (cs : List Circle)
    (hnone : ∀ c ∈ cs, ¬ F64.lt (dist R p c) MaxFloat64 = true) :
    assignPoint R cs p = p := by
  rcases fl_scanCentroids_spec R p cs 0 MaxFloat64 p.cluster fl_MaxFloat64_notNaN with
    ⟨_, hr⟩ | ⟨m, cm, _, hm, hbest⟩
  · simp [assignPoint, hr]
  · exact absurd hm (hnone cm (List.getElem?_mem hbest.1))

/-! ## The centroid update, rounded -/

/-- After its update a centroid holds the new coordinates, assigned or found equal. -/
theorem fl_updateCentroid_eq (R : Rounding) (points : List Circle) (i : Nat) (c : Circle) :
    updateCentroid R points i c
      = ({ x := R.div (clusterSums R points i).1 (F64.ofInt (clusterSums R points i).2.2),
           y := R.div (clusterSums R points i).2.1 (F64.ofInt (clusterSums R points i).2.2),
           cluster := c.cluster },
         F64.ne (R.div (clusterSums R points i).1 (F64.ofInt (clusterSums R points i).2.2)) c.x ||
         F64.ne (R.div (clusterSums R points i).2.1 (F64.ofInt (clusterSums R points i).2.2))
           c.y) := by
  unfold updateCentroid
  cases hx : F64.ne (R.div (clusterSums R points i).1 (F64.ofInt (clusterSums R points i).2.2))
    c.x <;>
  cases hy : F64.ne (R.div (clusterSums R points i).2.1
    (F64.ofInt (clusterSums R points i).2.2)) c.y <;>
  simp [hx, hy]
  · rw [F64.eq_of_ne_false hx, F64.eq_of_ne_false hy]
  · rw [F64.eq_of_ne_false hx]
  · rw [F64.eq_of_ne_false hy]

theorem fl_updateCentroid_unchanged (R : Rounding) (points : List Circle) (i : Nat) (c : Circle)
    (h : (updateCentroid R points i c).2 = false) : (updateCentroid R points i c).1 = c := by
  rw [fl_updateCentroid_eq] at h ⊢
  simp only [Bool.or_eq_false_iff] at h
  rw [F64.eq_of_ne_false h.1, F64.eq_of_ne_false h.2]

theorem fl_updateCentroids_length (R : Rounding) (points cs : List Circle) (i : Nat) (ch : Bool) :
    (updateCentroids R points cs i ch).1.length = cs.length := by
  induction cs generalizing i ch with
  | nil => rfl
  | cons c cs ih => simp [updateCentroids, ih]

theorem fl_updateCentroids_getElem? (R : Rounding) (points cs : List Circle) (i : Nat)
    (ch : Bool) (j : Nat) :
    (updateCentroids R points cs i ch).1[j]?
      = (cs[j]?).map (fun c => (updateCentroid R points (i + j) c).1) := by
  induction cs generalizing i ch j with
  | nil => simp [updateCentroids]
  | cons c cs ih =>
    cases j with
    | zero => simp [updateCentroids]
    | succ j =>
      simp only [updateCentroids, List.getElem?_cons_succ, ih]
      have : i + 1 + j = i + (j + 1) := by omega
      rw [this]

theorem fl_updateCentroids_change_of_change (R : Rounding) (points cs : List Circle) (i : Nat) :
    (updateCentroids R points cs i true).2 = true := by
  induction cs generalizing i with
  | nil => rfl
  | cons c cs ih => simp [updateCentroids, ih]

/-- `change` stays false only if no centroid was updated; then the centroids are as before. -/
theorem fl_updateCentroids_unchanged (R : Rounding) (points cs : List Circle) (i : Nat)
    (h : (updateCentroids R points cs i false).2 = false) :
    (updateCentroids R points cs i false).1 = cs := by
  induction cs generalizing i with
  | nil => rfl
  | cons c cs ih =>
    simp only [updateCentroids, Bool.false_or] at h ⊢
    cases hc : (updateCentroid R points i c).2 with
    | true =>
      rw [hc, fl_updateCentroids_change_of_change] at h
      exact absurd h (by simp)
    | false =>
      rw [hc] at h
      rw [ih (i + 1) h, fl_updateCentroid_unchanged R points i c hc]

/-- `change` is set as soon as one centroid is updated. -/
theorem fl_updateCentroids_change_of_mem (R : Rounding) (points cs : List Circle) (i : Nat)
    (ch : Bool) (j : Nat) (c : Circle) (hj : cs[j]? = some c)
    (hc : (updateCentroid R points (i + j) c).2 = true) :
    (updateCentroids R points cs i ch).2 = true := by
  induction cs generalizing i ch j with
  | nil => simp at hj
  | cons c0 cs ih =>
    cases j with
    | zero =>
      simp at hj
      subst hj
      simp only [Nat.add_zero] at hc
      simp only [updateCentroids, hc, Bool.or_true]
      exact fl_updateCentroids_change_of_change R points cs (i + 1)
    | succ j =>
      simp at hj
      simp only [updateCentroids]
      apply ih (i + 1) _ j hj
      have : i + 1 + j = i + (j + 1) := by omega
      rw [this]
      exact hc

theorem fl_updateCentroids_noChange (R : Rounding) (points cs : List Circle) (i : Nat)
    (h : ∀ (j : Nat) (c : Circle), cs[j]? = some c →
      (updateCentroid R points (i + j) c).2 = false) :
    (updateCentroids R points cs i false).2 = false := by
  induction cs generalizing i with
  | nil => rfl
  | cons c cs ih =>
    have h0 := h 0 c (by simp)
    simp only [Nat.add_zero] at h0
    simp only [updateCentroids, h0, Bool.or_false]
    apply ih
    intro j c2 hc2
    have := h (j + 1) c2 (by simpa using hc2)
    have e : i + 1 + j = i + (j + 1) := by omega
    rw [e]
    exact this

/-! ## Labels, rounded -/

theorem fl_scanCentroids_congr (R : Rounding) (p q : Circle) (hx : p.x = q.x) (hy : p.y = q.y)
    (cs : List Circle) (j : Nat) (min : F64) (cl : Int) :
    scanCentroids R p cs j min cl = scanCentroids R q cs j min cl := by
  induction cs generalizing j min cl with
  | nil => rfl
  | cons c cs ih =>
    have hd : dist R p c = dist R q c := by simp [dist, hx, hy]
    simp only [scanCentroids, hd, ih]

theorem fl_scanCentroids_indep (R : Rounding) (p : Circle) (cs : List Circle) (j : Nat)
    (min : F64) (cl cl2 : Int) (hex : ∃ c ∈ cs, F64.lt (dist R p c) min = true) :
    scanCentroids R p cs j min cl = scanCentroids R p cs j min cl2 := by
  induction cs generalizing j min cl cl2 with
  | nil => simp at hex
  | cons c cs ih =>
    by_cases hlt : F64.lt (dist R p c) min = true
    · simp [scanCentroids, hlt]
    · simp only [scanCentroids, hlt, if_false]
      apply ih
      obtain ⟨c2, hc2, h2⟩ := hex
      rcases List.mem_cons.mp hc2 with h | h
      · rw [h] at h2
        exact absurd h2 hlt
      · exact ⟨c2, h, h2⟩

/-- Labelling a labelled point again changes nothing. -/
theorem fl_assignPoint_idem (R : Rounding) (cs : List Circle) (p : Circle) :
    assignPoint R cs (assignPoint R cs p) = assignPoint R cs p := by
  have h1 : scanCentroids R (assignPoint R cs p) cs 0 MaxFloat64 (assignPoint R cs p).cluster
      = scanCentroids R p cs 0 MaxFloat64 (assignPoint R cs p).cluster :=
    fl_scanCentroids_congr R (assignPoint R cs p) p rfl rfl cs 0 MaxFloat64 _
  have h2 : scanCentroids R p cs 0 MaxFloat64 (assignPoint R cs p).cluster
      = (assignPoint R cs p).cluster := by
    by_cases hex : ∃ c ∈ cs, F64.lt (dist R p c) MaxFloat64 = true
    · exact fl_scanCentroids_indep R p cs 0 MaxFloat64 _ _ hex
    · have hnone : ∀ c ∈ cs, ¬ F64.lt (dist R p c) MaxFloat64 = true := by
        intro c hc hlt
        exact hex ⟨c, hc, hlt⟩
      rcases fl_scanCentroids_spec R p cs 0 MaxFloat64 (assignPoint R cs p).cluster
        fl_MaxFloat64_notNaN with ⟨_, hr⟩ | ⟨m, cm, _, hm, hbest⟩
      · exact hr
      · exact absurd hm (hnone cm (List.getElem?_mem hbest.1))
  show ({ assignPoint R cs p with
      cluster := scanCentroids R (assignPoint R cs p) cs 0 MaxFloat64
        (assignPoint R cs p).cluster } : Circle) = assignPoint R cs p
  rw [h1, h2]

theorem fl_CalculateClusters_idem (R : Rounding) (points cs : List Circle) :
    CalculateClusters R (CalculateClusters R points cs) cs = CalculateClusters R points cs := by
  simp [CalculateClusters, fl_assignPoint_idem]

/-- A scan keeps the label or sets it to a centroid index. -/
theorem fl_assignPoint_label (R : Rounding) (cs : List Circle) (p : Circle) :
    (assignPoint R cs p).cluster = p.cluster ∨
      ∃ m : Nat, m < cs.length ∧ (assignPoint R cs p).cluster = (m : Int) := by
  rcases fl_scanCentroids_spec R p cs 0 MaxFloat64 p.cluster fl_MaxFloat64_notNaN with
    ⟨_, hr⟩ | ⟨m, cm, hr, _, hbest⟩
  · left; exact hr
  · right
    refine ⟨m, ?_, by simpa [assignPoint] using hr⟩
    by_contra hlen
    have := hbest.1
    rw [List.getElem?_eq_none (by omega)] at this
    simp at this

theorem fl_assignPoint_valid (R : Rounding) (k : Nat) (cs : List Circle) (hk : cs.length = k)
    (p : Circle) (hp : ValidLabel k p) : ValidLabel k (assignPoint R cs p) := by
  rcases fl_assignPoint_label R cs p with h | ⟨m, hm, h⟩
  · unfold ValidLabel
    rw [h]
    exact hp
  · unfold ValidLabel
    rw [h]
    omega

theorem fl_iterate_centroids_length (R : Rounding) (s : Run) :
    (iterate R s).centroids.length = s.centroids.length := by
  simp [iterate, fl_updateCentroids_length]

/-- Labels that are valid and current stay so through an iteration. -/
theorem fl_LabelInv_iterate (R : Rounding) (k : Nat) (s : Run) (h : LabelInv R k s) :
    LabelInv R k (iterate R s) := by
  obtain ⟨hv, hlen, hfix⟩ := h
  have hlen2 : (updateCentroids R s.points s.centroids 0 false).1.length = k := by
    rw [fl_updateCentroids_length, hlen]
  cases hch : (updateCentroids R s.points s.centroids 0 false).2 with
  | true =>
    refine ⟨?_, ?_, ?_⟩
    · intro p hp
      simp only [iterate, hch, if_true, CalculateClusters, List.mem_map] at hp
      obtain ⟨q, hq, rfl⟩ := hp
      exact fl_assignPoint_valid R k _ hlen2 q (hv q hq)
    · simpa [iterate] using hlen2
    · simp only [iterate, hch, if_true]
      exact fl_CalculateClusters_idem R _ _
  | false =>
    have hsame := fl_updateCentroids_unchanged R s.points s.centroids 0 hch
    refine ⟨?_, ?_, ?_⟩
    · intro p hp
      simp only [iterate, hch] at hp
      exact hv p (by simpa using hp)
    · simpa [iterate] using hlen2
    · simp only [iterate, hch, hsame]
      simpa using hfix

theorem fl_LabelInv_runFor (R : Rounding) (k n : Nat) (s : Run) (h : LabelInv R k s) :
    LabelInv R k (runFor R n s) := by
  induction n generalizing s with
  | zero => exact h
  | succ n ih =>
    unfold runFor
    split
    · exact ih _ (fl_LabelInv_iterate R k s h)
    · exact h

theorem fl_LabelInv_iterates (R : Rounding) (k m : Nat) (s : Run) (h : LabelInv R k s) :
    LabelInv R k (Nat.iterate (iterate R) m s) := by
  induction m generalizing s with
  | zero => exact h
  | succ m ih => exact ih _ (fl_LabelInv_iterate R k s h)

/-- The bounded loop performs some number `m` of iterations of the loop body. -/
theorem fl_runFor_eq_iterates (R : Rounding) (n : Nat) (s : Run) :
    ∃ m, m ≤ n ∧ runFor R n s = Nat.iterate (iterate R) m s ∧
      (runFor R n s).iterations = s.iterations + m := by
  induction n generalizing s with
  | zero => exact ⟨0, Nat.le_refl 0, rfl, rfl⟩
  | succ n ih =>
    unfold runFor
    split
    · obtain ⟨m, hm, h1, h2⟩ := ih (iterate R s)
      refine ⟨m + 1, by omega, h1, ?_⟩
      rw [h2, fl_iterate_iterations]
      omega
    · exact ⟨0, Nat.zero_le _, rfl, rfl⟩

theorem fl_initRun_centroids_length (R : Rounding) (array : List Circle) (k : Nat)
    (hk : k ≤ array.length) : (initRun R array k).centroids.length = k := by
  simp only [initRun, initCentroids_length, List.length_take]
  omega

/-- Labels that are valid at entry are valid and current before the main loop. -/
theorem fl_initRun_LabelInv (R : Rounding) (array : List Circle) (k : Nat)
    (hk : k ≤ array.length) (hv : ∀ p ∈ array, ValidLabel k p) :
    LabelInv R k (initRun R array k) := by
  have hlen := fl_initRun_centroids_length R array k hk
  refine ⟨?_, hlen, fl_CalculateClusters_idem R _ _⟩
  intro p hp
  simp only [initRun, CalculateClusters, List.mem_map] at hp
  obtain ⟨q, hq, rfl⟩ := hp
  exact fl_assignPoint_valid R k _ hlen q (hv q hq)

/-- For points that enter with label 0, the labels are valid and current in the state the
main loop ends in. -/
theorem fl_final_LabelInv (R : Rounding) (rs : Nat → Nat) (points : List Circle) (k : Int)
    (n : Nat) (hk : 1 ≤ k) (hkn : k ≤ points.length) (hentry : ∀ p ∈ points, p.cluster = 0) :
    LabelInv R k.toNat
      (runFor R n (initRun R (shuffleLoop rs (points.length - 1) 0 points) k.toNat)) := by
  have hlen : (shuffleLoop rs (points.length - 1) 0 points).length = points.length :=
    shuffleLoop_length _ _ _ _
  apply fl_LabelInv_runFor
  apply fl_initRun_LabelInv R _ _ (by omega)
  intro p hp
  have h0 := hentry p ((shuffleLoop_perm rs _ 0 points).mem_iff.mp hp)
  unfold ValidLabel
  omega

/-! ## C5 -/

/-- C5, as stated, fails.  (1) Two equal points with k = 2 leave cluster 1 empty and the
first iteration makes its centroid NaN; `CalculateClusters` then keeps the points in
cluster 0, yet `dist(p, c_0) <= dist(p, c_1)` is false, the distance to `c_1` being NaN.
(2) For the centroids (1, 2^-30) and (1, 0) the point (0,0) keeps label 0 although
centroid 1 is strictly nearer: both computed distances are 1, since `1 + 2^-60` is rounded
to 1, and the strict `<` keeps the first index. -/
theorem CalculateClusters_nan_counterexample :
    ((iterate ieee (initRun ieee [pt 0 0, pt 0 0] 2)).centroids
        = [ct 0 0 0, ⟨F64.nan, F64.nan, 1⟩] ∧
      CalculateClusters ieee [pt 0 0, pt 0 0] [ct 0 0 0, ⟨F64.nan, F64.nan, 1⟩]
        = [pt 0 0, pt 0 0] ∧
      F64.le (dist ieee (pt 0 0) (ct 0 0 0)) (dist ieee (pt 0 0) ⟨F64.nan, F64.nan, 1⟩)
        = false) ∧
    (CalculateClusters ieee [pt 0 0] [ct 1 (1 / 2 ^ 30) 0, ct 1 0 1] = [pt 0 0] ∧
      dist ieee (pt 0 0) (ct 1 (1 / 2 ^ 30) 0) = F64.fin 1 ∧
      dist ieee (pt 0 0) (ct 1 0 1) = F64.fin 1 ∧
      sqDist (pt 0 0) (ct 1 0 1) < sqDist (pt 0 0) (ct 1 (1 / 2 ^ 30) 0)) := by
  decide!

/-- C5, amended: for every point `points[n]` and every centroid list, (1) if some centroid
lies at a computed distance below `MaxFloat64` from the point, `CalculateClusters` sets
the point's cluster to an index j such that no centroid is at a smaller computed distance
and, among the centroids whose computed distance is not NaN, `c_j` is the lowest-indexed
one at minimum computed distance: `dist(p, c_j) <= dist(p, c_i)` for all such i and
`dist(p, c_j) < dist(p, c_i)` for all such i < j; (2) if no centroid lies at a computed
distance below `MaxFloat64`, the cluster keeps its earlier value.  Coordinates are left as
they were.  The distance is the `float64` that `_euclidianDistance` computes. -/
theorem CalculateClusters_lowest_nearest (R : Rounding) (points cs : List Circle) (n : Nat)
    (p : Circle) (hp : points[n]? = some p) :
    ((∃ c ∈ cs, F64.lt (dist R p c) MaxFloat64 = true) →
      ∃ (j : Nat) (cj : Circle),
        (CalculateClusters R points cs)[n]? = some { p with cluster := (j : Int) } ∧
        cs[j]? = some cj ∧ F64.lt (dist R p cj) MaxFloat64 = true ∧
        (∀ (i : Nat) (ci : Circle), cs[i]? = some ci →
          F64.lt (dist R p ci) (dist R p cj) = false) ∧
        (∀ (i : Nat) (ci : Circle), cs[i]? = some ci → (dist R p ci).isNaN = false →
          F64.le (dist R p cj) (dist R p ci) = true) ∧
        (∀ (i : Nat) (ci : Circle), i < j → cs[i]? = some ci → (dist R p ci).isNaN = false →
          F64.lt (dist R p cj) (dist R p ci) = true)) ∧
    ((∀ c ∈ cs, F64.lt (dist R p c) MaxFloat64 = false) →
      (CalculateClusters R points cs)[n]? = some p) := by
  constructor
  · intro hex
    obtain ⟨m, cm, hcl, hlt, hget, hle, hstrict⟩ := fl_assignPoint_lowestNearest R p cs hex
    refine ⟨m, cm, ?_, hget, hlt, ?_, hle, hstrict⟩
    · simp only [CalculateClusters, List.getElem?_map, hp, Option.map_some']
      rw [← hcl]
      rfl
    · intro i ci hi
      cases hnan : (dist R p ci).isNaN with
      | true => exact F64_lt_false_of_nan hnan
      | false => exact F64_lt_false_of_le (hle i ci hi hnan)
  · intro hnone
    have h := fl_assignPoint_unchanged R p cs (fun c hc => by simp [hnone c hc])
    simp only [CalculateClusters, List.getElem?_map, hp, Option.map_some', h]

/-- C5, amended, at a concrete input: the point (10,0) is equally far from both centroids
and gets the lower index. -/
theorem CalculateClusters_lowest_nearest_witness :
    ∃ (j : Nat) (cj : Circle),
      (CalculateClusters ieee [pt 0 0, pt 10 0] [ct 0 0 0, ct 10 10 1])[1]?
        = some { pt 10 0 with cluster := (j : Int) } ∧
      [ct 0 0 0, ct 10 10 1][j]? = some cj ∧
      F64.lt (dist ieee (pt 10 0) cj) MaxFloat64 = true ∧
      (∀ (i : Nat) (ci : Circle), [ct 0 0 0, ct 10 10 1][i]? = some ci →
        F64.lt (dist ieee (pt 10 0) ci) (dist ieee (pt 10 0) cj) = false) ∧
      (∀ (i : Nat) (ci : Circle), [ct 0 0 0, ct 10 10 1][i]? = some ci →
        (dist ieee (pt 10 0) ci).isNaN = false →
        F64.le (dist ieee (pt 10 0) cj) (dist ieee (pt 10 0) ci) = true) ∧
      (∀ (i : Nat) (ci : Circle), i < j → [ct 0 0 0, ct 10 10 1][i]? = some ci →
        (dist ieee (pt 10 0) ci).isNaN = false →
        F64.lt (dist ieee (pt 10 0) cj) (dist ieee (pt 10 0) ci) = true) :=
  (CalculateClusters_lowest_nearest ieee [pt 0 0, pt 10 0] [ct 0 0 0, ct 10 10 1] 1 (pt 10 0)
    rfl).1 ⟨ct 0 0 0, by simp, by decide!⟩

/-! ## C2 -/

/-- In a state whose labels are current, a point with a centroid within reach is labelled
with the lowest-indexed nearest centroid. -/
theorem fl_inv_lowestNearest (R : Rounding) (k : Nat) (s : Run) (hL : LabelInv R k s)
    (q : Circle) (hq : q ∈ s.points)
    (hex : ∃ c ∈ s.centroids, F64.lt (dist R q c) MaxFloat64 = true) :
    ∃ (j : Nat) (cj : Circle), q.cluster = (j : Int) ∧
      F64.lt (dist R q cj) MaxFloat64 = true ∧ LowestNearest R q s.centroids j cj := by
  have hself : assignPoint R s.centroids q = q := map_fixed _ _ hL.2.2 q hq
  have h := fl_assignPoint_lowestNearest R q s.centroids hex
  rw [hself] at h
  exact h

/-- C2, as stated, fails.  (1) For the points (2, 2^-29), (1, 2^-30), (1, 0), (0, 0) with
k = 2 and all draws 0 the run stops as converged after 1 iteration with the centroids
(1, 2^-30) and (1, 0) and the point (0,0) labelled 0, although centroid 1 is strictly
nearer to it: the computed distances are both 1.  (2) Two equal points with k = 2 leave
cluster 1 empty; its centroid becomes NaN, and for the points (labelled 0)
`dist(p, c_0) <= dist(p, c_1)` is false. -/
theorem KMeans_nearest_counterexample :
    (KMeans ieee (fun _ => 0) [pt 2 (1 / 2 ^ 29), pt 1 (1 / 2 ^ 30), pt 1 0, pt 0 0] 2 0
        = Except.ok ⟨[ct 1 (1 / 2 ^ 30) 0, ct 1 0 1, ct 0 0 0, ct 2 (1 / 2 ^ 29) 0],
                     [ct 1 (1 / 2 ^ 30) 0, ct 1 0 1], 1⟩ ∧
      sqDist (ct 0 0 0) (ct 1 0 1) < sqDist (ct 0 0 0) (ct 1 (1 / 2 ^ 30) 0) ∧
      dist ieee (ct 0 0 0) (ct 1 0 1) = F64.fin 1 ∧
      dist ieee (ct 0 0 0) (ct 1 (1 / 2 ^ 30) 0) = F64.fin 1) ∧
    (KMeans ieee (fun _ => 0) [pt 0 0, pt 0 0] 2 1
        = Except.ok ⟨[pt 0 0, pt 0 0], [ct 0 0 0, ⟨F64.nan, F64.nan, 1⟩], 1⟩ ∧
      F64.le (dist ieee (pt 0 0) (ct 0 0 0)) (dist ieee (pt 0 0) ⟨F64.nan, F64.nan, 1⟩)
        = false) := by
  rw [fl_KMeans_eq, fl_KMeans_eq]
  decide!

/-- C2, amended: for every input with 1 <= k <= n whose points enter with label 0 (as the
generators build them) and every limit, `KMeans` returns; every final label is a centroid
index; and each point that has some final centroid at a computed distance below
`MaxFloat64` is labelled with a final centroid `c_j` such that no centroid is at a smaller
computed distance, `dist(p, c_j) <= dist(p, c_i)` for every centroid i whose computed
distance is not NaN (a centroid of an empty cluster is NaN), and `dist(p, c_j) <
dist(p, c_i)` for every such i < j.  The distance is the `float64` that
`_euclidianDistance` computes, not the exact Euclidean distance. -/
theorem KMeans_labels_nearest (R : Rounding) (rs : Nat → Nat) (points : List Circle)
    (k limit : Int) (hk : 1 ≤ k) (hkn : k ≤ points.length)
    (hentry : ∀ p ∈ points, p.cluster = 0) :
    ∃ r, KMeans R rs points k limit = Except.ok r ∧
      ∀ q ∈ r.points, (0 ≤ q.cluster ∧ q.cluster < k) ∧
        ((∃ c ∈ r.centroids, F64.lt (dist R q c) MaxFloat64 = true) →
          ∃ (j : Nat) (cj : Circle), q.cluster = (j : Int) ∧ r.centroids[j]? = some cj ∧
            ∀ (i : Nat) (ci : Circle), r.centroids[i]? = some ci →
              F64.lt (dist R q ci) (dist R q cj) = false ∧
              ((dist R q ci).isNaN = false → F64.le (dist R q cj) (dist R q ci) = true) ∧
              (i < j → (dist R q ci).isNaN = false →
                F64.lt (dist R q cj) (dist R q ci) = true)) := by
  refine ⟨_, fl_KMeans_ok R rs points k limit hk hkn, ?_⟩
  intro q hq
  have hL := fl_final_LabelInv R rs points k (cap limit).toNat hk hkn hentry
  have hkk : ((k.toNat : Nat) : Int) = k := Int.toNat_of_nonneg (by omega)
  constructor
  · have := hL.1 q hq
    unfold ValidLabel at this
    rw [hkk] at this
    exact this
  · intro hex
    obtain ⟨j, cj, hj, _, hget, hle, hstrict⟩ := fl_inv_lowestNearest R _ _ hL q hq hex
    refine ⟨j, cj, hj, hget, ?_⟩
    intro i ci hi
    refine ⟨?_, hle i ci hi, fun hij => hstrict i ci hij hi⟩
    cases hnan : (dist R q ci).isNaN with
    | true => exact F64_lt_false_of_nan hnan
    | false => exact F64_lt_false_of_le (hle i ci hi hnan)

/-- C2, amended, at a concrete run: three points, k = 2. -/
theorem KMeans_labels_nearest_witness :
    ∃ r, KMeans ieee (fun _ => 0) [pt 0 0, pt 10 0, pt 0 10] 2 0 = Except.ok r ∧
      ∀ q ∈ r.points, (0 ≤ q.cluster ∧ q.cluster < 2) ∧
        ((∃ c ∈ r.centroids, F64.lt (dist ieee q c) MaxFloat64 = true) →
          ∃ (j : Nat) (cj : Circle), q.cluster = (j : Int) ∧ r.centroids[j]? = some cj ∧
            ∀ (i : Nat) (ci : Circle), r.centroids[i]? = some ci →
              F64.lt (dist ieee q ci) (dist ieee q cj) = false ∧
              ((dist ieee q ci).isNaN = false →
                F64.le (dist ieee q cj) (dist ieee q ci) = true) ∧
              (i < j → (dist ieee q ci).isNaN = false →
                F64.lt (dist ieee q cj) (dist ieee q ci) = true)) :=
  KMeans_labels_nearest ieee (fun _ => 0) [pt 0 0, pt 10 0, pt 0 10] 2 0
    (by decide) (by decide)
    (by
      intro p hp
      simp only [List.mem_cons, List.mem_singleton, List.not_mem_nil, or_false] at hp
      rcases hp with rfl | rfl | rfl <;> rfl)

/-! ## C3 -/

/-- C3: for every input with 1 <= k <= n, whose points enter with label 0 as the
generators build them, label validity is an invariant of the run: in the state after the
initial assignment and after any number m of iterations every cluster satisfies
0 <= cluster < k and the labels are those `CalculateClusters` computes against the
current centroids; an iteration that sets `change` relabels the points against the
centroids it has just moved; and the result of `KMeans` is the state after `iterations`
iterations. -/
theorem KMeans_labels_valid (R : Rounding) (rs : Nat → Nat) (points : List Circle)
    (k limit : Int) (hk : 1 ≤ k) (hkn : k ≤ points.length)
    (hentry : ∀ p ∈ points, p.cluster = 0) :
    ∃ array r, _shuffleElements rs points = Except.ok array ∧
      KMeans R rs points k limit = Except.ok r ∧
      (∀ m : Nat,
        (∀ p ∈ (Nat.iterate (iterate R) m (initRun R array k.toNat)).points,
          0 ≤ p.cluster ∧ p.cluster < k) ∧
        CalculateClusters R (Nat.iterate (iterate R) m (initRun R array k.toNat)).points
            (Nat.iterate (iterate R) m (initRun R array k.toNat)).centroids
          = (Nat.iterate (iterate R) m (initRun R array k.toNat)).points ∧
        ((Nat.iterate (iterate R) (m + 1) (initRun R array k.toNat)).change = true →
          (Nat.iterate (iterate R) (m + 1) (initRun R array k.toNat)).points
            = CalculateClusters R (Nat.iterate (iterate R) m (initRun R array k.toNat)).points
                (Nat.iterate (iterate R) (m + 1) (initRun R array k.toNat)).centroids)) ∧
      r.points = (Nat.iterate (iterate R) r.iterations (initRun R array k.toNat)).points ∧
      r.centroids
        = (Nat.iterate (iterate R) r.iterations (initRun R array k.toNat)).centroids ∧
      (∀ p ∈ r.points, 0 ≤ p.cluster ∧ p.cluster < k) := by
  have hkk : ((k.toNat : Nat) : Int) = k := Int.toNat_of_nonneg (by omega)
  have hlen : (shuffleLoop rs (points.length - 1) 0 points).length = points.length :=
    shuffleLoop_length _ _ _ _
  have hne : points ≠ [] := by
    intro h
    rw [h] at hkn
    simp at hkn
    omega
  have h0 : LabelInv R k.toNat
      (initRun R (shuffleLoop rs (points.length - 1) 0 points) k.toNat) := by
    have := fl_final_LabelInv R rs points k 0 hk hkn hentry
    simpa [runFor] using this
  have hall : ∀ m : Nat, LabelInv R k.toNat
      (Nat.iterate (iterate R) m
        (initRun R (shuffleLoop rs (points.length - 1) 0 points) k.toNat)) :=
    fun m => fl_LabelInv_iterates R _ m _ h0
  obtain ⟨m, _, hrun, hit⟩ := fl_runFor_eq_iterates R (cap limit).toNat
    (initRun R (shuffleLoop rs (points.length - 1) 0 points) k.toNat)
  have hm : (runFor R (cap limit).toNat
      (initRun R (shuffleLoop rs (points.length - 1) 0 points) k.toNat)).iterations = m := by
    rw [hit]
    simp [initRun]
  refine ⟨_, _, shuffleElements_ok rs points hne, fl_KMeans_ok R rs points k limit hk hkn,
    ?_, ?_, ?_, ?_⟩
  · intro m2
    refine ⟨?_, (hall m2).2.2, ?_⟩
    · intro p hp
      have := (hall m2).1 p hp
      unfold ValidLabel at this
      rw [hkk] at this
      exact this
    · intro hch
      rw [Function.iterate_succ_apply'] at hch ⊢
      simp only [iterate] at hch ⊢
      rw [if_pos hch]
  · simp only [hm]
    rw [hrun]
  · simp only [hm]
    rw [hrun]
  · intro p hp
    have := (fl_LabelInv_runFor R k.toNat (cap limit).toNat _ h0).1 p hp
    unfold ValidLabel at this
    rw [hkk] at this
    exact this

/-- C3 at a concrete run: two generated points (label 0), k = 2. -/
theorem KMeans_labels_valid_witness :
    ∃ array r, _shuffleElements (fun _ => 0) [pt 0 0, pt 3 4] = Except.ok array ∧
      KMeans ieee (fun _ => 0) [pt 0 0, pt 3 4] 2 0 = Except.ok r ∧
      (∀ m : Nat,
        (∀ p ∈ (Nat.iterate (iterate ieee) m (initRun ieee array (2 : Int).toNat)).points,
          0 ≤ p.cluster ∧ p.cluster < 2) ∧
        CalculateClusters ieee
            (Nat.iterate (iterate ieee) m (initRun ieee array (2 : Int).toNat)).points
            (Nat.iterate (iterate ieee) m (initRun ieee array (2 : Int).toNat)).centroids
          = (Nat.iterate (iterate ieee) m (initRun ieee array (2 : Int).toNat)).points ∧
        ((Nat.iterate (iterate ieee) (m + 1) (initRun ieee array (2 : Int).toNat)).change
            = true →
          (Nat.iterate (iterate ieee) (m + 1) (initRun ieee array (2 : Int).toNat)).points
            = CalculateClusters ieee
                (Nat.iterate (iterate ieee) m (initRun ieee array (2 : Int).toNat)).points
                (Nat.iterate (iterate ieee) (m + 1)
                  (initRun ieee array (2 : Int).toNat)).centroids)) ∧
      r.points
        = (Nat.iterate (iterate ieee) r.iterations (initRun ieee array (2 : Int).toNat)).points ∧
      r.centroids
        = (Nat.iterate (iterate ieee) r.iterations
            (initRun ieee array (2 : Int).toNat)).centroids ∧
      (∀ p ∈ r.points, 0 ≤ p.cluster ∧ p.cluster < 2) :=
  KMeans_labels_valid ieee (fun _ => 0) [pt 0 0, pt 3 4] 2 0 (by decide) (by decide)
    (by
      intro p hp
      simp only [List.mem_cons, List.mem_singleton, List.not_mem_nil, or_false] at hp
      rcases hp with rfl | rfl <;> rfl)

/-! ## The drawing, rounded -/

/-- With every label an index of `colors`, a drawing loop draws one circle per entry, in
order, coloured by the entry's label. -/
theorem fl_drawCircles_ok (R : Rounding) (colors : List String) (scale : F64) (r : Int)
    (style : String) (circles : List Circle)
    (h : ∀ c ∈ circles, 0 ≤ c.cluster ∧ c.cluster < (colors.length : Int)) :
    drawCircles R colors scale r style circles
      = Except.ok (circles.map (fun c =>
          { x := F64.toInt (R.mul c.x scale), y := F64.toInt (R.mul c.y scale), r := r,
            style := style ++ colors.getD c.cluster.toNat "" })) := by
  induction circles with
  | nil => rfl
  | cons c rest ih =>
    obtain ⟨h0, h1⟩ := h c (List.mem_cons_self c rest)
    simp only [drawCircles, colorAt_ok colors c.cluster h0 h1,
      ih (fun q hq => h q (List.mem_cons_of_mem c hq)), List.map_cons]

/-- With `k >= 0` and every label of the points and centroids below `k`, `OutputToSVG`
returns the drawing: a small circle per point, then a large circle per centroid. -/
theorem fl_OutputToSVG_ok (R : Rounding) (rs : Nat → Nat) (t : Nat)
    (points centroids : List Circle) (k : Int)
    (hk : 0 ≤ k) (hp : ∀ p ∈ points, 0 ≤ p.cluster ∧ p.cluster < k)
    (hc : ∀ c ∈ centroids, 0 ≤ c.cluster ∧ c.cluster < k) :
    ∃ colors, _randomColors rs t k = Except.ok colors ∧ (colors.length : Int) = k ∧
      OutputToSVG R rs t points centroids k
        = Except.ok
            { width := 700, height := 700,
              circles :=
                points.map (fun p =>
                  { x := F64.toInt (R.mul p.x (F64.fin 10)),
                    y := F64.toInt (R.mul p.y (F64.fin 10)),
                    r := 3, style := "fill:" ++ colors.getD p.cluster.toNat "" }) ++
                centroids.map (fun c =>
                  { x := F64.toInt (R.mul c.x (F64.fin 10)),
                    y := F64.toInt (R.mul c.y (F64.fin 10)),
                    r := 6, style := "stroke:black;fill:" ++ colors.getD c.cluster.toNat "" }) } := by
  obtain ⟨colors, hcol, hlen⟩ := randomColors_ok rs t k hk
  refine ⟨colors, hcol, hlen, ?_⟩
  have h1 := fl_drawCircles_ok R colors (F64.fin 10) 3 "fill:" points (by rw [hlen]; exact hp)
  have h2 := fl_drawCircles_ok R colors (F64.fin 10) 6 "stroke:black;fill:" centroids
    (by rw [hlen]; exact hc)
  have hw : WIDTH * F64.toInt (F64.fin 10) = 700 := by decide!
  have hh : HEIGHT * F64.toInt (F64.fin 10) = 700 := by decide!
  simp only [OutputToSVG, hcol, h1, h2, hw, hh]

/-! ## Cluster ids of the centroids -/

theorem fl_updateCentroid_cluster (R : Rounding) (points : List Circle) (i : Nat) (c : Circle) :
    (updateCentroid R points i c).1.cluster = c.cluster := by
  rw [fl_updateCentroid_eq]

theorem fl_iterate_centroid_ids (R : Rounding) (s : Run)
    (h : ∀ (i : Nat) (c : Circle), s.centroids[i]? = some c → c.cluster = (i : Int)) :
    ∀ (i : Nat) (c : Circle), (iterate R s).centroids[i]? = some c → c.cluster = (i : Int) := by
  intro i c hc
  have hcs : (iterate R s).centroids = (updateCentroids R s.points s.centroids 0 false).1 := rfl
  rw [hcs, fl_updateCentroids_getElem?] at hc
  cases hci : s.centroids[i]? with
  | none => simp [hci] at hc
  | some c0 =>
    simp only [hci, Option.map_some', Option.some.injEq] at hc
    rw [← hc, fl_updateCentroid_cluster]
    exact h i c0 hci

theorem fl_runFor_centroid_ids (R : Rounding) (n : Nat) (s : Run)
    (h : ∀ (i : Nat) (c : Circle), s.centroids[i]? = some c → c.cluster = (i : Int)) :
    ∀ (i : Nat) (c : Circle), (runFor R n s).centroids[i]? = some c → c.cluster = (i : Int) := by
  induction n generalizing s with
  | zero => exact h
  | succ n ih =>
    unfold runFor
    split
    · exact ih _ (fl_iterate_centroid_ids R s h)
    · exact h

theorem fl_initRun_centroid_ids (R : Rounding) (array : List Circle) (k : Nat) :
    ∀ (i : Nat) (c : Circle), (initRun R array k).centroids[i]? = some c →
      c.cluster = (i : Int) := by
  intro i c hc
  simp only [initRun, initCentroids_getElem?] at hc
  cases ha : (List.take k array)[i]? with
  | none => simp [ha] at hc
  | some a =>
    simp only [ha, Option.map_some', Option.some.injEq] at hc
    rw [← hc]
    simp

theorem fl_runFor_centroids_length (R : Rounding) (n : Nat) (s : Run) :
    (runFor R n s).centroids.length = s.centroids.length := by
  induction n generalizing s with
  | zero => rfl
  | succ n ih =>
    unfold runFor
    split
    · rw [ih, fl_iterate_centroids_length]
    · rfl

/-- The labels of the final centroids are their indices, below `k`. -/
theorem fl_final_centroid_labels (R : Rounding) (array : List Circle) (k n : Nat)
    (hk : k ≤ array.length) :
    ∀ c ∈ (runFor R n (initRun R array k)).centroids, 0 ≤ c.cluster ∧ c.cluster < (k : Int) := by
  intro c hc
  obtain ⟨i, hi⟩ := List.getElem?_of_mem hc
  have hid := fl_runFor_centroid_ids R n _ (fl_initRun_centroid_ids R array k) i c hi
  have hlen : (runFor R n (initRun R array k)).centroids.length = k := by
    rw [fl_runFor_centroids_length, fl_initRun_centroids_length R array k hk]
  have hik : i < k := by
    rw [← hlen]
    exact (List.getElem?_eq_some.mp hi).1
  rw [hid]
  omega

theorem fl_KMeansOutput_eq (R : Rounding) (rs : Nat → Nat) (points : List Circle)
    (k limit : Int) (r : Result) (svg : Svg) (h1 : KMeans R rs points k limit = Except.ok r)
    (h2 : OutputToSVG R rs (points.length - 1) r.points r.centroids k = Except.ok svg) :
    KMeansOutput R rs points k limit = Except.ok { iterations := r.iterations, svg := svg } := by
  simp only [KMeansOutput, h1, h2]

/-! ## C11 -/

/-- C11: for every input with 1 <= k <= n, whose points enter with label 0 as the
generators build them, the whole of `KMeans` runs to completion: the shuffle, the slice of
the first k elements and the colour lookups `colors[points[i].cluster]` and
`colors[centroids[i].cluster]` of `OutputToSVG` raise no fault (every final label is
below k), and the drawing has one circle per point and per centroid. -/
theorem KMeansOutput_no_fault (R : Rounding) (rs : Nat → Nat) (points : List Circle)
    (k limit : Int) (hk : 1 ≤ k) (hkn : k ≤ points.length)
    (hentry : ∀ p ∈ points, p.cluster = 0) :
    ∃ r out, KMeans R rs points k limit = Except.ok r ∧
      KMeansOutput R rs points k limit = Except.ok out ∧ out.iterations = r.iterations ∧
      (∀ p ∈ r.points, 0 ≤ p.cluster ∧ p.cluster < k) ∧
      (∀ c ∈ r.centroids, 0 ≤ c.cluster ∧ c.cluster < k) ∧
      out.svg.circles.length = r.points.length + r.centroids.length := by
  have hok := fl_KMeans_ok R rs points k limit hk hkn
  have hlen : (shuffleLoop rs (points.length - 1) 0 points).length = points.length :=
    shuffleLoop_length _ _ _ _
  have hkk : ((k.toNat : Nat) : Int) = k := Int.toNat_of_nonneg (by omega)
  have hp : ∀ p ∈ (runFor R (cap limit).toNat
      (initRun R (shuffleLoop rs (points.length - 1) 0 points) k.toNat)).points,
      0 ≤ p.cluster ∧ p.cluster < k := by
    intro p hp
    have := (fl_final_LabelInv R rs points k (cap limit).toNat hk hkn hentry).1 p hp
    unfold ValidLabel at this
    rw [hkk] at this
    exact this
  have hc0 := fl_final_centroid_labels R (shuffleLoop rs (points.length - 1) 0 points) k.toNat
    (cap limit).toNat (by omega)
  rw [hkk] at hc0
  obtain ⟨colors, _, _, hsvg⟩ := fl_OutputToSVG_ok R rs (points.length - 1) _ _ k (by omega) hp hc0
  exact ⟨_, _, hok, fl_KMeansOutput_eq R rs points k limit _ _ hok hsvg, rfl, hp, hc0, by simp⟩

/-- C11 at a concrete run: two generated points (label 0), k = 2. -/
theorem KMeansOutput_no_fault_witness :
    ∃ r out, KMeans ieee (fun _ => 0) [pt 0 0, pt 3 4] 2 0 = Except.ok r ∧
      KMeansOutput ieee (fun _ => 0) [pt 0 0, pt 3 4] 2 0 = Except.ok out ∧
      out.iterations = r.iterations ∧
      (∀ p ∈ r.points, 0 ≤ p.cluster ∧ p.cluster < 2) ∧
      (∀ c ∈ r.centroids, 0 ≤ c.cluster ∧ c.cluster < 2) ∧
      out.svg.circles.length = r.points.length + r.centroids.length :=
  KMeansOutput_no_fault ieee (fun _ => 0) [pt 0 0, pt 3 4] 2 0 (by decide) (by decide)
    (by
      intro p hp
      simp only [List.mem_cons, List.mem_singleton, List.not_mem_nil, or_false] at hp
      rcases hp with rfl | rfl <;> rfl)

/-! ## C14 -/

/-- C14, as stated, fails: with k = 9 the colours are pseudo-random, and when the draws
coincide (here all are 0) the points labelled 0 and 1 are both drawn in "#0". -/
theorem OutputToSVG_colour_counterexample :
    (match OutputToSVG ieee (fun _ => 0) 0 [ct 0 0 0, ct 1 1 1]
        [ct 0 0 0, ct 0 0 1, ct 0 0 2, ct 0 0 3, ct 0 0 4, ct 0 0 5, ct 0 0 6, ct 0 0 7,
          ct 0 0 8] 9 with
      | Except.ok svg => (svg.circles.take 2).map (fun c => (c.r, c.style))
      | Except.error _ => []) = [(3, "fill:#0"), (3, "fill:#0")] := by
  decide!

/-- C14, amended: for every clustering result with n points, k centroids and all labels in
[0, k), `OutputToSVG` returns a 700 x 700 drawing of exactly n small circles (radius 3, one
per point, in order) followed by exactly k larger circles (radius 6, one per centroid),
each at `int(x * 10)`, `int(y * 10)` with the product rounded as `float64`, filled with the
entry of `_randomColors(k)` at its cluster index; for k <= 8 different cluster indices have
different colours (for k > 8 the colours are pseudo-random and may coincide). -/
theorem OutputToSVG_spec (R : Rounding) (rs : Nat → Nat) (t : Nat)
    (points centroids : List Circle) (k : Int)
    (hlen : (centroids.length : Int) = k)
    (hp : ∀ p ∈ points, 0 ≤ p.cluster ∧ p.cluster < k)
    (hc : ∀ c ∈ centroids, 0 ≤ c.cluster ∧ c.cluster < k) :
    ∃ colors svg, _randomColors rs t k = Except.ok colors ∧ (colors.length : Int) = k ∧
      OutputToSVG R rs t points centroids k = Except.ok svg ∧
      svg.width = 700 ∧ svg.height = 700 ∧
      svg.circles =
        points.map (fun p =>
          { x := F64.toInt (R.mul p.x (F64.fin 10)), y := F64.toInt (R.mul p.y (F64.fin 10)),
            r := 3, style := "fill:" ++ colors.getD p.cluster.toNat "" }) ++
        centroids.map (fun c =>
          { x := F64.toInt (R.mul c.x (F64.fin 10)), y := F64.toInt (R.mul c.y (F64.fin 10)),
            r := 6, style := "stroke:black;fill:" ++ colors.getD c.cluster.toNat "" }) ∧
      (svg.circles.length : Int) = points.length + k ∧
      (k ≤ 8 → ∀ i j : Nat, (i : Int) < k → (j : Int) < k → colors[i]? = colors[j]? → i = j) := by
  have hk : 0 ≤ k := by omega
  obtain ⟨colors, hcol, hcl, hsvg⟩ := fl_OutputToSVG_ok R rs t points centroids k hk hp hc
  refine ⟨colors, _, hcol, hcl, hsvg, rfl, rfl, rfl, ?_, ?_⟩
  · simp only [List.length_append, List.length_map]
    push_cast
    omega
  · intro h8 i j hi _ hij
    have hneg : ¬ k < 0 := by omega
    have hcol2 := hcol
    simp only [_randomColors, h8, hneg, if_true, if_false] at hcol2
    have hnd : colors.Nodup := by
      rw [← Except.ok.inj hcol2]
      exact (List.take_sublist _ _).nodup fixedColors_nodup
    exact List.getElem?_inj (by omega) hnd hij

/-- C14, amended, at a concrete result: two points, the first at x = 0.3 (the `float64`
nearest to 3/10, drawn at `int(0.3 * 10) = 3`), and two centroids. -/
theorem OutputToSVG_spec_witness :
    ∃ colors svg, _randomColors (fun _ => 0) 1 2 = Except.ok colors ∧
      (colors.length : Int) = 2 ∧
      OutputToSVG ieee (fun _ => 0) 1 [ct (5404319552844595 / 2 ^ 54) 4 0, ct 0 0 1]
        [ct 3 4 0, ct 0 0 1] 2 = Except.ok svg ∧
      svg.width = 700 ∧ svg.height = 700 ∧
      svg.circles =
        [ct (5404319552844595 / 2 ^ 54) 4 0, ct 0 0 1].map (fun p =>
          { x := F64.toInt (ieee.mul p.x (F64.fin 10)),
            y := F64.toInt (ieee.mul p.y (F64.fin 10)),
            r := 3, style := "fill:" ++ colors.getD p.cluster.toNat "" }) ++
        [ct 3 4 0, ct 0 0 1].map (fun c =>
          { x := F64.toInt (ieee.mul c.x (F64.fin 10)),
            y := F64.toInt (ieee.mul c.y (F64.fin 10)),
            r := 6, style := "stroke:black;fill:" ++ colors.getD c.cluster.toNat "" }) ∧
      (svg.circles.length : Int)
        = ([ct (5404319552844595 / 2 ^ 54) 4 0, ct 0 0 1] : List Circle).length + 2 ∧
      ((2 : Int) ≤ 8 → ∀ i j : Nat, (i : Int) < 2 → (j : Int) < 2 →
        colors[i]? = colors[j]? → i = j) :=
  OutputToSVG_spec ieee (fun _ => 0) 1 [ct (5404319552844595 / 2 ^ 54) 4 0, ct 0 0 1]
    [ct 3 4 0, ct 0 0 1] 2 (by decide)
    (by
      intro p hp
      simp only [List.mem_cons, List.mem_singleton, List.not_mem_nil, or_false] at hp
      rcases hp with rfl | rfl <;> exact ⟨by decide, by decide⟩)
    (by
      intro p hp
      simp only [List.mem_cons, List.mem_singleton, List.not_mem_nil, or_false] at hp
      rcases hp with rfl | rfl <;> exact ⟨by decide, by decide⟩)

/-- The drawing loop at work: the point (0.3, 0.7) is drawn at (3, 7), the products
`0.3 * 10` and `0.7 * 10` being rounded to 3 and 7 before the conversion to `int`. -/
theorem drawCircles_rounds :
    drawCircles ieee ["#ef4444"] (F64.fin 10) 3 "fill:"
        [ct (5404319552844595 / 2 ^ 54) (3152519739159347 / 2 ^ 52) 0]
      = Except.ok [⟨3, 7, 3, "fill:#ef4444"⟩] := by
  decide!

/-! ## The computed distance -/

theorem fl_rnd_ne_nan (R : Rounding) (q : ℚ) : R.rnd q ≠ F64.nan := by
  by_cases h : 0 ≤ q
  · rcases R.rnd_nonneg q h with h1 | ⟨r, _, h1⟩ <;> rw [h1] <;> simp
  · have h2 := R.rnd_neg (-q)
    rw [neg_neg] at h2
    rcases R.rnd_nonneg (-q) (by linarith) with h1 | ⟨r, _, h1⟩ <;> rw [h2, h1] <;>
      simp [F64.neg]

/-- Swapping the operands of a subtraction negates the result. -/
theorem fl_sub_comm (R : Rounding) (a b : F64) : R.sub b a = F64.neg (R.sub a b) := by
  cases a <;> cases b <;> try rfl
  rename_i a b
  show R.rnd (b + -a) = F64.neg (R.rnd (a + -b))
  rw [← R.rnd_neg]
  congr 1
  ring

theorem fl_mul_neg_self (R : Rounding) (a : F64) : R.mul (F64.neg a) (F64.neg a) = R.mul a a := by
  cases a <;> simp [Rounding.mul, F64.neg]

theorem fl_euclidianDistance_comm (R : Rounding) (x1 x2 y1 y2 : F64) :
    _euclidianDistance R x2 x1 y2 y1 = _euclidianDistance R x1 x2 y1 y2 := by
  simp only [_euclidianDistance]
  rw [fl_sub_comm R x1 x2, fl_sub_comm R y1 y2, fl_mul_neg_self, fl_mul_neg_self]

theorem fl_dist_comm (R : Rounding) (p c : Circle) : dist R c p = dist R p c :=
  fl_euclidianDistance_comm R p.x c.x p.y c.y

theorem fl_mul_self_nonneg (R : Rounding) (a : F64) (ha : a ≠ F64.nan) :
    (R.mul a a).NonNeg := by
  cases a with
  | nan => exact absurd rfl ha
  | pinf => exact Or.inl rfl
  | ninf => exact Or.inl rfl
  | fin q => exact R.rnd_nonneg (q * q) (mul_self_nonneg q)

theorem fl_add_nonneg (R : Rounding) (a b : F64) (ha : a.NonNeg) (hb : b.NonNeg) :
    (R.add a b).NonNeg := by
  rcases ha with rfl | ⟨r, hr, rfl⟩ <;> rcases hb with rfl | ⟨s, hs, rfl⟩
  · exact Or.inl rfl
  · exact Or.inl rfl
  · exact Or.inl rfl
  · exact R.rnd_nonneg (r + s) (add_nonneg hr hs)

theorem fl_sqrt_nonneg (R : Rounding) (a : F64) (ha : a.NonNeg) : (R.sqrt a).NonNeg := by
  rcases ha with rfl | ⟨r, hr, rfl⟩
  · exact Or.inl rfl
  · have : ¬ r < 0 := by linarith
    simp only [Rounding.sqrt, this, if_false]
    exact R.root_nonneg r hr

theorem fl_sub_fin (R : Rounding) (a b : ℚ) :
    R.sub (F64.fin a) (F64.fin b) = R.rnd (a - b) := by
  simp [Rounding.sub, Rounding.add, F64.neg, sub_eq_add_neg]

/-- The computed distance between finite positions is +Inf or finite and non-negative. -/
theorem fl_euclidianDistance_nonneg (R : Rounding) (x1 x2 y1 y2 : ℚ) :
    (_euclidianDistance R (F64.fin x1) (F64.fin x2) (F64.fin y1) (F64.fin y2)).NonNeg := by
  simp only [_euclidianDistance, fl_sub_fin]
  exact fl_sqrt_nonneg R _ (fl_add_nonneg R _ _ (fl_mul_self_nonneg R _ (fl_rnd_ne_nan R _))
    (fl_mul_self_nonneg R _ (fl_rnd_ne_nan R _)))

/-- The computed distance from a finite position to itself is 0. -/
theorem fl_euclidianDistance_self (R : Rounding) (x y : ℚ) :
    _euclidianDistance R (F64.fin x) (F64.fin x) (F64.fin y) (F64.fin y) = F64.fin 0 := by
  simp [_euclidianDistance, fl_sub_fin, R.rnd_zero, Rounding.mul, Rounding.add, Rounding.sqrt,
    R.root_zero]

/-! ## C18 -/

/-- C18, as stated, fails for `float64` arguments: (1) `_euclidianDistance(2^600, 0, 0, 0)`
is +Inf, the square of `2^600` overflowing, while the Euclidean distance `2^600` is a
`float64`; (2) `_euclidianDistance(2^-600, 0, 0, 0)` is 0 for two distinct points, the
square underflowing; (3) `_euclidianDistance(1, 0, 1, 0)` is the `float64`
1.4142135623730951, whose square is not 2. -/
theorem euclidianDistance_counterexample :
    (ieee.rnd (2 ^ 600) = F64.fin (2 ^ 600) ∧
      _euclidianDistance ieee (F64.fin (2 ^ 600)) (F64.fin 0) (F64.fin 0) (F64.fin 0)
        = F64.pinf) ∧
    (ieee.rnd (1 / 2 ^ 600) = F64.fin (1 / 2 ^ 600) ∧
      _euclidianDistance ieee (F64.fin (1 / 2 ^ 600)) (F64.fin 0) (F64.fin 0) (F64.fin 0)
        = F64.fin 0) ∧
    (_euclidianDistance ieee (F64.fin 1) (F64.fin 0) (F64.fin 1) (F64.fin 0)
        = F64.fin (6369051672525773 / 2 ^ 52) ∧
      (6369051672525773 / 2 ^ 52 : ℚ) * (6369051672525773 / 2 ^ 52) ≠ 2) := by
  decide!

/-- C18, amended: for all finite x1, x2, y1, y2, the `float64` that
`_euclidianDistance(x1, x2, y1, y2)` returns (each subtraction, square, the sum and the
root being rounded) is never NaN: it is +Inf (on overflow) or finite and non-negative; it
is unchanged when the two points are swapped; and it is 0 when the two points coincide
(it can also be 0 for distinct points, on underflow); and `CalculateClusters` passes both
x values first, then both y values. -/
theorem euclidianDistance_spec (R : Rounding) (x1 x2 y1 y2 : ℚ) :
    (_euclidianDistance R (F64.fin x1) (F64.fin x2) (F64.fin y1) (F64.fin y2) = F64.pinf ∨
      ∃ r : ℚ, 0 ≤ r ∧
        _euclidianDistance R (F64.fin x1) (F64.fin x2) (F64.fin y1) (F64.fin y2) = F64.fin r) ∧
    _euclidianDistance R (F64.fin x2) (F64.fin x1) (F64.fin y2) (F64.fin y1)
      = _euclidianDistance R (F64.fin x1) (F64.fin x2) (F64.fin y1) (F64.fin y2) ∧
    _euclidianDistance R (F64.fin x1) (F64.fin x1) (F64.fin y1) (F64.fin y1) = F64.fin 0 ∧
    (∀ p c : Circle, dist R p c = _euclidianDistance R p.x c.x p.y c.y) := by
  exact ⟨fl_euclidianDistance_nonneg R x1 x2 y1 y2, fl_euclidianDistance_comm R _ _ _ _,
    fl_euclidianDistance_self R x1 y1, fun _ _ => rfl⟩

/-! ## Means, rounded -/

theorem fl_clusterSums_foldl (R : Rounding) (points : List Circle) (i : Int) (a b : F64)
    (m : Int) :
    points.foldl
      (fun acc p =>
        if p.cluster = i then (R.add acc.1 p.x, R.add acc.2.1 p.y, acc.2.2 + 1) else acc)
      (a, b, m)
    = (((members points i).map (fun p => p.x)).foldl R.add a,
        ((members points i).map (fun p => p.y)).foldl R.add b,
        m + ((members points i).length : Int)) := by
  induction points generalizing a b m with
  | nil => simp [members]
  | cons p ps ih =>
    by_cases hc : p.cluster = i
    · simp only [List.foldl_cons, hc, if_true]
      rw [ih]
      simp only [members, List.filter_cons, hc, decide_True, if_true, List.map_cons,
        List.foldl_cons, List.length_cons]
      congr 2
      push_cast
      omega
    · simp only [List.foldl_cons, hc, if_false]
      rw [ih]
      simp [members, List.filter_cons, hc]

/-- The sums of the centroid loop are the rounded sums over the members of the cluster. -/
theorem fl_clusterSums_eq (R : Rounding) (points : List Circle) (i : Int) :
    clusterSums R points i
      = (sumOf R ((members points i).map (fun p => p.x)),
          sumOf R ((members points i).map (fun p => p.y)),
          ((members points i).length : Int)) := by
  have h := fl_clusterSums_foldl R points i (F64.fin 0) (F64.fin 0) 0
  simpa [clusterSums, sumOf] using h

/-- The updated centroid of a cluster is the computed mean of its members. -/
theorem fl_updateCentroid_mean (R : Rounding) (points : List Circle) (i : Nat) (c : Circle) :
    updateCentroid R points i c
      = ({ x := meanOf R ((members points i).map (fun p => p.x)),
           y := meanOf R ((members points i).map (fun p => p.y)),
           cluster := c.cluster },
         F64.ne (meanOf R ((members points i).map (fun p => p.x))) c.x ||
         F64.ne (meanOf R ((members points i).map (fun p => p.y))) c.y) := by
  rw [fl_updateCentroid_eq, fl_clusterSums_eq]
  simp only [meanOf, List.length_map]

theorem fl_meanOf_nil (R : Rounding) : meanOf R [] = F64.nan := by
  simp [meanOf, sumOf, F64.ofInt, Rounding.div, F64.infOfSign]

theorem F64_ne_notNaN {a b : F64} (h : F64.ne a b = false) : a.isNaN = false := by
  cases a <;> cases b <;> simp_all [F64.ne, F64.isNaN]

theorem F64_ne_self {a : F64} (h : a.isNaN = false) : F64.ne a a = false := by
  cases a <;> simp_all [F64.ne, F64.isNaN]

/-! ## Convergence, rounded -/

theorem fl_ConvInv_iterate (R : Rounding) (s : Run) : ConvInv R (iterate R s) := by
  intro hch
  have hu : (updateCentroids R s.points s.centroids 0 false).2 = false := hch
  have hsame := fl_updateCentroids_unchanged R s.points s.centroids 0 hu
  have hp : (iterate R s).points = s.points := by
    simp only [iterate, hu]
    simp
  have hc : (iterate R s).centroids = s.centroids := hsame
  rw [hp, hc]
  exact Prod.ext hsame hu

theorem fl_ConvInv_runFor (R : Rounding) (n : Nat) (s : Run) (h : ConvInv R s) :
    ConvInv R (runFor R n s) := by
  induction n generalizing s with
  | zero => exact h
  | succ n ih =>
    unfold runFor
    split
    · exact ih _ (fl_ConvInv_iterate R s)
    · exact h

/-- The loop ends with `change` false or after all the iterations it was allowed. -/
theorem fl_runFor_exit (R : Rounding) (n : Nat) (s : Run) :
    (runFor R n s).change = false ∨ (runFor R n s).iterations = s.iterations + n := by
  induction n generalizing s with
  | zero => right; rfl
  | succ n ih =>
    unfold runFor
    split
    · rcases ih (iterate R s) with h | h
      · left; exact h
      · right
        rw [h, fl_iterate_iterations]
        omega
    · rename_i hch
      left
      simpa using hch

/-- In a converged state every centroid is the computed mean of its cluster, which has a
member, and is not NaN. -/
theorem fl_converged_mean (R : Rounding) (s : Run)
    (hconv : updateCentroids R s.points s.centroids 0 false = (s.centroids, false))
    (i : Nat) (c : Circle) (hc : s.centroids[i]? = some c) :
    members s.points (i : Int) ≠ [] ∧
      c.x = meanOf R ((members s.points (i : Int)).map (fun p => p.x)) ∧
      c.y = meanOf R ((members s.points (i : Int)).map (fun p => p.y)) ∧
      c.x.isNaN = false ∧ c.y.isNaN = false := by
  have hflag : (updateCentroids R s.points s.centroids 0 false).2 = false := by rw [hconv]
  have hu : (updateCentroid R s.points (0 + i) c).2 = false := by
    cases h : (updateCentroid R s.points (0 + i) c).2 with
    | false => rfl
    | true =>
      have h3 := fl_updateCentroids_change_of_mem R s.points s.centroids 0 false i c hc h
      rw [hflag] at h3
      exact absurd h3 (by simp)
  rw [fl_updateCentroid_mean] at hu
  simp only [Nat.zero_add, Bool.or_eq_false_iff] at hu
  obtain ⟨hx, hy⟩ := hu
  have ex := F64.eq_of_ne_false hx
  have ey := F64.eq_of_ne_false hy
  have nx := F64_ne_notNaN hx
  have ny := F64_ne_notNaN hy
  refine ⟨?_, ex.symm, ey.symm, by rw [← ex]; exact nx, by rw [← ey]; exact ny⟩
  intro hm
  rw [hm] at nx
  simp [fl_meanOf_nil, F64.isNaN] at nx

/-! ## C16 -/

/-- C16, as stated, fails.  (1) For the points (2^1023, 0), (2^1023, 0), (0, 0) with k = 2
and all draws 0 the run stops as converged after 2 iterations, below the cap, with
centroid 0 at (+Inf, 0): the sum `2^1023 + 2^1023` of its two members overflows, although
their arithmetic mean (2^1023, 0) is a `float64`.  (2) For the points (4, 2^-28),
(2, 2^-29), (2, 0), (0, 0) with k = 2 the run stops as converged after 1 iteration with
the point (0,0) labelled 0, although centroid 1 is strictly nearer to it: the computed
distances are both 2. -/
theorem KMeans_converged_counterexample :
    (KMeans ieee (fun _ => 0) [pt (2 ^ 1023) 0, pt (2 ^ 1023) 0, pt 0 0] 2 0
        = Except.ok ⟨[ct (2 ^ 1023) 0 0, ct 0 0 1, ct (2 ^ 1023) 0 0],
                     [⟨F64.pinf, F64.fin 0, 0⟩, ct 0 0 1], 2⟩ ∧
      ieee.rnd (2 ^ 1023) = F64.fin (2 ^ 1023) ∧
      sumX [ct (2 ^ 1023) 0 0, ct (2 ^ 1023) 0 0] / 2 = 2 ^ 1023) ∧
    (KMeans ieee (fun _ => 0) [pt 4 (1 / 2 ^ 28), pt 2 (1 / 2 ^ 29), pt 2 0, pt 0 0] 2 0
        = Except.ok ⟨[ct 2 (1 / 2 ^ 29) 0, ct 2 0 1, ct 0 0 0, ct 4 (1 / 2 ^ 28) 0],
                     [ct 2 (1 / 2 ^ 29) 0, ct 2 0 1], 1⟩ ∧
      sqDist (ct 0 0 0) (ct 2 0 1) < sqDist (ct 0 0 0) (ct 2 (1 / 2 ^ 29) 0) ∧
      dist ieee (ct 0 0 0) (ct 2 0 1) = F64.fin 2 ∧
      dist ieee (ct 0 0 0) (ct 2 (1 / 2 ^ 29) 0) = F64.fin 2) := by
  rw [fl_KMeans_eq, fl_KMeans_eq]
  decide!

/-- C16, amended: for every input with 1 <= k <= n, whose points enter with label 0,
`KMeans` returns the state `s` its main loop ends in; if the iteration count is below the
cap the loop ended with `change` false; and whenever it ended with `change` false, every
final centroid i is the mean that the code computes of the points labelled i (of which
there is at least one): the `float64` sum of their coordinates, accumulated in the order
of the points, divided by their number, which is not NaN (but may be +Inf or -Inf);
every label is a centroid index, and every point with a centroid at a computed distance
below `MaxFloat64` is labelled with a centroid at minimum computed distance; and one more
pass of the loop body changes neither points nor centroids and sets no `change`. -/
theorem KMeans_converged_fixed_point (R : Rounding) (rs : Nat → Nat) (points : List Circle)
    (k limit : Int) (hk : 1 ≤ k) (hkn : k ≤ points.length)
    (hentry : ∀ p ∈ points, p.cluster = 0) :
    ∃ array s, _shuffleElements rs points = Except.ok array ∧
      s = mainLoop R (cap limit) (initRun R array k.toNat) ∧
      KMeans R rs points k limit = Except.ok ⟨s.points, s.centroids, s.iterations⟩ ∧
      ((s.iterations : Int) < cap limit → s.change = false) ∧
      (s.change = false →
        (∀ (i : Nat) (c : Circle), s.centroids[i]? = some c →
          members s.points (i : Int) ≠ [] ∧
          c.x = meanOf R ((members s.points (i : Int)).map (fun p => p.x)) ∧
          c.y = meanOf R ((members s.points (i : Int)).map (fun p => p.y)) ∧
          c.x.isNaN = false ∧ c.y.isNaN = false) ∧
        (∀ q ∈ s.points, (0 ≤ q.cluster ∧ q.cluster < k) ∧
          ((∃ c ∈ s.centroids, F64.lt (dist R q c) MaxFloat64 = true) →
            ∃ (j : Nat) (cj : Circle), q.cluster = (j : Int) ∧ s.centroids[j]? = some cj ∧
              ∀ (i : Nat) (ci : Circle), s.centroids[i]? = some ci →
                F64.lt (dist R q ci) (dist R q cj) = false ∧
                ((dist R q ci).isNaN = false →
                  F64.le (dist R q cj) (dist R q ci) = true))) ∧
        (iterate R s).points = s.points ∧ (iterate R s).centroids = s.centroids ∧
        (iterate R s).change = false) := by
  have hne : points ≠ [] := by
    intro h
    rw [h] at hkn
    simp at hkn
    omega
  have hkk : ((k.toNat : Nat) : Int) = k := Int.toNat_of_nonneg (by omega)
  have hml : mainLoop R (cap limit)
        (initRun R (shuffleLoop rs (points.length - 1) 0 points) k.toNat)
      = runFor R (cap limit).toNat
          (initRun R (shuffleLoop rs (points.length - 1) 0 points) k.toNat) := by
    rw [fl_mainLoop_eq_runFor]
    simp [initRun]
  have hL := fl_final_LabelInv R rs points k (cap limit).toNat hk hkn hentry
  have hC : ConvInv R (runFor R (cap limit).toNat
      (initRun R (shuffleLoop rs (points.length - 1) 0 points) k.toNat)) :=
    fl_ConvInv_runFor R _ _ (fun h => by simp [initRun] at h)
  have hexit := fl_runFor_exit R (cap limit).toNat
    (initRun R (shuffleLoop rs (points.length - 1) 0 points) k.toNat)
  refine ⟨_, _, shuffleElements_ok rs points hne, rfl, ?_, ?_, ?_⟩
  · rw [hml]
    exact fl_KMeans_ok R rs points k limit hk hkn
  · rw [hml]
    intro hlt
    rcases hexit with h | h
    · exact h
    · rw [h] at hlt
      simp only [initRun] at hlt
      omega
  · rw [hml]
    generalize runFor R (cap limit).toNat
      (initRun R (shuffleLoop rs (points.length - 1) 0 points) k.toNat) = s at hL hC
    intro hch
    have hconv := hC hch
    refine ⟨fl_converged_mean R s hconv, ?_, ?_, ?_, ?_⟩
    · intro q hq
      constructor
      · have := hL.1 q hq
        unfold ValidLabel at this
        rw [hkk] at this
        exact this
      · intro hex
        obtain ⟨j, cj, hj, _, hget, hle, _⟩ := fl_inv_lowestNearest R _ s hL q hq hex
        refine ⟨j, cj, hj, hget, ?_⟩
        intro i ci hci
        refine ⟨?_, hle i ci hci⟩
        cases hnan : (dist R q ci).isNaN with
        | true => exact F64_lt_false_of_nan hnan
        | false => exact F64_lt_false_of_le (hle i ci hci hnan)
    · simp only [iterate, hconv]
      simp
    · simp only [iterate, hconv]
    · simp only [iterate, hconv]

/-- C16, amended, at a concrete run: three points, k = 2. -/
theorem KMeans_converged_fixed_point_witness :
    ∃ array s, _shuffleElements (fun _ => 0) [pt 0 0, pt 10 0, pt 0 10] = Except.ok array ∧
      s = mainLoop ieee (cap 0) (initRun ieee array (2 : Int).toNat) ∧
      KMeans ieee (fun _ => 0) [pt 0 0, pt 10 0, pt 0 10] 2 0
        = Except.ok ⟨s.points, s.centroids, s.iterations⟩ ∧
      ((s.iterations : Int) < cap 0 → s.change = false) ∧
      (s.change = false →
        (∀ (i : Nat) (c : Circle), s.centroids[i]? = some c →
          members s.points (i : Int) ≠ [] ∧
          c.x = meanOf ieee ((members s.points (i : Int)).map (fun p => p.x)) ∧
          c.y = meanOf ieee ((members s.points (i : Int)).map (fun p => p.y)) ∧
          c.x.isNaN = false ∧ c.y.isNaN = false) ∧
        (∀ q ∈ s.points, (0 ≤ q.cluster ∧ q.cluster < 2) ∧
          ((∃ c ∈ s.centroids, F64.lt (dist ieee q c) MaxFloat64 = true) →
            ∃ (j : Nat) (cj : Circle), q.cluster = (j : Int) ∧ s.centroids[j]? = some cj ∧
              ∀ (i : Nat) (ci : Circle), s.centroids[i]? = some ci →
                F64.lt (dist ieee q ci) (dist ieee q cj) = false ∧
                ((dist ieee q ci).isNaN = false →
                  F64.le (dist ieee q cj) (dist ieee q ci) = true))) ∧
        (iterate ieee s).points = s.points ∧ (iterate ieee s).centroids = s.centroids ∧
        (iterate ieee s).change = false) :=
  KMeans_converged_fixed_point ieee (fun _ => 0) [pt 0 0, pt 10 0, pt 0 10] 2 0
    (by decide) (by decide)
    (by
      intro p hp
      simp only [List.mem_cons, List.mem_singleton, List.not_mem_nil, or_false] at hp
      rcases hp with rfl | rfl | rfl <;> rfl)

/-! ## Coordinates are kept, rounded -/

theorem fl_CalculateClusters_xy (R : Rounding) (points cs : List Circle) :
    (CalculateClusters R points cs).map (fun p => (p.x, p.y))
      = points.map (fun p => (p.x, p.y)) := by
  simp [CalculateClusters, List.map_map, Function.comp_def, assignPoint]

theorem fl_iterate_xy (R : Rounding) (s : Run) :
    (iterate R s).points.map (fun p => (p.x, p.y)) = s.points.map (fun p => (p.x, p.y)) := by
  simp only [iterate]
  split
  · exact fl_CalculateClusters_xy R _ _
  · rfl

theorem fl_runFor_of_no_change (R : Rounding) (n : Nat) (s : Run) (h : s.change = false) :
    runFor R n s = s := by
  cases n with
  | zero => rfl
  | succ n => simp [runFor, h]

/-! ## The computed mean of finite values -/

theorem F64_notNaN_of_ne {a : F64} (h : a ≠ F64.nan) : a.isNaN = false := by
  cases a <;> simp_all [F64.isNaN]

theorem fl_add_fin_ne_nan (R : Rounding) (a : F64) (q : ℚ) (ha : a ≠ F64.nan) :
    R.add a (F64.fin q) ≠ F64.nan := by
  cases a with
  | nan => exact absurd rfl ha
  | pinf => simp [Rounding.add]
  | ninf => simp [Rounding.add]
  | fin r => exact fl_rnd_ne_nan R (r + q)

theorem fl_foldl_add_ne_nan (R : Rounding) (xs : List F64)
    (hfin : ∀ x ∈ xs, ∃ q : ℚ, x = F64.fin q) (a : F64) (ha : a ≠ F64.nan) :
    xs.foldl R.add a ≠ F64.nan := by
  induction xs generalizing a with
  | nil => exact ha
  | cons x xs ih =>
    obtain ⟨q, rfl⟩ := hfin _ (List.mem_cons_self _ xs)
    simp only [List.foldl_cons]
    exact ih (fun y hy => hfin y (List.mem_cons_of_mem _ hy)) _ (fl_add_fin_ne_nan R a q ha)

/-- The computed mean of finitely many finite values, at least one, is not NaN (it may be
+Inf or -Inf, when the sum overflows). -/
theorem fl_meanOf_notNaN (R : Rounding) (xs : List F64)
    (hfin : ∀ x ∈ xs, ∃ q : ℚ, x = F64.fin q) (hne : xs ≠ []) :
    (meanOf R xs).isNaN = false := by
  have h1 := fl_foldl_add_ne_nan R xs hfin (F64.fin 0) (by simp)
  have hpos : 0 < xs.length := List.length_pos.mpr hne
  have hn : (((xs.length : Nat) : Int) : ℚ) ≠ 0 := by
    have : (0 : ℚ) < ((xs.length : Nat) : Int) := by exact_mod_cast hpos
    exact ne_of_gt this
  unfold meanOf sumOf
  cases h : xs.foldl R.add (F64.fin 0) with
  | nan => exact absurd h h1
  | pinf =>
    simp only [Rounding.div, F64.ofInt]
    split <;> rfl
  | ninf =>
    simp only [Rounding.div, F64.ofInt]
    split <;> rfl
  | fin a =>
    simp only [Rounding.div, F64.ofInt, hn, if_false]
    exact F64_notNaN_of_ne (fl_rnd_ne_nan R _)

/-! ## C6 -/

/-- One iteration from a state with a single cluster that holds every point: the centroid
becomes the computed mean over the points, in their order; from that centroid on, nothing
changes. -/
theorem fl_single_iterate (R : Rounding) (array : List Circle) (s : Run) (c : Circle)
    (hL : LabelInv R 1 s) (hc : s.centroids = [c]) (hid : c.cluster = 0)
    (hxy : s.points.map (fun p => (p.x, p.y)) = array.map (fun p => (p.x, p.y))) :
    (iterate R s).centroids
        = [{ x := meanOf R (array.map (fun p => p.x)),
             y := meanOf R (array.map (fun p => p.y)), cluster := 0 }] ∧
      (c = { x := meanOf R (array.map (fun p => p.x)),
             y := meanOf R (array.map (fun p => p.y)), cluster := 0 } →
        (meanOf R (array.map (fun p => p.x))).isNaN = false →
        (meanOf R (array.map (fun p => p.y))).isNaN = false →
        (iterate R s).change = false ∧ (iterate R s).points = s.points) := by
  have h0 : ∀ p ∈ s.points, p.cluster = 0 := by
    intro p hp
    have := hL.1 p hp
    unfold ValidLabel at this
    omega
  have hm : members s.points ((0 : Nat) : Int) = s.points :=
    members_all s.points _ (by simpa using h0)
  have hx : s.points.map (fun p => p.x) = array.map (fun p => p.x) := by
    have := congrArg (List.map Prod.fst) hxy
    simpa [List.map_map, Function.comp_def] using this
  have hy : s.points.map (fun p => p.y) = array.map (fun p => p.y) := by
    have := congrArg (List.map Prod.snd) hxy
    simpa [List.map_map, Function.comp_def] using this
  have hu := fl_updateCentroid_mean R s.points 0 c
  rw [hm, hx, hy, hid] at hu
  constructor
  · simp only [iterate, hc, updateCentroids, hu]
  · intro hceq hnx hny
    have hch : (updateCentroids R s.points [c] 0 false).2 = false := by
      have hu2 := hu
      rw [hceq] at hu2
      simp only [hceq, updateCentroids, hu2, F64_ne_self hnx, F64_ne_self hny]
      rfl
    constructor
    · simp only [iterate, hc, hch]
    · simp only [iterate, hc, hch]
      simp

/-- C6, as stated, fails.  (1) For the two points (2^1023, 2^1023), (2^1023, 2^1023)
with k = 1 the sum `2^1023 + 2^1023` overflows, and the run ends after 2 iterations with
the centroid (+Inf, +Inf), while the arithmetic mean of the points is (2^1023, 2^1023), a
`float64` position.  (2) For two points whose x coordinate is NaN (the normal generator
builds such points from a NaN deviation) the mean is NaN in every iteration, which differs
from itself, and the run with limit 3 performs all 3 iterations. -/
theorem KMeans_single_cluster_counterexample :
    (KMeans ieee (fun _ => 0) [pt (2 ^ 1023) (2 ^ 1023), pt (2 ^ 1023) (2 ^ 1023)] 1 0
        = Except.ok ⟨[pt (2 ^ 1023) (2 ^ 1023), pt (2 ^ 1023) (2 ^ 1023)],
                     [⟨F64.pinf, F64.pinf, 0⟩], 2⟩ ∧
      ieee.rnd (2 ^ 1023) = F64.fin (2 ^ 1023) ∧
      sumX [pt (2 ^ 1023) (2 ^ 1023), pt (2 ^ 1023) (2 ^ 1023)] / 2 = 2 ^ 1023 ∧
      sumY [pt (2 ^ 1023) (2 ^ 1023), pt (2 ^ 1023) (2 ^ 1023)] / 2 = 2 ^ 1023) ∧
    KMeans ieee (fun _ => 0) [⟨F64.nan, F64.fin 1, 0⟩, ⟨F64.nan, F64.fin 2, 0⟩] 1 3
      = Except.ok ⟨[⟨F64.nan, F64.fin 2, 0⟩, ⟨F64.nan, F64.fin 1, 0⟩],
                   [⟨F64.nan, F64.fin (3 / 2), 0⟩], 3⟩ := by
  rw [fl_KMeans_eq, fl_KMeans_eq]
  decide!

/-- C6, amended: for every non-empty list of points with finite coordinates, entering
with label 0, with k = 1 and limit 0 or limit >= 1, `KMeans` ends after 1 or 2 iterations
with every point labelled 0 and its single centroid at the mean that the code computes of
all points: for each coordinate the `float64` sum, accumulated from 0.0 in the order of
the shuffled slice with every addition rounded, divided by n.  That mean is not NaN but
need not be the arithmetic mean (it is +Inf or -Inf when the sum overflows); an iteration
started from the final points and centroid finds no change and leaves both as they are. -/
theorem KMeans_single_cluster (R : Rounding) (rs : Nat → Nat) (points : List Circle)
    (limit : Int) (hne : points ≠ []) (hfin : ∀ p ∈ points, Finite p)
    (hentry : ∀ p ∈ points, p.cluster = 0) (hl : limit = 0 ∨ 1 ≤ limit) :
    ∃ array r, _shuffleElements rs points = Except.ok array ∧ array.Perm points ∧
      KMeans R rs points 1 limit = Except.ok r ∧
      r.centroids = [{ x := meanOf R (array.map (fun p => p.x)),
                       y := meanOf R (array.map (fun p => p.y)), cluster := 0 }] ∧
      (meanOf R (array.map (fun p => p.x))).isNaN = false ∧
      (meanOf R (array.map (fun p => p.y))).isNaN = false ∧
      (∀ p ∈ r.points, p.cluster = 0) ∧ 1 ≤ r.iterations ∧ r.iterations ≤ 2 ∧
      (∀ s : Run, s.points = r.points → s.centroids = r.centroids →
        (iterate R s).change = false ∧ (iterate R s).points = r.points ∧
        (iterate R s).centroids = r.centroids) := by
  have hn : (1 : Int) ≤ points.length := by
    have := List.length_pos.mpr hne
    omega
  have hperm := shuffleLoop_perm rs (points.length - 1) 0 points
  have hlen : (shuffleLoop rs (points.length - 1) 0 points).length = points.length :=
    shuffleLoop_length _ _ _ _
  have hok := fl_KMeans_ok R rs points 1 limit (by omega) hn
  have hsh := shuffleElements_ok rs points hne
  generalize shuffleLoop rs (points.length - 1) 0 points = array at hperm hlen hok hsh
  have hane : array ≠ [] := by
    intro h
    rw [h] at hlen
    simp at hlen
    omega
  have hnx : (meanOf R (array.map (fun p => p.x))).isNaN = false := by
    apply fl_meanOf_notNaN
    · intro x hx
      obtain ⟨p, hp, rfl⟩ := List.mem_map.mp hx
      obtain ⟨a, _, ha, _⟩ := hfin p (hperm.mem_iff.mp hp)
      exact ⟨a, ha⟩
    · simpa using hane
  have hny : (meanOf R (array.map (fun p => p.y))).isNaN = false := by
    apply fl_meanOf_notNaN
    · intro x hx
      obtain ⟨p, hp, rfl⟩ := List.mem_map.mp hx
      obtain ⟨_, b, _, hb⟩ := hfin p (hperm.mem_iff.mp hp)
      exact ⟨b, hb⟩
    · simpa using hane
  have hL0 : LabelInv R 1 (initRun R array 1) := by
    apply fl_initRun_LabelInv R array 1 (by omega)
    intro p hp
    have := hentry p (hperm.mem_iff.mp hp)
    unfold ValidLabel
    omega
  -- the state before the loop
  have hc0 : ∃ c, (initRun R array 1).centroids = [c] ∧ c.cluster = 0 := by
    cases array with
    | nil => exact absurd rfl hane
    | cons a l => exact ⟨_, rfl, rfl⟩
  obtain ⟨c0, hc0, hid0⟩ := hc0
  have hxy0 : (initRun R array 1).points.map (fun p => (p.x, p.y))
      = array.map (fun p => (p.x, p.y)) := fl_CalculateClusters_xy R _ _
  -- the states after one and two iterations
  have h1 := fl_single_iterate R array _ c0 hL0 hc0 hid0 hxy0
  have hL1 := fl_LabelInv_iterate R 1 _ hL0
  have hxy1 := (fl_iterate_xy R (initRun R array 1)).trans hxy0
  have h2 := fl_single_iterate R array _ _ hL1 h1.1 rfl hxy1
  have h2b := h2.2 rfl hnx hny
  have hL2 := fl_LabelInv_iterate R 1 _ hL1
  have hxy2 := (fl_iterate_xy R (iterate R (initRun R array 1))).trans hxy1
  -- a state with the computed mean as centroid is a fixed point
  have hfixed : ∀ (f : Run), LabelInv R 1 f →
      f.points.map (fun p => (p.x, p.y)) = array.map (fun p => (p.x, p.y)) →
      f.centroids = [{ x := meanOf R (array.map (fun p => p.x)),
                       y := meanOf R (array.map (fun p => p.y)), cluster := 0 }] →
      ((∀ p ∈ f.points, p.cluster = 0) ∧
        (∀ s : Run, s.points = f.points → s.centroids = f.centroids →
          (iterate R s).change = false ∧ (iterate R s).points = f.points ∧
          (iterate R s).centroids = f.centroids)) := by
    intro f hLf hxyf hcf
    refine ⟨?_, ?_⟩
    · intro p hp
      have := hLf.1 p hp
      unfold ValidLabel at this
      omega
    · intro s hsp hsc
      have hLs : LabelInv R 1 s := by
        unfold LabelInv
        rw [hsp, hsc]
        exact hLf
      have hs := fl_single_iterate R array s _ hLs (hsc.trans hcf) rfl
        (by rw [hsp]; exact hxyf)
      have hs2 := hs.2 rfl hnx hny
      exact ⟨hs2.1, by rw [hs2.2, hsp], by rw [hs.1, hcf]⟩
  have hcap : ∃ n, (cap limit).toNat = n + 1 := by
    rcases hl with h | h
    · exact ⟨9999, by simp [cap, h]⟩
    · refine ⟨(limit - 1).toNat, ?_⟩
      have : cap limit = limit := by simp [cap]; omega
      rw [this]
      omega
  obtain ⟨n, hn1⟩ := hcap
  have hi0 : (initRun R array 1).iterations = 0 := rfl
  have hch0 : (initRun R array 1).change = true := rfl
  have hrun1 : runFor R (n + 1) (initRun R array 1)
      = runFor R n (iterate R (initRun R array 1)) := by
    rw [runFor, if_pos hch0]
  refine ⟨array, _, hsh, hperm, hok, ?_⟩
  simp only [Int.toNat_one, hn1, hrun1]
  cases n with
  | zero =>
    obtain ⟨g2, g3⟩ := hfixed _ hL1 hxy1 h1.1
    refine ⟨h1.1, hnx, hny, g2, ?_, ?_, g3⟩ <;> simp [runFor, fl_iterate_iterations, hi0]
  | succ n =>
    cases hch1 : (iterate R (initRun R array 1)).change with
    | false =>
      have hr : runFor R (n + 1) (iterate R (initRun R array 1))
          = iterate R (initRun R array 1) := by
        rw [runFor]
        simp [hch1]
      rw [hr]
      obtain ⟨g2, g3⟩ := hfixed _ hL1 hxy1 h1.1
      refine ⟨h1.1, hnx, hny, g2, ?_, ?_, g3⟩ <;> simp [fl_iterate_iterations, hi0]
    | true =>
      have hr : runFor R (n + 1) (iterate R (initRun R array 1))
          = iterate R (iterate R (initRun R array 1)) := by
        rw [runFor, if_pos hch1]
        exact fl_runFor_of_no_change R n _ h2b.1
      rw [hr]
      obtain ⟨g2, g3⟩ := hfixed _ hL2 hxy2 h2.1
      refine ⟨h2.1, hnx, hny, g2, ?_, ?_, g3⟩ <;> simp [fl_iterate_iterations, hi0]

/-- C6, amended, at a concrete run: three points, limit 0. -/
theorem KMeans_single_cluster_witness :
    ∃ array r, _shuffleElements (fun _ => 0) [pt 0 0, pt 6 0, pt 0 3] = Except.ok array ∧
      array.Perm [pt 0 0, pt 6 0, pt 0 3] ∧
      KMeans ieee (fun _ => 0) [pt 0 0, pt 6 0, pt 0 3] 1 0 = Except.ok r ∧
      r.centroids = [{ x := meanOf ieee (array.map (fun p => p.x)),
                       y := meanOf ieee (array.map (fun p => p.y)), cluster := 0 }] ∧
      (meanOf ieee (array.map (fun p => p.x))).isNaN = false ∧
      (meanOf ieee (array.map (fun p => p.y))).isNaN = false ∧
      (∀ p ∈ r.points, p.cluster = 0) ∧ 1 ≤ r.iterations ∧ r.iterations ≤ 2 ∧
      (∀ s : Run, s.points = r.points → s.centroids = r.centroids →
        (iterate ieee s).change = false ∧ (iterate ieee s).points = r.points ∧
        (iterate ieee s).centroids = r.centroids) :=
  KMeans_single_cluster ieee (fun _ => 0) [pt 0 0, pt 6 0, pt 0 3] 0 (by decide)
    (by
      intro p hp
      simp only [List.mem_cons, List.mem_singleton, List.not_mem_nil, or_false] at hp
      rcases hp with rfl | rfl | rfl <;> exact ⟨_, _, rfl, rfl⟩)
    (by
      intro p hp
      simp only [List.mem_cons, List.mem_singleton, List.not_mem_nil, or_false] at hp
      rcases hp with rfl | rfl | rfl <;> rfl)
    (Or.inl rfl)

/-- The run of the witness of C6: where no rounding occurs the computed mean is the
arithmetic mean (2, 1). -/
theorem KMeans_single_cluster_run :
    KMeans ieee (fun _ => 0) [pt 0 0, pt 6 0, pt 0 3] 1 0
      = Except.ok ⟨[pt 6 0, pt 0 3, pt 0 0], [ct 2 1 0], 2⟩ := by
  rw [fl_KMeans_eq]
  decide!

/-! ## C7 -/

theorem F64_le_false_of_lt {a b : F64} (h : F64.lt a b = true) : F64.le b a = false := by
  cases a <;> cases b <;> simp_all [F64.lt, F64.le]

theorem fl_zero_lt_max : F64.lt (F64.fin 0) MaxFloat64 = true := by
  decide!

/-- The computed distance from a finite point to a centroid at its position is 0. -/
theorem fl_dist_own (R : Rounding) (p : Circle) (hp : Finite p) (i : Int) :
    dist R p { x := p.x, y := p.y, cluster := i } = F64.fin 0 := by
  obtain ⟨a, b, hx, hy⟩ := hp
  simp only [dist, hx, hy]
  exact fl_euclidianDistance_self R a b

/-- With one centroid per point and non-zero computed distances between the points, every
point is labelled with the index of its own centroid. -/
theorem fl_assignPoint_own (R : Rounding) (array : List Circle) (hfin : ∀ p ∈ array, Finite p)
    (hsep : array.Pairwise (fun p q => F64.lt (F64.fin 0) (dist R p q) = true))
    (i : Nat) (p : Circle) (hp : array[i]? = some p) :
    (assignPoint R (initCentroids array 0) p).cluster = (i : Int) := by
  have hci : (initCentroids array 0)[i]? = some { x := p.x, y := p.y, cluster := (i : Int) } := by
    rw [initCentroids_getElem?, hp]
    simp
  have hpf : Finite p := hfin p (List.getElem?_mem hp)
  have hd0 := fl_dist_own R p hpf (i : Int)
  have hreach : ∃ c ∈ initCentroids array 0, F64.lt (dist R p c) MaxFloat64 = true :=
    ⟨_, List.getElem?_mem hci, by rw [hd0]; exact fl_zero_lt_max⟩
  obtain ⟨m, cm, hcl, _, hget, hle, _⟩ := fl_assignPoint_lowestNearest R p _ hreach
  rw [hcl]
  have hle0 := hle i _ hci (by rw [hd0]; rfl)
  rw [hd0] at hle0
  rw [initCentroids_getElem?] at hget
  cases ham : array[m]? with
  | none => simp [ham] at hget
  | some q =>
    simp only [ham, Option.map_some', Option.some.injEq] at hget
    have hdq : dist R p cm = dist R p q := by rw [← hget]; rfl
    rw [hdq] at hle0
    have hil := (List.getElem?_eq_some.mp hp).1
    have hml := (List.getElem?_eq_some.mp ham).1
    have hpi : array[i] = p := (List.getElem?_eq_some.mp hp).2
    have hqm : array[m] = q := (List.getElem?_eq_some.mp ham).2
    have hall := List.pairwise_iff_getElem.mp hsep
    by_contra hne
    have hmi : m ≠ i := fun h => hne (by rw [h])
    rcases Nat.lt_or_gt_of_ne hmi with h | h
    · have h1 := hall m i hml hil h
      rw [hpi, hqm, fl_dist_comm R p q] at h1
      rw [F64_le_false_of_lt h1] at hle0
      exact absurd hle0 (by simp)
    · have h1 := hall i m hil hml h
      rw [hpi, hqm] at h1
      rw [F64_le_false_of_lt h1] at hle0
      exact absurd hle0 (by simp)

/-- With one centroid per point and non-zero computed distances between the points, the
labelled points are the initial centroids themselves. -/
theorem fl_CalculateClusters_own (R : Rounding) (array : List Circle)
    (hfin : ∀ p ∈ array, Finite p)
    (hsep : array.Pairwise (fun p q => F64.lt (F64.fin 0) (dist R p q) = true)) :
    CalculateClusters R array (initCentroids array 0) = initCentroids array 0 := by
  apply List.ext_getElem?
  intro i
  simp only [CalculateClusters, List.getElem?_map, initCentroids_getElem?, Nat.zero_add]
  cases hp : array[i]? with
  | none => rfl
  | some p =>
    simp only [Option.map_some', Option.some.injEq]
    have h := fl_assignPoint_own R array hfin hsep i p hp
    show ({ x := p.x, y := p.y, cluster := (assignPoint R (initCentroids array 0) p).cluster }
      : Circle) = _
    rw [h]

theorem fl_representable_finite {R : Rounding} {c : Circle} (h : Representable R c) :
    Finite c := by
  obtain ⟨a, b, hx, hy, _⟩ := h
  exact ⟨a, b, hx, hy⟩

/-- With every point its own centroid, at `float64` coordinates, the centroid loop changes
nothing: the sum `0.0 + x` and the quotient `x / 1` are `x`. -/
theorem fl_updateCentroids_own (R : Rounding) (array : List Circle)
    (hrep : ∀ p ∈ array, Representable R p) :
    updateCentroids R (initCentroids array 0) (initCentroids array 0) 0 false
      = (initCentroids array 0, false) := by
  have hflag : (updateCentroids R (initCentroids array 0) (initCentroids array 0) 0 false).2
      = false := by
    apply fl_updateCentroids_noChange
    intro j c hc
    rw [initCentroids_getElem?] at hc
    cases ha : array[j]? with
    | none => simp [ha] at hc
    | some a =>
      simp only [ha, Option.map_some', Option.some.injEq] at hc
      obtain ⟨qa, qb, hax, hay, hra, hrb⟩ := hrep a (List.getElem?_mem ha)
      have hm := members_initCentroids array 0 j a ha
      rw [fl_updateCentroid_mean, hm, ← hc]
      simp [meanOf, sumOf, F64.ofInt, Rounding.add, Rounding.div, hax, hay, hra, hrb, F64.ne]
  have h := fl_updateCentroids_unchanged R _ _ 0 hflag
  exact Prod.ext h hflag

/-- C7, as stated, fails.  (1) Two equal points run with k = n = 2 and limit 3 leave
cluster 1 empty; the first iteration moves centroid 1 to (NaN, NaN) and the run performs
all 3 iterations.  (2) The same happens for the two distinct points (0, 0) and
(2^-600, 0): the square of `2^-600` underflows, their computed distance is 0, and both go
to centroid 0.  (3) A single point with a NaN coordinate, run with k = n = 1 and limit 3,
is its own centroid, but the recomputed mean NaN differs from the stored NaN in every
iteration, and the run performs all 3 iterations. -/
theorem KMeans_k_eq_n_counterexample :
    (KMeans ieee (fun _ => 0) [pt 0 0, pt 0 0] 2 3
        = Except.ok ⟨[pt 0 0, pt 0 0], [ct 0 0 0, ⟨F64.nan, F64.nan, 1⟩], 3⟩ ∧
      (initRun ieee [pt 0 0, pt 0 0] 2).centroids = [ct 0 0 0, ct 0 0 1] ∧
      (iterate ieee (initRun ieee [pt 0 0, pt 0 0] 2)).change = true) ∧
    (KMeans ieee (fun _ => 0) [pt 0 0, pt (1 / 2 ^ 600) 0] 2 3
        = Except.ok ⟨[pt (1 / 2 ^ 600) 0, pt 0 0],
                     [ct (1 / 2 ^ 601) 0 0, ⟨F64.nan, F64.nan, 1⟩], 3⟩ ∧
      ieee.rnd (1 / 2 ^ 600) = F64.fin (1 / 2 ^ 600) ∧
      dist ieee (pt 0 0) (pt (1 / 2 ^ 600) 0) = F64.fin 0) ∧
    KMeans ieee (fun _ => 0) [⟨F64.nan, F64.fin 1, 0⟩] 1 3
      = Except.ok ⟨[⟨F64.nan, F64.fin 1, 0⟩], [⟨F64.nan, F64.fin 1, 0⟩], 3⟩ := by
  rw [fl_KMeans_eq, fl_KMeans_eq, fl_KMeans_eq]
  decide!

/-- C7, amended: for every list of n >= 1 points with finite `float64` coordinates such
that the computed distance between any two of the points is not zero, run with k = n and
limit 0 or limit >= 1, `KMeans` converges immediately after the first assignment: the
point at index i of the shuffled slice is labelled i and centroid i has its position, the
first iteration moves no centroid (`change` stays false), and the run stops after this
single iteration with the final centroids equal to the initial ones. -/
theorem KMeans_k_eq_n (R : Rounding) (rs : Nat → Nat) (points : List Circle) (limit : Int)
    (hne : points ≠ []) (hrep : ∀ p ∈ points, Representable R p)
    (hsep : points.Pairwise (fun p q => F64.lt (F64.fin 0) (dist R p q) = true))
    (hl : limit = 0 ∨ 1 ≤ limit) :
    ∃ array r, _shuffleElements rs points = Except.ok array ∧
      KMeans R rs points (points.length : Int) limit = Except.ok r ∧
      r.iterations = 1 ∧ r.centroids = (initRun R array points.length).centroids ∧
      (iterate R (initRun R array points.length)).change = false ∧
      ∀ (i : Nat) (p : Circle), array[i]? = some p →
        r.points[i]? = some { p with cluster := (i : Int) } ∧
        r.centroids[i]? = some { x := p.x, y := p.y, cluster := (i : Int) } := by
  have hn : (1 : Int) ≤ points.length := by
    have := List.length_pos.mpr hne
    omega
  have hperm := shuffleLoop_perm rs (points.length - 1) 0 points
  have hlen : (shuffleLoop rs (points.length - 1) 0 points).length = points.length :=
    shuffleLoop_length _ _ _ _
  have hok := fl_KMeans_ok R rs points (points.length : Int) limit hn (le_refl _)
  have hsh := shuffleElements_ok rs points hne
  generalize shuffleLoop rs (points.length - 1) 0 points = array at hperm hlen hok hsh
  have hrep2 : ∀ p ∈ array, Representable R p := fun p hp => hrep p (hperm.mem_iff.mp hp)
  have hfin2 : ∀ p ∈ array, Finite p := fun p hp => fl_representable_finite (hrep2 p hp)
  have hsep2 : array.Pairwise (fun p q => F64.lt (F64.fin 0) (dist R p q) = true) := by
    refine (List.Perm.pairwise_iff ?_ hperm).mpr hsep
    intro p q h
    rw [fl_dist_comm R p q]
    exact h
  have htake : array.take points.length = array := by
    rw [← hlen]
    exact List.take_length array
  have hinit : initRun R array points.length
      = ⟨initCentroids array 0, initCentroids array 0, true, 0⟩ := by
    simp only [initRun, htake, fl_CalculateClusters_own R array hfin2 hsep2]
  have hiter : iterate R (initRun R array points.length)
      = ⟨initCentroids array 0, initCentroids array 0, false, 1⟩ := by
    rw [hinit]
    simp only [iterate, fl_updateCentroids_own R array hrep2]
    simp
  have hcap : ∃ n, (cap limit).toNat = n + 1 := by
    rcases hl with h | h
    · exact ⟨9999, by simp [cap, h]⟩
    · refine ⟨(limit - 1).toNat, ?_⟩
      have : cap limit = limit := by simp [cap]; omega
      rw [this]
      omega
  obtain ⟨n, hn1⟩ := hcap
  have hrun : runFor R (n + 1) (initRun R array points.length)
      = ⟨initCentroids array 0, initCentroids array 0, false, 1⟩ := by
    have hch : (initRun R array points.length).change = true := by rw [hinit]
    rw [runFor, if_pos hch, hiter]
    exact fl_runFor_of_no_change R n _ rfl
  simp only [Int.toNat_ofNat, hn1, hrun] at hok
  refine ⟨array, _, hsh, hok, rfl, by rw [hinit], by rw [hiter], ?_⟩
  intro i p hp
  simp [initCentroids_getElem?, hp]

/-- C7, amended, at a concrete run: three points, k = 3, limit 0. -/
theorem KMeans_k_eq_n_witness :
    ∃ array r, _shuffleElements (fun _ => 0) [pt 0 0, pt 1 0, pt 0 1] = Except.ok array ∧
      KMeans ieee (fun _ => 0) [pt 0 0, pt 1 0, pt 0 1]
        (([pt 0 0, pt 1 0, pt 0 1] : List Circle).length : Int) 0 = Except.ok r ∧
      r.iterations = 1 ∧
      r.centroids
        = (initRun ieee array ([pt 0 0, pt 1 0, pt 0 1] : List Circle).length).centroids ∧
      (iterate ieee (initRun ieee array ([pt 0 0, pt 1 0, pt 0 1] : List Circle).length)).change
        = false ∧
      ∀ (i : Nat) (p : Circle), array[i]? = some p →
        r.points[i]? = some { p with cluster := (i : Int) } ∧
        r.centroids[i]? = some { x := p.x, y := p.y, cluster := (i : Int) } :=
  KMeans_k_eq_n ieee (fun _ => 0) [pt 0 0, pt 1 0, pt 0 1] 0 (by decide)
    (by
      intro p hp
      simp only [List.mem_cons, List.mem_singleton, List.not_mem_nil, or_false] at hp
      rcases hp with rfl | rfl | rfl <;> exact ⟨_, _, rfl, rfl, by decide!, by decide!⟩)
    (by decide!) (Or.inl rfl)

/-! ## C8 -/

theorem fl_runFor_two (R : Rounding) (n : Nat) (s : Run) (h0 : s.change = true)
    (h1 : (iterate R s).change = true) (h2 : (iterate R (iterate R s)).change = false) :
    runFor R (n + 2) s = iterate R (iterate R s) := by
  rw [runFor, if_pos h0, runFor, if_pos h1]
  exact fl_runFor_of_no_change R n _ h2

/-- C8, as stated, fails: with the initial centroids (0,0) and (10,10), the points (10,0)
and (0,10) are equally far from both and go to cluster 0; the run converges after 2
iterations to the centroids (3.3333333333333335, 3.3333333333333335), the `float64`
quotient `10 / 3`, and (10,10), with three points in cluster 0 and (10,10) alone in
cluster 1, not to (0,5) and (10,5). -/
theorem KMeans_square_scenario_counterexample :
    (∃ array, _shuffleElements squareDraws squarePoints = Except.ok array ∧
      (initRun ieee array 2).centroids = [ct 0 0 0, ct 10 10 1]) ∧
    KMeans ieee squareDraws squarePoints 2 0
      = Except.ok ⟨[ct 0 0 0, ct 10 10 1, ct 0 10 0, ct 10 0 0],
                   [ct (7505999378950827 / 2 ^ 51) (7505999378950827 / 2 ^ 51) 0,
                    ct 10 10 1], 2⟩ := by
  constructor
  · exact ⟨[pt 0 0, pt 10 10, pt 0 10, pt 10 0], by decide!, by decide!⟩
  · rw [fl_KMeans_eq]
    decide!

/-- C8, amended: for points = [(0,0), (10,0), (0,10), (10,10)] and k = 2 with the initial
centroids drawn as (0,0) and (10,10), and limit 0 or limit >= 2, `KMeans` converges after
exactly 2 iterations to the centroids (3.3333333333333335, 3.3333333333333335), the
`float64` value 7505999378950827 / 2^51 of `10 / 3`, and (10,10), with the point (10,10)
alone in cluster 1 and the other three points in cluster 0. -/
theorem KMeans_square_scenario (rs : Nat → Nat) (array : List Circle) (limit : Int)
    (hsh : _shuffleElements rs squarePoints = Except.ok array)
    (hdraw : array.take 2 = [pt 0 0, pt 10 10]) (hl : limit = 0 ∨ 2 ≤ limit) :
    (initRun ieee array 2).centroids = [ct 0 0 0, ct 10 10 1] ∧
    ∃ r, KMeans ieee rs squarePoints 2 limit = Except.ok r ∧ r.iterations = 2 ∧
      r.centroids = [ct (7505999378950827 / 2 ^ 51) (7505999378950827 / 2 ^ 51) 0,
                     ct 10 10 1] ∧
      r.points = array.map (fun p =>
        { p with cluster := if p.x = F64.fin 10 ∧ p.y = F64.fin 10 then 1 else 0 }) := by
  have hsh2 : _shuffleElements rs squarePoints
      = Except.ok (shuffleLoop rs 3 0 squarePoints) := rfl
  have harr : shuffleLoop rs 3 0 squarePoints = array := by
    rw [hsh2] at hsh
    exact Except.ok.inj hsh
  have hcap : ∃ n, (cap limit).toNat = n + 2 := by
    rcases hl with h | h
    · exact ⟨9998, by simp [cap, h]⟩
    · refine ⟨(limit - 2).toNat, ?_⟩
      have : cap limit = limit := by simp [cap]; omega
      rw [this]
      omega
  obtain ⟨n, hn⟩ := hcap
  have hk : ¬ ((2 : Int) < 0 ∨ ((array.length : Nat) : Int) < 2) := by
    have : array.length = 4 := by rw [← harr]; exact shuffleLoop_length _ _ _ _
    omega
  rw [fl_KMeans_eq, hsh]
  simp only [hk, if_false, hn]
  rcases squarePoints_shuffles rs array harr hdraw with h | h
  · subst h
    refine ⟨by decide!, _, rfl, ?_⟩
    rw [fl_runFor_two ieee n _ (by decide!) (by decide!) (by decide!)]
    decide!
  · subst h
    refine ⟨by decide!, _, rfl, ?_⟩
    rw [fl_runFor_two ieee n _ (by decide!) (by decide!) (by decide!)]
    decide!

/-- C8, amended, at the draws 1, 2, 1, which shuffle the corners to
(0,0), (10,10), (0,10), (10,0). -/
theorem KMeans_square_scenario_witness :
    (initRun ieee [pt 0 0, pt 10 10, pt 0 10, pt 10 0] 2).centroids
      = [ct 0 0 0, ct 10 10 1] ∧
    ∃ r, KMeans ieee squareDraws squarePoints 2 0 = Except.ok r ∧ r.iterations = 2 ∧
      r.centroids = [ct (7505999378950827 / 2 ^ 51) (7505999378950827 / 2 ^ 51) 0,
                     ct 10 10 1] ∧
      r.points = [pt 0 0, pt 10 10, pt 0 10, pt 10 0].map (fun p =>
        { p with cluster := if p.x = F64.fin 10 ∧ p.y = F64.fin 10 then 1 else 0 }) :=
  KMeans_square_scenario squareDraws [pt 0 0, pt 10 10, pt 0 10, pt 10 0] 0 (by decide!)
    (by decide!) (Or.inl rfl)

end Rounded

end KMeansGo
